import Mathlib

/-!
Shallow embedding of the hexempire territorial-conquest game core
(hex grid, territory generation, combat resolution, turn control,
island pruning), translated from the C++ sources, together with
theorems settling the specification claims about it.

Modelling conventions:
* machine integers (`uint8_t`, `uint16_t`, `int`) are `Nat`/`Int`; the one
  place where a narrowing cast matters (`static_cast<uint8_t>` in
  `ApplyCombatResult`) is modelled with an explicit `% 256`;
* `std::mt19937` together with `uniform_int_distribution` is modelled as a
  stream of raw natural-number draws reduced into the requested interval;
* `std::unordered_map<HexCoord, TerritoryId>` is modelled as an association
  list with update-or-insert assignment;
* `float` quantities that only feed display or heuristics are modelled as
  `Rat` (timers) or `Real` (the win-probability formula).
-/

namespace Hexempire

/-- Axial hex coordinate, from HexCoord.h. -/
structure HexCoord where
  q : Int
  r : Int
  deriving DecidableEq, Repr

instance : Add HexCoord := ⟨fun a b => ⟨a.q + b.q, a.r + b.r⟩⟩

/-- Player ids are uint8; 255 denotes "no player" (PLAYER_NONE). -/
def PLAYER_NONE : Nat := 255

/-- Territory ids are uint16; 65535 denotes "no territory" (TERRITORY_NONE). -/
def TERRITORY_NONE : Nat := 65535

/-- Maximum dice on one territory (MAX_DICE_PER_TERRITORY). -/
def MAX_DICE_PER_TERRITORY : Nat := 8

/-- Territory record, from GameData.h (color-free fields). -/
structure TerritoryData where
  id : Nat
  owner : Nat
  diceCount : Nat
  hexes : List HexCoord
  neighbors : List Nat
  centerHex : HexCoord
  deriving DecidableEq, Repr

/-- TerritoryData::CanAttack: at least 2 dice. -/
def TerritoryData.CanAttack (t : TerritoryData) : Bool := 2 ≤ t.diceCount

/-- Player record, from GameData.h. -/
structure PlayerData where
  id : Nat
  isHuman : Bool
  isEliminated : Bool
  colorR : Rat
  colorG : Rat
  colorB : Rat
  name : String
  deriving DecidableEq, Repr

/-- Combat result record, from GameData.h. -/
structure CombatResult where
  attackerId : Nat
  defenderId : Nat
  attackerPlayer : Nat
  defenderPlayer : Nat
  attackerRolls : List Nat
  defenderRolls : List Nat
  attackerTotal : Nat
  defenderTotal : Nat
  attackerWins : Bool
  deriving DecidableEq, Repr

/-- Turn phases, from GameData.h. -/
inductive TurnPhase where
  | SelectAttacker
  | SelectTarget
  | Resolving
  | AITurn
  | Reinforcement
  | GameOver
  deriving DecidableEq, Repr

/-- Game configuration, from GameData.h. -/
structure GameConfig where
  gridRadius : Int
  playerCount : Int
  humanPlayerIndex : Int
  targetTerritoryCount : Int
  minTerritorySize : Int
  maxTerritorySize : Int
  startingDicePerPlayer : Int
  hexSize : Rat
  seed : Nat
  fillHoles : Bool
  minHoleSize : Int
  keepLargestIslandOnly : Bool
  deriving DecidableEq, Repr

/-- Association-list model of std::unordered_map<HexCoord, TerritoryId>. -/
abbrev HexMap : Type := List (HexCoord × Nat)

/-- Map lookup (unordered_map::find). -/
def hmGet (m : HexMap) (k : HexCoord) : Option Nat :=
  match m with
  | [] => none
  | (k0, v0) :: rest => if k0 = k then some v0 else hmGet rest k

/-- Map assignment (unordered_map::operator[] = v): update in place or insert. -/
def hmSet (m : HexMap) (k : HexCoord) (v : Nat) : HexMap :=
  match m with
  | [] => [(k, v)]
  | (k0, v0) :: rest => if k0 = k then (k, v) :: rest else (k0, v0) :: hmSet rest k v

/-- Map erase (unordered_map::erase by key). -/
def hmErase (m : HexMap) (k : HexCoord) : HexMap :=
  match m with
  | [] => []
  | (k0, v0) :: rest => if k0 = k then rest else (k0, v0) :: hmErase rest k

/-- Map over stored values (the range-for value rewrite in KeepLargestIslandOnly). -/
def hmMapValues (m : HexMap) (f : Nat → Nat) : HexMap :=
  m.map (fun p => (p.1, f p.2))

/-- Complete game state, from GameData.h. -/
structure GameState where
  config : GameConfig
  players : List PlayerData
  activePlayerCount : Int
  currentPlayer : Nat
  turnNumber : Int
  phase : TurnPhase
  territories : List TerritoryData
  hexToTerritory : HexMap
  selectedTerritory : Nat
  validTargets : List Nat
  lastCombat : CombatResult
  combatPending : Bool
  combatAnimTimer : Rat
  mapNeedsRefresh : Bool
  winner : Nat
  deriving DecidableEq, Repr

/-- GameState::GetTerritory: pointer to territories[id] when id < size, else null. -/
def GameState.GetTerritory (s : GameState) (id : Nat) : Option TerritoryData :=
  s.territories[id]?

/-- Write through a GetTerritory pointer: update territories[id] when valid. -/
def GameState.modifyTerritory (s : GameState) (id : Nat)
    (f : TerritoryData → TerritoryData) : GameState :=
  match s.territories[id]? with
  | some t => { s with territories := s.territories.set id (f t) }
  | none => s

/-- GameState::IsGameOver. -/
def GameState.IsGameOver (s : GameState) : Bool := s.winner ≠ PLAYER_NONE

/-- GameState::CountTerritoriesOwned. -/
def GameState.CountTerritoriesOwned (s : GameState) (player : Nat) : Nat :=
  (s.territories.filter (fun t => t.owner = player)).length

/-- Default-constructed PlayerData (the fallback when indexing out of range). -/
def defaultPlayer : PlayerData :=
  { id := PLAYER_NONE, isHuman := false, isEliminated := false,
    colorR := 1/2, colorG := 1/2, colorB := 1/2, name := "" }

/-- Read players[p]. -/
def GameState.playerAt (s : GameState) (p : Nat) : PlayerData :=
  (s.players[p]?).getD defaultPlayer

/-- Write players[p] (no-op out of range). -/
def GameState.modifyPlayer (s : GameState) (p : Nat)
    (f : PlayerData → PlayerData) : GameState :=
  match s.players[p]? with
  | some pd => { s with players := s.players.set p (f pd) }
  | none => s

/-! ### Random-number model

A mt19937 engine is modelled as an infinite stream of raw draws plus a
position; each `uniform_int_distribution(lo, hi)` call consumes one raw draw
and reduces it into `[lo, hi]`. -/

structure Rng where
  stream : Nat → Nat
  pos : Nat

/-- Draw one raw value and advance the engine. -/
def Rng.next (r : Rng) : Nat × Rng :=
  (r.stream r.pos, { r with pos := r.pos + 1 })

/-- Model of uniform_int_distribution(lo, hi) applied to the engine. -/
def uniformInt (lo hi : Nat) (r : Rng) : Nat × Rng :=
  let (x, r') := r.next
  (lo + x % (hi + 1 - lo), r')

/-! ### CombatSystem (CombatSystem.cpp) -/

/-- CombatSystem::RollDie: one uniform draw in 1..6. -/
def RollDie (r : Rng) : Nat × Rng := uniformInt 1 6 r

/-- CombatSystem::RollDice: roll count dice in sequence. -/
def RollDice : Nat → Rng → List Nat × Rng
  | 0, r => ([], r)
  | n + 1, r =>
    let (d, r') := RollDie r
    let (rest, r'') := RollDice n r'
    (d :: rest, r'')

/-- CombatSystem::ResolveCombat: roll both sides, sum, attacker wins on a
strictly greater total. -/
def ResolveCombat (attacker defender : TerritoryData) (r : Rng) :
    CombatResult × Rng :=
  let (attackerRolls, r1) := RollDice attacker.diceCount r
  let (defenderRolls, r2) := RollDice defender.diceCount r1
  let attackerTotal := attackerRolls.foldl (· + ·) 0
  let defenderTotal := defenderRolls.foldl (· + ·) 0
  ({ attackerId := attacker.id
     defenderId := defender.id
     attackerPlayer := attacker.owner
     defenderPlayer := defender.owner
     attackerRolls := attackerRolls
     defenderRolls := defenderRolls
     attackerTotal := attackerTotal
     defenderTotal := defenderTotal
     attackerWins := decide (defenderTotal < attackerTotal) }, r2)

/-- Narrowing cast static_cast<uint8_t> applied to an int value. -/
def u8cast (i : Int) : Nat := (i % 256).toNat

/-- CombatSystem::ApplyCombatResult, from CombatSystem.cpp. -/
def ApplyCombatResult (s : GameState) (result : CombatResult) : GameState :=
  match s.GetTerritory result.attackerId, s.GetTerritory result.defenderId with
  | some attacker, some _ =>
    if result.attackerWins then
      let movingDice := u8cast ((attacker.diceCount : Int) - 1)
      let s1 := s.modifyTerritory result.defenderId
        (fun t => { t with owner := result.attackerPlayer, diceCount := movingDice })
      let s2 := s1.modifyTerritory result.attackerId
        (fun t => { t with diceCount := 1 })
      { s2 with mapNeedsRefresh := true }
    else
      s.modifyTerritory result.attackerId (fun t => { t with diceCount := 1 })
  | _, _ => s

/-- CombatSystem::CalculateWinProbability. The float arithmetic is modelled
over the reals: per-die mean 3.5 and variance 2.917 scale with the dice
counts, the difference of means is divided by the standard deviation of the
difference, and the normal CDF is approximated by the logistic function. -/
noncomputable def CalculateWinProbability (attackerDice defenderDice : Int) :
    Real :=
  if attackerDice ≤ 0 ∨ defenderDice ≤ 0 then 0
  else
    let attackerMean := (attackerDice : Real) * 3.5
    let defenderMean := (defenderDice : Real) * 3.5
    let attackerVar := (attackerDice : Real) * 2.917
    let defenderVar := (defenderDice : Real) * 2.917
    let diffVar := attackerVar + defenderVar
    let diffStd := Real.sqrt diffVar
    let diffMean := attackerMean - defenderMean
    let z := diffMean / diffStd
    1 / (1 + Real.exp (-1.7 * z))

/-! ### GameController (GameController.cpp) -/

/-- GameController::CancelSelection. -/
def CancelSelection (s : GameState) : GameState :=
  { s with
    selectedTerritory := TERRITORY_NONE
    validTargets := []
    phase := TurnPhase.SelectAttacker }

/-- GameController::CanAttack: own source with at least 2 dice, enemy target,
adjacency through the source's neighbor list. -/
def CanAttack (s : GameState) (fromId toId : Nat) : Bool :=
  match s.GetTerritory fromId, s.GetTerritory toId with
  | some attacker, some defender =>
    if attacker.owner ≠ s.currentPlayer then false
    else if ¬ attacker.CanAttack then false
    else if defender.owner = s.currentPlayer then false
    else decide (toId ∈ attacker.neighbors)
  | _, _ => false

/-- GameController::GetValidTargets. -/
def GetValidTargets (s : GameState) (fromId : Nat) : List Nat :=
  match s.GetTerritory fromId with
  | none => []
  | some attacker =>
    if ¬ attacker.CanAttack then []
    else attacker.neighbors.filter (fun nb => CanAttack s fromId nb)

/-- GameController::UpdateValidTargets. -/
def UpdateValidTargets (s : GameState) : GameState :=
  { s with validTargets := GetValidTargets s s.selectedTerritory }

/-- GameController::SelectTerritory. -/
def SelectTerritory (s : GameState) (territory : Nat) : Bool × GameState :=
  if s.phase ≠ TurnPhase.SelectAttacker ∧ s.phase ≠ TurnPhase.SelectTarget then
    (false, s)
  else if territory = s.selectedTerritory then
    (false, CancelSelection s)
  else
    match s.GetTerritory territory with
    | none => (false, s)
    | some t =>
      if t.owner ≠ s.currentPlayer then (false, s)
      else if ¬ t.CanAttack then (false, s)
      else
        let s1 := { s with
          selectedTerritory := territory
          phase := TurnPhase.SelectTarget }
        (true, UpdateValidTargets s1)

/-- Helper for GameController::CheckVictory: the scan over territories that
either finds a common owner or returns early on mixed ownership. -/
def victoryOwner : List TerritoryData → Nat → Option Nat
  | [], acc => some acc
  | t :: ts, acc =>
    if acc = PLAYER_NONE then victoryOwner ts t.owner
    else if t.owner ≠ acc then none
    else victoryOwner ts acc

/-- GameController::CheckVictory. -/
def CheckVictory (s : GameState) : GameState :=
  match victoryOwner s.territories PLAYER_NONE with
  | none => s
  | some firstOwner =>
    if firstOwner ≠ PLAYER_NONE then
      { s with
        winner := firstOwner
        phase := TurnPhase.GameOver }
    else s

/-- One iteration of the player scan in GameController::CheckElimination. -/
def elimStep (st : GameState) (p : Nat) : GameState :=
  if (st.playerAt p).isEliminated then st
  else if st.CountTerritoriesOwned p = 0 then
    let st1 := st.modifyPlayer p (fun pd => { pd with isEliminated := true })
    { st1 with activePlayerCount := st1.activePlayerCount - 1 }
  else st

/-- GameController::CheckElimination. -/
def CheckElimination (s : GameState) : GameState :=
  (List.range s.config.playerCount.toNat).foldl elimStep s

/-- GameController::StartTurn (the AI think-timer is a controller member,
not part of GameState, and is omitted). -/
def StartTurn (s : GameState) (player : Nat) : GameState :=
  let s1 := { s with
    currentPlayer := player
    selectedTerritory := TERRITORY_NONE
    validTargets := [] }
  if (s1.playerAt player).isHuman then
    { s1 with phase := TurnPhase.SelectAttacker }
  else
    { s1 with phase := TurnPhase.AITurn }

/-- Loop of GameController::AdvanceToNextPlayer: step to the next
non-eliminated player, or none when the scan wraps to the current player.
The do-while visits at most playerCount distinct positions, so the fuel
passed by AdvanceToNextPlayer is never exhausted. -/
def advanceLoop (s : GameState) : Nat → Nat → Option Nat
  | 0, _ => none
  | fuel + 1, next =>
    let nx := (next + 1) % s.config.playerCount.toNat
    if nx = s.currentPlayer then none
    else if (s.playerAt nx).isEliminated then advanceLoop s fuel nx
    else some nx

/-- GameController::AdvanceToNextPlayer. -/
def AdvanceToNextPlayer (s : GameState) : GameState :=
  match advanceLoop s (s.config.playerCount.toNat + 1) s.currentPlayer with
  | none =>
    { s with
      phase := TurnPhase.GameOver
      winner := s.currentPlayer }
  | some next =>
    let s1 := if next ≤ s.currentPlayer then
        { s with turnNumber := s.turnNumber + 1 }
      else s
    StartTurn s1 next

/-- Tail of GameController::Attack after combat has been resolved: apply the
result, cache it for display, run the elimination and victory checks, clear
the selection, and return to SelectAttacker for a human player unless the
game ended. -/
def attackResolvedState (s : GameState) (result : CombatResult) : GameState :=
  let s1 := ApplyCombatResult s result
  let s2 := { s1 with
    lastCombat := result
    combatPending := true
    combatAnimTimer := (3 : Rat) / 2 }
  let s3 := CheckVictory (CheckElimination s2)
  let s4 := { s3 with
    selectedTerritory := TERRITORY_NONE
    validTargets := [] }
  if ¬ s4.IsGameOver then
    if (s4.playerAt s4.currentPlayer).isHuman then
      { s4 with phase := TurnPhase.SelectAttacker }
    else s4
  else s4

/-- GameController::Attack. Combat randomness threads the engine through the
return value. -/
def Attack (s : GameState) (r : Rng) (target : Nat) : Bool × GameState × Rng :=
  if s.phase ≠ TurnPhase.SelectTarget ∧ s.phase ≠ TurnPhase.AITurn then
    (false, s, r)
  else
    let fromId := s.selectedTerritory
    if fromId = TERRITORY_NONE then (false, s, r)
    else if ¬ CanAttack s fromId target then (false, s, r)
    else
      match s.GetTerritory fromId, s.GetTerritory target with
      | some attacker, some defender =>
        let rc := ResolveCombat attacker defender r
        (true, attackResolvedState s rc.1, rc.2)
      | _, _ => (false, s, r)

/-- Push step of the BFS in GameController::FindLargestContiguousRegion:
enqueue an unvisited same-owner neighbor and mark it visited. -/
def bfsPush (ts : List TerritoryData) (player : Nat)
    (acc : List Nat × Finset Nat) (nb : Nat) : List Nat × Finset Nat :=
  match ts[nb]? with
  | some nt =>
    if nt.owner = player ∧ nb ∉ acc.2 then (acc.1 ++ [nb], insert nb acc.2)
    else acc
  | none => acc

/-- BFS loop of GameController::FindLargestContiguousRegion: pop the queue
front, count it, push unvisited same-owner neighbors. One unit of fuel is
one loop iteration; FindLargestContiguousRegion passes enough fuel for the
queue to drain (each push inserts a fresh index below ts.length into the
visited set, so iterations never exceed ts.length + 1). -/
def bfsLoop (ts : List TerritoryData) (player : Nat) :
    Nat → List Nat → Finset Nat → Nat → Nat × Finset Nat
  | 0, _, vis, size => (size, vis)
  | _ + 1, [], vis, size => (size, vis)
  | fuel + 1, current :: rest, vis, size =>
    match ts[current]? with
    | none => bfsLoop ts player fuel rest vis (size + 1)
    | some t =>
      let pushed := t.neighbors.foldl (bfsPush ts player) (rest, vis)
      bfsLoop ts player fuel pushed.1 pushed.2 (size + 1)

/-- Outer loop of GameController::FindLargestContiguousRegion over the
player's territories, sharing the visited set. -/
def flcrLoop (ts : List TerritoryData) (player : Nat) :
    List Nat → Finset Nat → Nat → Nat
  | [], _, largest => largest
  | start :: rest, vis, largest =>
    if start ∈ vis then flcrLoop ts player rest vis largest
    else
      let res := bfsLoop ts player (ts.length + 1) [start] (insert start vis) 0
      flcrLoop ts player rest res.2 (max largest res.1)

/-- GameController::FindLargestContiguousRegion. -/
def FindLargestContiguousRegion (s : GameState) (player : Nat) : Nat :=
  let playerTerritories :=
    (s.territories.filter (fun t => decide (t.owner = player))).map (fun t => t.id)
  if playerTerritories = [] then 0
  else flcrLoop s.territories player playerTerritories ∅ 0

/-- GameController::CalculateReinforcements. -/
def CalculateReinforcements (s : GameState) (player : Nat) : Nat :=
  FindLargestContiguousRegion s player

/-- Loop of GameController::DistributeReinforcements: pick a random eligible
territory, add a die if it is not full, drop full slots from the pool. -/
def distLoop (s : GameState) (r : Rng) (diceCount : Nat) (eligible : List Nat) :
    GameState :=
  if _h : diceCount = 0 ∨ eligible = [] then s
  else
    match _hdraw : uniformInt 0 (eligible.length - 1) r with
    | (idx, r') =>
      let tid := eligible.getD idx TERRITORY_NONE
      match s.GetTerritory tid with
      | some t =>
        if t.diceCount < MAX_DICE_PER_TERRITORY then
          let s1 := s.modifyTerritory tid
            (fun u => { u with diceCount := u.diceCount + 1 })
          if MAX_DICE_PER_TERRITORY ≤ t.diceCount + 1 then
            distLoop s1 r' (diceCount - 1) (eligible.eraseIdx idx)
          else
            distLoop s1 r' (diceCount - 1) eligible
        else
          distLoop s r' diceCount (eligible.eraseIdx idx)
      | none => distLoop s r' diceCount (eligible.eraseIdx idx)
termination_by diceCount + eligible.length
decreasing_by
  all_goals
    simp only [not_or] at _h
    have hlen0 : 0 < eligible.length := by
      cases eligible
      · exact absurd rfl _h.2
      · simp
    have hidx : idx < eligible.length := by
      have hufst : (uniformInt 0 (eligible.length - 1) r).1 < eligible.length := by
        unfold uniformInt Rng.next
        simp only
        have hm : eligible.length - 1 + 1 - 0 = eligible.length := by omega
        rw [hm]
        have := Nat.mod_lt (r.stream r.pos) hlen0
        omega
      rw [_hdraw] at hufst
      exact hufst
    have herase2 : (eligible.eraseIdx idx).length < eligible.length := by
      rw [List.length_eraseIdx]
      simp only [hidx, if_true]
      omega
    omega

/-- GameController::DistributeReinforcements (the internal freshly seeded
mt19937 is supplied as an engine argument). -/
def DistributeReinforcements (s : GameState) (player : Nat) (diceCount : Nat)
    (r : Rng) : GameState :=
  let eligible :=
    (s.territories.filter
      (fun t => decide (t.owner = player ∧
        t.diceCount < MAX_DICE_PER_TERRITORY))).map (fun t => t.id)
  if eligible = [] then s
  else distLoop s r diceCount eligible

/-- GameController::EndTurn. -/
def EndTurn (s : GameState) (r : Rng) : GameState :=
  if s.phase = TurnPhase.GameOver then s
  else
    let s1 := CancelSelection s
    let reinforcements := CalculateReinforcements s1 s1.currentPlayer
    let s2 :=
      if 0 < reinforcements then
        DistributeReinforcements s1 s1.currentPlayer reinforcements r
      else s1
    AdvanceToNextPlayer s2

/-! ### Specification-side relations

These definitions follow the specification's words ("maximal set of the
player's territories mutually reachable through owned territory adjacency",
"maximal set of territories connected through the territory-adjacency
graph") and are compared against the source-translated algorithms. -/

/-- One owned-adjacency step between territory indices: both indices hold
territories of the given player and the second is listed among the first's
neighbors. -/
def ownedAdj (ts : List TerritoryData) (player : Nat) (i j : Nat) : Prop :=
  ∃ ti tj, ts[i]? = some ti ∧ ts[j]? = some tj ∧
    ti.owner = player ∧ tj.owner = player ∧ j ∈ ti.neighbors

/-- Mutual reachability through owned territory adjacency. -/
def ownedReach (ts : List TerritoryData) (player : Nat) (i j : Nat) : Prop :=
  Relation.ReflTransGen (ownedAdj ts player) i j

/-- The contiguous region containing an owned territory index. -/
def ownedComponent (ts : List TerritoryData) (player : Nat) (i : Nat) :
    Set Nat :=
  { j | ownedReach ts player i j }

/-- The index holds a territory of the given player. -/
def ownedIdx (ts : List TerritoryData) (player : Nat) (i : Nat) : Prop :=
  ∃ t, ts[i]? = some t ∧ t.owner = player

/-! ### IslandDetector -/

/-- IslandDetector::DFSTerritory (fuel-indexed; the island accumulator is
the member list together with the running totalHexCount). The recursion
inserts the current id, appends it to the island, and on a live territory
adds its hex count and folds the DFS over the neighbor list. -/
def DFSTerritory (s : GameState) : Nat → Nat → Finset Nat →
    List Nat × Nat → Finset Nat × (List Nat × Nat)
  | 0, _, visited, island => (visited, island)
  | fuel + 1, current, visited, island =>
    match s.GetTerritory current with
    | none => (insert current visited, (island.1 ++ [current], island.2))
    | some t =>
      t.neighbors.foldl
        (fun acc nb =>
          if nb ∈ acc.1 then acc
          else DFSTerritory s fuel nb acc.1 acc.2)
        (insert current visited,
          (island.1 ++ [current], island.2 + t.hexes.length))

/-- The neighbor fold inside DFSTerritory, named for the proofs. -/
def dfsFold (s : GameState) (fuel : Nat) (ns : List Nat)
    (acc : Finset Nat × (List Nat × Nat)) : Finset Nat × (List Nat × Nat) :=
  ns.foldl
    (fun acc nb =>
      if nb ∈ acc.1 then acc
      else DFSTerritory s fuel nb acc.1 acc.2) acc

/-- Outer loop of IslandDetector::FindIslands over the territory vector. -/
def fiLoop (s : GameState) : List TerritoryData → Finset Nat →
    List (List Nat × Nat) → Finset Nat × List (List Nat × Nat)
  | [], visited, islands => (visited, islands)
  | t :: rest, visited, islands =>
    if t.id ∈ visited then fiLoop s rest visited islands
    else
      let out := DFSTerritory s (s.territories.length + 1) t.id visited ([], 0)
      fiLoop s rest out.1 (islands ++ [out.2])

/-- IslandDetector::FindIslands. -/
def FindIslands (s : GameState) : List (List Nat × Nat) :=
  (fiLoop s s.territories ∅ []).2

/-- Largest-island selection loop of KeepLargestIslandOnly (strictly larger
totalHexCount replaces the running best, scanning indices 1..size-1). -/
def largestIslandIdx (islands : List (List Nat × Nat)) : Nat :=
  ((List.range islands.length).drop 1).foldl
    (fun best i =>
      if (islands.getD best ([], 0)).2 < (islands.getD i ([], 0)).2 then i
      else best) 0

/-- Hex-map cleanup for one removed territory: erase all its hexes from
hexToTerritory (looked up through GetTerritory on the current state). -/
def removeOne (s : GameState) (tid : Nat) : GameState :=
  match s.GetTerritory tid with
  | none => s
  | some t =>
    { s with hexToTerritory := t.hexes.foldl (fun m h => hmErase m h) s.hexToTerritory }

/-- Removal pass of KeepLargestIslandOnly: every island except the largest
contributes its members to the removed list and loses its hexes from the
hexToTerritory map. -/
def removeLoop (s : GameState) (islands : List (List Nat × Nat))
    (largestIdx : Nat) : GameState × List Nat :=
  ((List.range islands.length).filter (fun i => decide (i ≠ largestIdx))).foldl
    (fun acc i =>
      (islands.getD i ([], 0)).1.foldl
        (fun acc2 tid => (removeOne acc2.1 tid, acc2.2 ++ [tid])) acc)
    (s, [])

/-- Rebuild pass of KeepLargestIslandOnly: keep the territories whose old
id is in the keep set, renumbering them densely from the counter and
recording the old-to-new pairs of idRemap in order. -/
def rebuildLoop (keep : List Nat) : List TerritoryData → Nat →
    List TerritoryData × List (Nat × Nat)
  | [], _ => ([], [])
  | t :: rest, newId =>
    if t.id ∈ keep then
      let res := rebuildLoop keep rest (newId + 1)
      ({ t with id := newId } :: res.1, (t.id, newId) :: res.2)
    else rebuildLoop keep rest newId

/-- Lookup in the idRemap association list. -/
def remapGet : List (Nat × Nat) → Nat → Option Nat
  | [], _ => none
  | (a, b) :: rest, x => if x = a then some b else remapGet rest x

/-- IslandDetector::KeepLargestIslandOnly: find the islands; if at most one
exists return the untouched state and no removed ids; otherwise drop every
island but the largest, rebuild the territory vector with dense ids, remap
the neighbor lists through idRemap (dropping references to removed
territories) and rewrite the hexToTerritory values through idRemap. -/
def KeepLargestIslandOnly (s : GameState) : GameState × List Nat :=
  let islands := FindIslands s
  if islands.length ≤ 1 then (s, [])
  else
    let largestIdx := largestIslandIdx islands
    let keep := (islands.getD largestIdx ([], 0)).1
    let removedPair := removeLoop s islands largestIdx
    let rebuilt := rebuildLoop keep removedPair.1.territories 0
    let kept2 := rebuilt.1.map (fun t =>
      { t with neighbors := t.neighbors.filterMap (remapGet rebuilt.2) })
    ({ removedPair.1 with
        territories := kept2
        hexToTerritory := hmMapValues removedPair.1.hexToTerritory
          (fun v => (remapGet rebuilt.2 v).getD v) },
      removedPair.2)

/-- Specification-side step for DFS reachability: one neighbor hop whose
target lies outside the avoided set. -/
def reachStep (s : GameState) (avoid : Finset Nat) (u v : Nat) : Prop :=
  v ∉ avoid ∧ ∃ t, s.GetTerritory u = some t ∧ v ∈ t.neighbors

/-- Specification-side DFS reachability avoiding a visited set. -/
def reachAvoid (s : GameState) (avoid : Finset Nat) (x y : Nat) : Prop :=
  Relation.ReflTransGen (reachStep s avoid) x y

/-! ### HexGrid and TerritoryGenerator -/

/-- The six pointy-top neighbor directions (HEX_DIRECTIONS), East then
counter-clockwise. -/
def HEX_DIRECTIONS : List HexCoord :=
  [⟨1, 0⟩, ⟨1, -1⟩, ⟨0, -1⟩, ⟨-1, 0⟩, ⟨-1, 1⟩, ⟨0, 1⟩]

/-- Inclusive integer range a..b. -/
def intRange (a b : Int) : List Int :=
  (List.range (b + 1 - a).toNat).map (fun (k : Nat) => a + (k : Int))

/-- HexGrid::GenerateHexagonalGrid: the hexagonal disc of the given radius
in axial coordinates, column by column. -/
def GenerateHexagonalGrid (radius : Int) : List HexCoord :=
  (intRange (-radius) radius).flatMap (fun q =>
    (intRange (max (-radius) (-q - radius)) (min radius (-q + radius))).map
      (fun r => ⟨q, r⟩))

/-- HexGrid::GetNeighbors: the in-grid neighbors in direction order
(membership in the coordinate list models the validity set). -/
def GetNeighbors (grid : List HexCoord) (c : HexCoord) : List HexCoord :=
  (HEX_DIRECTIONS.map (fun d => c + d)).filter (fun n => decide (n ∈ grid))

/-- HexCoord::DistanceTo: cube-coordinate Manhattan distance halved. -/
def hexDist (a b : HexCoord) : Nat :=
  ((a.q - b.q).natAbs + ((a.q + a.r) - (b.q + b.r)).natAbs +
    (a.r - b.r).natAbs) / 2

/-- First seed-selection pass of SelectSeedPoints: scan the shuffled
candidates, stop at the target count, and skip candidates within the
minimum distance of an already chosen seed. -/
def seedPass1 (md tc : Nat) : List HexCoord → List HexCoord → List HexCoord
  | [], seeds => seeds
  | c :: rest, seeds =>
    if tc ≤ seeds.length then seeds
    else if seeds.any (fun sd => decide (hexDist c sd < md)) then
      seedPass1 md tc rest seeds
    else seedPass1 md tc rest (seeds ++ [c])

/-- Relaxed second pass of SelectSeedPoints: take every step-th shuffled
candidate until the target count is reached (the fuel bounds the index
scan). -/
def seedPass2 (candidates : List HexCoord) (step tc : Nat) :
    Nat → Nat → List HexCoord → List HexCoord
  | 0, _, seeds => seeds
  | fuel + 1, i, seeds =>
    if i < candidates.length ∧ seeds.length < tc then
      seedPass2 candidates step tc fuel (i + step)
        (seeds ++ [candidates.getD i ⟨0, 0⟩])
    else seeds

/-- TerritoryGenerator::SelectSeedPoints (the std::shuffle call is supplied
as a permutation oracle; the float square root of the minimum-distance
heuristic is modelled with the natural-number square root, and sqrt(x)*0.8
truncated becomes sqrt(x)*4/5). -/
def SelectSeedPoints (allCoords : List HexCoord) (targetCount : Int)
    (shuffle : List HexCoord → List HexCoord) : List HexCoord :=
  if allCoords = [] ∨ targetCount ≤ 0 then []
  else
    let candidates := shuffle allCoords
    let minDistance :=
      max 1 (Nat.sqrt (allCoords.length / targetCount.toNat) * 4 / 5)
    let seeds := seedPass1 minDistance targetCount.toNat candidates []
    if seeds.length < targetCount.toNat / 2 then
      seedPass2 candidates (max 1 (candidates.length / targetCount.toNat))
        targetCount.toNat candidates.length 0 []
    else seeds

/-- Strict ordering on flood-fill queue items: the std::tuple comparison on
(distance, HexCoord compared q-then-r, territory id). -/
def qiLt (a b : Int × HexCoord × Nat) : Bool :=
  if a.1 ≠ b.1 then decide (a.1 < b.1)
  else if a.2.1.q ≠ b.2.1.q then decide (a.2.1.q < b.2.1.q)
  else if a.2.1.r ≠ b.2.1.r then decide (a.2.1.r < b.2.1.r)
  else decide (a.2.2 < b.2.2)

/-- Pop the minimum item of the flood-fill queue (std::priority_queue with
std::greater). -/
def popMin : List (Int × HexCoord × Nat) →
    Option ((Int × HexCoord × Nat) × List (Int × HexCoord × Nat))
  | [] => none
  | x :: rest =>
    match popMin rest with
    | none => some (x, [])
    | some (m, rest2) =>
      if qiLt m x then some (m, x :: rest2) else some (x, rest)

/-- Neighbor-push step of the flood fill: enqueue an unassigned neighbor
at jittered distance. -/
def floodPush (asg2 : Finset HexCoord) (dist : Int) (tid : Nat)
    (acc : List (Int × HexCoord × Nat) × Rng) (nb : HexCoord) :
    List (Int × HexCoord × Nat) × Rng :=
  if nb ∈ asg2 then acc
  else
    let draw := uniformInt 0 2 acc.2
    (acc.1 ++ [(dist + 1 + (draw.1 : Int), nb, tid)], draw.2)

/-- Flood-fill loop of FloodFillTerritories: pop the nearest queued hex,
skip it if assigned, otherwise assign it to its territory and enqueue its
unassigned neighbors at jittered distance. -/
def floodLoop (grid : List HexCoord) :
    Nat → List (Int × HexCoord × Nat) → Rng → List TerritoryData →
    HexMap → Finset HexCoord →
    List TerritoryData × HexMap × Finset HexCoord × Rng
  | 0, _, r, ts, h2t, asg => (ts, h2t, asg, r)
  | fuel + 1, q, r, ts, h2t, asg =>
    match popMin q with
    | none => (ts, h2t, asg, r)
    | some ((dist, coord, tid), rest) =>
      if coord ∈ asg then floodLoop grid fuel rest r ts h2t asg
      else
        let ts2 :=
          match ts[tid]? with
          | some t => ts.set tid { t with hexes := t.hexes ++ [coord] }
          | none => ts
        let pr := (GetNeighbors grid coord).foldl
          (floodPush (insert coord asg) dist tid) (rest, r)
        floodLoop grid fuel pr.1 pr.2 ts2 (hmSet h2t coord tid)
          (insert coord asg)

/-- TerritoryGenerator::FloodFillTerritories: seed one empty territory per
seed point, queue the seeds at distance 0, and run the flood fill. -/
def FloodFillTerritories (grid : List HexCoord) (seeds : List HexCoord)
    (s : GameState) (r : Rng) : GameState × Rng :=
  let ts0 := (List.range seeds.length).map (fun i =>
    ({ id := i, owner := PLAYER_NONE, diceCount := 1, hexes := [],
       neighbors := [], centerHex := ⟨0, 0⟩ } : TerritoryData))
  let q0 := seeds.enum.map (fun p => ((0 : Int), p.2, p.1))
  let out := floodLoop grid (seeds.length + 7 * grid.length + 1) q0 r
    (s.territories ++ ts0) s.hexToTerritory ∅
  ({ s with
      territories := out.1
      hexToTerritory := out.2.1 }, out.2.2.2)

/-- GameState::GetTerritoryAt. -/
def GameState.GetTerritoryAt (s : GameState) (c : HexCoord) : Nat :=
  match hmGet s.hexToTerritory c with
  | some tid => tid
  | none => TERRITORY_NONE

/-- Neighbor collection of CalculateTerritoryNeighbors for one territory
(the unordered set is modelled as first-encounter-order deduplication). -/
def territoryNbrs (grid : List HexCoord) (s : GameState)
    (t : TerritoryData) : List Nat :=
  (t.hexes.flatMap (fun h => GetNeighbors grid h)).foldl
    (fun acc nb =>
      let tidn := s.GetTerritoryAt nb
      if tidn ≠ TERRITORY_NONE ∧ tidn ≠ t.id ∧ tidn ∉ acc then acc ++ [tidn]
      else acc) []

/-- TerritoryGenerator::CalculateTerritoryNeighbors. -/
def CalculateTerritoryNeighbors (grid : List HexCoord) (s : GameState) :
    GameState :=
  { s with territories := s.territories.map (fun t =>
      { t with neighbors := territoryNbrs grid s t }) }

/-- TerritoryGenerator::FindTerritoryCenter (float centroid arithmetic over
the rationals; the float-max sentinel is an Option). -/
def FindTerritoryCenter (t : TerritoryData) : HexCoord :=
  if t.hexes = [] then ⟨0, 0⟩
  else if t.hexes.length = 1 then t.hexes.getD 0 ⟨0, 0⟩
  else
    let n : Rat := t.hexes.length
    let avgQ : Rat := (t.hexes.foldl (fun a h => a + (h.q : Rat)) 0) / n
    let avgR : Rat := (t.hexes.foldl (fun a h => a + (h.r : Rat)) 0) / n
    (t.hexes.foldl
      (fun (acc : HexCoord × Option Rat) h =>
        let dx := (h.q : Rat) - avgQ
        let dy := (h.r : Rat) - avgR
        let d := dx * dx + dy * dy
        match acc.2 with
        | none => (h, some d)
        | some m => if d < m then (h, some d) else acc)
      (t.hexes.getD 0 ⟨0, 0⟩, none)).1

/-- TerritoryGenerator::Generate: clear, select seeds, flood fill,
compute adjacency, then recentre every territory. -/
def TerritoryGenerator.Generate (grid : List HexCoord) (s : GameState)
    (shuffle : List HexCoord → List HexCoord) (r : Rng) : GameState × Rng :=
  let s1 := { s with
      territories := []
      hexToTerritory := [] }
  let seeds := SelectSeedPoints grid s.config.targetTerritoryCount shuffle
  let out := FloodFillTerritories grid seeds s1 r
  let s2 := CalculateTerritoryNeighbors grid out.1
  ({ s2 with territories := s2.territories.map (fun t =>
      { t with centerHex := FindTerritoryCenter t }) }, out.2)

/-- Specification-side hex adjacency inside the grid. -/
def gridAdj (grid : List HexCoord) (a b : HexCoord) : Prop :=
  a ∈ grid ∧ b ∈ GetNeighbors grid a

/-- Specification-side hex connectivity inside the grid. -/
def gridReach (grid : List HexCoord) (a b : HexCoord) : Prop :=
  Relation.ReflTransGen (gridAdj grid) a b

/-! ### Concrete example states used by counterexamples and witnesses -/

/-- Example territories for concrete combat evaluations. -/
def tinyTerritory (id owner dice : Nat) : TerritoryData :=
  { id := id, owner := owner, diceCount := dice, hexes := [],
    neighbors := [], centerHex := ⟨0, 0⟩ }

/-- Constant-stream engine: every raw draw is x. -/
def constRng (x : Nat) : Rng := { stream := fun _ => x, pos := 0 }

/-- Sample configuration record (values of GameConfig defaults with a fixed seed). -/
def mkConfig : GameConfig :=
  { gridRadius := 8, playerCount := 2, humanPlayerIndex := 0,
    targetTerritoryCount := 48, minTerritorySize := 3, maxTerritorySize := 12,
    startingDicePerPlayer := 20, hexSize := 24, seed := 1,
    fillHoles := false, minHoleSize := 4, keepLargestIslandOnly := false }

/-- Default-constructed CombatResult. -/
def emptyCombat : CombatResult :=
  { attackerId := TERRITORY_NONE, defenderId := TERRITORY_NONE,
    attackerPlayer := PLAYER_NONE, defenderPlayer := PLAYER_NONE,
    attackerRolls := [], defenderRolls := [], attackerTotal := 0,
    defenderTotal := 0, attackerWins := false }

/-- Simple player record. -/
def mkPlayer (id : Nat) (isHuman : Bool) : PlayerData :=
  { id := id, isHuman := isHuman, isEliminated := false,
    colorR := 0, colorG := 0, colorB := 0, name := "" }

/-- Game state with the given territories, players, current player and phase. -/
def mkState (ts : List TerritoryData) (players : List PlayerData)
    (cur : Nat) (phase : TurnPhase) : GameState :=
  { config := mkConfig, players := players, activePlayerCount := 2,
    currentPlayer := cur, turnNumber := 1, phase := phase, territories := ts,
    hexToTerritory := [], selectedTerritory := TERRITORY_NONE,
    validTargets := [], lastCombat := emptyCombat, combatPending := false,
    combatAnimTimer := 0, mapNeedsRefresh := false, winner := PLAYER_NONE }

/-- State with a single territory holding 5 dice, used against C3. -/
def aliasState : GameState :=
  mkState [tinyTerritory 0 2 5] [mkPlayer 0 true, mkPlayer 1 false]
    0 TurnPhase.SelectAttacker

/-- Winning combat result whose attacker and defender ids coincide. -/
def aliasResult : CombatResult :=
  { emptyCombat with
    attackerId := 0
    defenderId := 0
    attackerPlayer := 3
    defenderPlayer := 2
    attackerWins := true }

/-- Two-territory state: territory 0 (owner 0, 5 dice), territory 1
(owner 1, 3 dice). -/
def twoState : GameState :=
  mkState [tinyTerritory 0 0 5, tinyTerritory 1 1 3]
    [mkPlayer 0 true, mkPlayer 1 false] 0 TurnPhase.SelectAttacker

/-- Winning combat result from territory 0 into territory 1. -/
def twoResult : CombatResult :=
  { emptyCombat with
    attackerId := 0
    defenderId := 1
    attackerPlayer := 0
    defenderPlayer := 1
    attackerWins := true }


/-- State in target-selection phase with territory 0 selected. -/
def selTargetState : GameState :=
  { twoState with
    phase := TurnPhase.SelectTarget
    selectedTerritory := 0
    validTargets := [1] }

/-- State whose game is already over. -/
def goState : GameState :=
  { twoState with phase := TurnPhase.GameOver }

/-- Two mutually adjacent territories with player 0 ready to attack from
territory 0 (phase SelectTarget, territory 0 selected). -/
def attackableState : GameState :=
  { mkState
      [{ id := 0, owner := 0, diceCount := 5, hexes := [],
         neighbors := [1], centerHex := ⟨0, 0⟩ },
       { id := 1, owner := 1, diceCount := 3, hexes := [],
         neighbors := [0], centerHex := ⟨1, 0⟩ }]
      [mkPlayer 0 true, mkPlayer 1 false] 0 TurnPhase.SelectTarget with
    selectedTerritory := 0 }

/-- Map with two islands: territories 0 and 1 are mutually adjacent (three
hexes in total), territory 2 is isolated with one hex. -/
def islandState : GameState :=
  mkState
    [{ id := 0, owner := 0, diceCount := 2, hexes := [⟨0, 0⟩, ⟨1, 0⟩],
       neighbors := [1], centerHex := ⟨0, 0⟩ },
     { id := 1, owner := 1, diceCount := 2, hexes := [⟨2, 0⟩],
       neighbors := [0], centerHex := ⟨2, 0⟩ },
     { id := 2, owner := 0, diceCount := 2, hexes := [⟨5, 5⟩],
       neighbors := [], centerHex := ⟨5, 5⟩ }]
    [mkPlayer 0 true, mkPlayer 1 false] 0 TurnPhase.SelectAttacker

/-! ### Claim C1: tie behaviour of ResolveCombat -/

/-- Claim C1. The spec and the comment in CombatSystem.cpp state that ties
favor the attacker, but `attackerWins` is computed with a strict comparison:
with one die per side and the constant-zero engine both totals are 1, yet
`attackerWins` is false. The code contradicts its own documentation, so the
claim is recorded as a code bug, witnessed by this concrete evaluation. -/
theorem C1_tie_goes_to_defender_in_code :
    (ResolveCombat (tinyTerritory 0 0 1) (tinyTerritory 1 1 1)
      (constRng 0)).1.attackerTotal =
      (ResolveCombat (tinyTerritory 0 0 1) (tinyTerritory 1 1 1)
        (constRng 0)).1.defenderTotal ∧
    (ResolveCombat (tinyTerritory 0 0 1) (tinyTerritory 1 1 1)
      (constRng 0)).1.attackerWins = false := by
  constructor <;> rfl

/-! ### Claim C3: effect of ApplyCombatResult on the two territories -/

/-- Claim C3 as frozen quantifies over every game state and every combat
result. A result whose attackerId and defenderId coincide refutes it: both
pointers alias one territory, so the final write leaves 1 die there instead
of the promised attackerDiceBefore - 1. Here territory 0 holds 5 dice and
the aliased winning result leaves it with 1 die, not 4. -/
theorem C3_counterexample :
    aliasResult.attackerWins = true ∧
    ¬ (((ApplyCombatResult aliasState aliasResult).GetTerritory
        aliasResult.defenderId).map TerritoryData.diceCount = some (5 - 1)) := by
  decide

/-- Auxiliary: the uint8 narrowing cast in ApplyCombatResult is the identity
on the dice values the data model admits. -/
theorem u8cast_pred (d : Nat) (h1 : 1 ≤ d) (h255 : d ≤ 255) :
    u8cast ((d : Int) - 1) = d - 1 := by
  unfold u8cast
  have h0 : (0 : Int) ≤ (d : Int) - 1 := by omega
  have hlt : (d : Int) - 1 < 256 := by omega
  rw [Int.emod_eq_of_lt h0 hlt]
  omega

/-- Equation lemma: writing through a valid territory pointer. -/
theorem modifyTerritory_eq (s : GameState) (id : Nat) (t : TerritoryData)
    (f : TerritoryData → TerritoryData) (h : s.territories[id]? = some t) :
    s.modifyTerritory id f = { s with territories := s.territories.set id (f t) } := by
  unfold GameState.modifyTerritory
  rw [h]

/-- Equation lemma for ApplyCombatResult when the attacker wins. -/
theorem ApplyCombatResult_win (s : GameState) (res : CombatResult)
    (attacker defender : TerritoryData)
    (ha : s.GetTerritory res.attackerId = some attacker)
    (hd : s.GetTerritory res.defenderId = some defender)
    (hw : res.attackerWins = true) :
    ApplyCombatResult s res =
      { (s.modifyTerritory res.defenderId
          (fun t => { t with
            owner := res.attackerPlayer
            diceCount := u8cast ((attacker.diceCount : Int) - 1) })).modifyTerritory
          res.attackerId (fun t => { t with diceCount := 1 }) with
        mapNeedsRefresh := true } := by
  unfold ApplyCombatResult
  rw [ha, hd, hw]
  rfl

/-- Equation lemma for ApplyCombatResult when the defender wins. -/
theorem ApplyCombatResult_lose (s : GameState) (res : CombatResult)
    (attacker defender : TerritoryData)
    (ha : s.GetTerritory res.attackerId = some attacker)
    (hd : s.GetTerritory res.defenderId = some defender)
    (hw : res.attackerWins = false) :
    ApplyCombatResult s res =
      s.modifyTerritory res.attackerId (fun t => { t with diceCount := 1 }) := by
  unfold ApplyCombatResult
  rw [ha, hd, hw]
  simp

/-- Equation lemma for ApplyCombatResult when a territory pointer is null. -/
theorem ApplyCombatResult_invalid (s : GameState) (res : CombatResult)
    (h : s.GetTerritory res.attackerId = none ∨
      s.GetTerritory res.defenderId = none) :
    ApplyCombatResult s res = s := by
  rcases h with h | h
  · unfold ApplyCombatResult
    rw [h]
  · unfold ApplyCombatResult
    rw [h]
    cases s.GetTerritory res.attackerId <;> rfl

/-- Claim C3 (amended): for every game state and combat result whose attacker
and defender ids are indices of two distinct existing territories, the
attacker territory holding at least one (uint8-representable) die: if the
attacker won, the defender territory keeps its hexes and neighbors but gets
the attacker player as owner and attackerDiceBefore - 1 dice, the attacker
territory drops to exactly 1 die, and the map-refresh flag is set; if the
defender won, the attacker territory drops to 1 die and the defender
territory is completely unchanged. -/
theorem C3_apply_combat_result (s : GameState) (res : CombatResult)
    (attacker defender : TerritoryData)
    (ha : s.GetTerritory res.attackerId = some attacker)
    (hd : s.GetTerritory res.defenderId = some defender)
    (hne : res.attackerId ≠ res.defenderId)
    (h1 : 1 ≤ attacker.diceCount) (h255 : attacker.diceCount ≤ 255) :
    (res.attackerWins = true →
      (ApplyCombatResult s res).GetTerritory res.defenderId =
        some { defender with
                 owner := res.attackerPlayer
                 diceCount := attacker.diceCount - 1 } ∧
      (ApplyCombatResult s res).GetTerritory res.attackerId =
        some { attacker with diceCount := 1 } ∧
      (ApplyCombatResult s res).mapNeedsRefresh = true) ∧
    (res.attackerWins = false →
      (ApplyCombatResult s res).GetTerritory res.attackerId =
        some { attacker with diceCount := 1 } ∧
      (ApplyCombatResult s res).GetTerritory res.defenderId = some defender) := by
  have haE : s.territories[res.attackerId]? = some attacker := ha
  have hdE : s.territories[res.defenderId]? = some defender := hd
  have hlenA : res.attackerId < s.territories.length := by
    by_contra hbig
    rw [List.getElem?_eq_none (by omega)] at haE
    exact Option.noConfusion haE
  have hlenD : res.defenderId < s.territories.length := by
    by_contra hbig
    rw [List.getElem?_eq_none (by omega)] at hdE
    exact Option.noConfusion hdE
  constructor
  · intro hw
    rw [ApplyCombatResult_win s res attacker defender ha hd hw]
    rw [modifyTerritory_eq s res.defenderId defender _ hdE]
    rw [modifyTerritory_eq _ res.attackerId attacker _
      (by rw [List.getElem?_set_ne (Ne.symm hne)]; exact haE)]
    refine ⟨?_, ?_, rfl⟩
    · show ((s.territories.set res.defenderId _).set res.attackerId
        _)[res.defenderId]? = _
      rw [List.getElem?_set_ne hne,
        List.getElem?_set_self hlenD,
        u8cast_pred attacker.diceCount h1 h255]
    · show ((s.territories.set res.defenderId _).set res.attackerId
        _)[res.attackerId]? = _
      rw [List.getElem?_set_self (by simpa using hlenA)]
  · intro hw
    rw [ApplyCombatResult_lose s res attacker defender ha hd hw]
    rw [modifyTerritory_eq s res.attackerId attacker _ haE]
    constructor
    · show (s.territories.set res.attackerId _)[res.attackerId]? = _
      rw [List.getElem?_set_self hlenA]
    · show (s.territories.set res.attackerId _)[res.defenderId]? = _
      rw [List.getElem?_set_ne hne]; exact hdE

/-- Witness for C3 at a concrete two-territory state: player 0 attacks from
territory 0 (5 dice) into territory 1; on a win territory 1 gets owner 0 and
4 dice, territory 0 drops to 1 die, and the refresh flag is set. -/
theorem C3_witness :
    twoState.GetTerritory twoResult.attackerId = some (tinyTerritory 0 0 5) ∧
    twoState.GetTerritory twoResult.defenderId = some (tinyTerritory 1 1 3) ∧
    twoResult.attackerId ≠ twoResult.defenderId ∧
    (twoResult.attackerWins = true →
      (ApplyCombatResult twoState twoResult).GetTerritory twoResult.defenderId =
        some { tinyTerritory 1 1 3 with
                 owner := twoResult.attackerPlayer
                 diceCount := (tinyTerritory 0 0 5).diceCount - 1 } ∧
      (ApplyCombatResult twoState twoResult).GetTerritory twoResult.attackerId =
        some { tinyTerritory 0 0 5 with diceCount := 1 } ∧
      (ApplyCombatResult twoState twoResult).mapNeedsRefresh = true) := by
  refine ⟨by decide, by decide, by decide, ?_⟩
  exact (C3_apply_combat_result _ _ _ _ (by decide) (by decide) (by decide)
    (by decide) (by decide)).1

/-! ### Claim C9: the 1..8 dice invariant is preserved by ApplyCombatResult -/

/-- Claim C9: if every territory holds between 1 and 8 dice and the result's
attacker territory (when it exists) holds at least 2, then after
ApplyCombatResult every territory still holds between 1 and 8 dice. -/
theorem C9_dice_invariant_preserved (s : GameState) (res : CombatResult)
    (hinv : ∀ t ∈ s.territories,
      1 ≤ t.diceCount ∧ t.diceCount ≤ MAX_DICE_PER_TERRITORY)
    (hatt : ∀ a, s.GetTerritory res.attackerId = some a → 2 ≤ a.diceCount) :
    ∀ t ∈ (ApplyCombatResult s res).territories,
      1 ≤ t.diceCount ∧ t.diceCount ≤ MAX_DICE_PER_TERRITORY := by
  cases haq : s.GetTerritory res.attackerId with
  | none => rw [ApplyCombatResult_invalid s res (Or.inl haq)]; exact hinv
  | some attacker =>
    cases hdq : s.GetTerritory res.defenderId with
    | none => rw [ApplyCombatResult_invalid s res (Or.inr hdq)]; exact hinv
    | some defender =>
      have hmemA : attacker ∈ s.territories := List.getElem?_mem haq
      have hA2 : 2 ≤ attacker.diceCount := hatt attacker haq
      have hA8 : attacker.diceCount ≤ MAX_DICE_PER_TERRITORY :=
        (hinv attacker hmemA).2
      have hmoving : 1 ≤ u8cast ((attacker.diceCount : Int) - 1) ∧
          u8cast ((attacker.diceCount : Int) - 1) ≤ MAX_DICE_PER_TERRITORY := by
        rw [u8cast_pred attacker.diceCount (by omega)
          (by unfold MAX_DICE_PER_TERRITORY at hA8; omega)]
        unfold MAX_DICE_PER_TERRITORY at *
        omega
      have hdE : s.territories[res.defenderId]? = some defender := hdq
      cases hw : res.attackerWins with
      | true =>
        rw [ApplyCombatResult_win s res attacker defender haq hdq hw]
        rw [modifyTerritory_eq s res.defenderId defender _ hdE]
        intro t ht
        simp only at ht
        rcases ht9 : (s.territories.set res.defenderId
            { defender with
              owner := res.attackerPlayer
              diceCount := u8cast ((attacker.diceCount : Int) - 1) })[res.attackerId]? with
          _ | a2 <;> simp only [GameState.modifyTerritory, ht9] at ht
        · rcases List.mem_or_eq_of_mem_set ht with hmem | heq
          · exact hinv t hmem
          · subst heq; exact ⟨hmoving.1, hmoving.2⟩
        · rcases List.mem_or_eq_of_mem_set ht with hmem | heq
          · rcases List.mem_or_eq_of_mem_set hmem with hmem2 | heq2
            · exact hinv t hmem2
            · subst heq2; exact ⟨hmoving.1, hmoving.2⟩
          · subst heq
            constructor <;> simp [MAX_DICE_PER_TERRITORY]
      | false =>
        rw [ApplyCombatResult_lose s res attacker defender haq hdq hw]
        rw [modifyTerritory_eq s res.attackerId attacker _ haq]
        intro t ht
        simp only at ht
        rcases List.mem_or_eq_of_mem_set ht with hmem | heq
        · exact hinv t hmem
        · subst heq
          constructor <;> simp [MAX_DICE_PER_TERRITORY]

/-- Witness for C9 at a concrete state: two territories with 5 and 3 dice,
the winning result applied, bounds checked through the theorem. -/
theorem C9_witness :
    (∀ t ∈ twoState.territories,
      1 ≤ t.diceCount ∧ t.diceCount ≤ MAX_DICE_PER_TERRITORY) ∧
    ∀ t ∈ (ApplyCombatResult twoState twoResult).territories,
      1 ≤ t.diceCount ∧ t.diceCount ≤ MAX_DICE_PER_TERRITORY := by
  refine ⟨by decide, ?_⟩
  exact C9_dice_invariant_preserved _ _ (by decide) (by decide)

/-- Auxiliary: incrementing a not-yet-full territory keeps the dice cap. -/
theorem modifyTerritory_dice_bound (s : GameState) (tid : Nat)
    (t0 : TerritoryData) (hget : s.GetTerritory tid = some t0)
    (hlt : t0.diceCount < MAX_DICE_PER_TERRITORY)
    (hinv : ∀ t ∈ s.territories, t.diceCount ≤ MAX_DICE_PER_TERRITORY) :
    ∀ t ∈ (s.modifyTerritory tid
      (fun u => { u with diceCount := u.diceCount + 1 })).territories,
      t.diceCount ≤ MAX_DICE_PER_TERRITORY := by
  rw [modifyTerritory_eq s tid t0 _ hget]
  intro t ht
  rcases List.mem_or_eq_of_mem_set ht with hmem | heq
  · exact hinv t hmem
  · subst heq
    simpa using hlt


/-- Dice-cap invariant for the distribution loop. -/
theorem distLoop_dice_bound (s : GameState) (r : Rng) (diceCount : Nat)
    (eligible : List Nat) :
    (∀ t ∈ s.territories, t.diceCount ≤ MAX_DICE_PER_TERRITORY) →
    ∀ t ∈ (distLoop s r diceCount eligible).territories,
      t.diceCount ≤ MAX_DICE_PER_TERRITORY := by
  induction s, r, diceCount, eligible using distLoop.induct with
  | case1 s r dc el hstop =>
    intro hinv
    rw [distLoop, dif_pos hstop]
    exact hinv
  | case2 s r dc el hstop idx r' hdraw tid t hget hlt s1 hge ih =>
    intro hinv
    rw [distLoop, dif_neg hstop]
    split
    next idx2 r2 hdraw2 =>
      rw [hdraw] at hdraw2
      injection hdraw2 with hi hr
      subst hi
      subst hr
      dsimp only
      simp only [hget]
      rw [if_pos hlt, if_pos hge]
      exact ih (modifyTerritory_dice_bound s tid t hget hlt hinv)
  | case3 s r dc el hstop idx r' hdraw tid t hget hlt s1 hge ih =>
    intro hinv
    rw [distLoop, dif_neg hstop]
    split
    next idx2 r2 hdraw2 =>
      rw [hdraw] at hdraw2
      injection hdraw2 with hi hr
      subst hi
      subst hr
      dsimp only
      simp only [hget]
      rw [if_pos hlt, if_neg hge]
      exact ih (modifyTerritory_dice_bound s tid t hget hlt hinv)
  | case4 s r dc el hstop idx r' hdraw tid t hget hlt ih =>
    intro hinv
    rw [distLoop, dif_neg hstop]
    split
    next idx2 r2 hdraw2 =>
      rw [hdraw] at hdraw2
      injection hdraw2 with hi hr
      subst hi
      subst hr
      dsimp only
      simp only [hget]
      rw [if_neg hlt]
      exact ih hinv
  | case5 s r dc el hstop idx r' hdraw tid hget ih =>
    intro hinv
    rw [distLoop, dif_neg hstop]
    split
    next idx2 r2 hdraw2 =>
      rw [hdraw] at hdraw2
      injection hdraw2 with hi hr
      subst hi
      subst hr
      dsimp only
      simp only [hget]
      exact ih hinv


/-! ### Claim C7: the dice cap is never exceeded by reinforcement -/

/-- Claim C7: DistributeReinforcements never raises any territory above
MAX_DICE_PER_TERRITORY (8), for every player, every amount to distribute,
every engine and every starting state whose territories respect the cap. -/
theorem C7_distribute_respects_cap (s : GameState) (player diceCount : Nat)
    (r : Rng)
    (hinv : ∀ t ∈ s.territories, t.diceCount ≤ MAX_DICE_PER_TERRITORY) :
    ∀ t ∈ (DistributeReinforcements s player diceCount r).territories,
      t.diceCount ≤ MAX_DICE_PER_TERRITORY := by
  unfold DistributeReinforcements
  dsimp only
  split
  · exact hinv
  · exact distLoop_dice_bound _ _ _ _ hinv

/-- Witness for C7: distributing 5 dice to player 0 over the concrete
two-territory state keeps every territory at 8 dice or fewer. -/
theorem C7_witness :
    (∀ t ∈ twoState.territories, t.diceCount ≤ MAX_DICE_PER_TERRITORY) ∧
    ∀ t ∈ (DistributeReinforcements twoState 0 5 (constRng 0)).territories,
      t.diceCount ≤ MAX_DICE_PER_TERRITORY := by
  refine ⟨by decide, ?_⟩
  exact C7_distribute_respects_cap twoState 0 5 (constRng 0) (by decide)

/-! ### Claim C2: invalid entry points return false without state change -/

/-- Claim C2 as frozen counts "selecting the already-selected territory"
among the invalid preconditions that leave the state completely unchanged.
The code instead treats that click as a toggle: SelectTerritory returns
false but cancels the selection. In the concrete target-selection state with
territory 0 selected, SelectTerritory 0 returns false yet changes the
state. -/
theorem C2_counterexample :
    (SelectTerritory selTargetState 0).1 = false ∧
    (SelectTerritory selTargetState 0).2 ≠ selTargetState := by
  decide

/-- Claim C2 (amended): every rejected call of the mutating entry points
returns false and leaves the game state unchanged, with one exception forced
by the toggle counterexample: a SelectTerritory call made in a selection
phase (SelectAttacker or SelectTarget) on the already-selected territory
returns false but cancels the selection (it applies CancelSelection,
clearing selectedTerritory and validTargets and setting phase to
SelectAttacker). Every other rejected call - including a wrong-phase
SelectTerritory call on the currently selected territory, which the phase
guard rejects first - leaves the state untouched; EndTurn in the GameOver
phase is a strict no-op. The first two conjuncts together cover every
rejected SelectTerritory call. -/
theorem C2_invalid_actions_safe (s : GameState) (terr target : Nat) (r : Rng) :
    ((SelectTerritory s terr).1 = false →
      ¬ ((s.phase = TurnPhase.SelectAttacker ∨
          s.phase = TurnPhase.SelectTarget) ∧ terr = s.selectedTerritory) →
      (SelectTerritory s terr).2 = s) ∧
    ((s.phase = TurnPhase.SelectAttacker ∨ s.phase = TurnPhase.SelectTarget) →
      terr = s.selectedTerritory →
      SelectTerritory s terr = (false, CancelSelection s)) ∧
    ((Attack s r target).1 = false → (Attack s r target).2.1 = s) ∧
    (s.phase = TurnPhase.GameOver → EndTurn s r = s) := by
  refine ⟨?_, ?_, ?_, ?_⟩
  · unfold SelectTerritory
    by_cases h1 : s.phase ≠ TurnPhase.SelectAttacker ∧
        s.phase ≠ TurnPhase.SelectTarget
    · rw [if_pos h1]
      intro _ _
      rfl
    · rw [if_neg h1]
      by_cases h2 : terr = s.selectedTerritory
      · rw [if_pos h2]
        intro _ hno
        exfalso
        apply hno
        refine ⟨?_, h2⟩
        rcases not_and_or.mp h1 with h | h
        · exact Or.inl (not_not.mp h)
        · exact Or.inr (not_not.mp h)
      · rw [if_neg h2]
        cases hget : s.GetTerritory terr with
        | none =>
          intro _ _
          rfl
        | some t =>
          dsimp only
          by_cases h3 : t.owner ≠ s.currentPlayer
          · rw [if_pos h3]
            intro _ _
            rfl
          · rw [if_neg h3]
            by_cases h4 : ¬ t.CanAttack = true
            · rw [if_pos h4]
              intro _ _
              rfl
            · rw [if_neg h4]
              intro hf
              simp at hf
  · intro hph hsel
    unfold SelectTerritory
    rw [if_neg (by rcases hph with h | h <;> simp [h]), if_pos hsel]
  · unfold Attack
    by_cases h1 : s.phase ≠ TurnPhase.SelectTarget ∧ s.phase ≠ TurnPhase.AITurn
    · rw [if_pos h1]
      intro _
      rfl
    · rw [if_neg h1]
      dsimp only
      by_cases h2 : s.selectedTerritory = TERRITORY_NONE
      · rw [if_pos h2]
        intro _
        rfl
      · rw [if_neg h2]
        by_cases h3 : ¬ CanAttack s s.selectedTerritory target = true
        · rw [if_pos h3]
          intro _
          rfl
        · rw [if_neg h3]
          cases hga : s.GetTerritory s.selectedTerritory with
          | none =>
            intro _
            rfl
          | some attacker =>
            cases hgd : s.GetTerritory target with
            | none =>
              intro _
              rfl
            | some defender =>
              intro hf
              simp at hf
  · intro h
    unfold EndTurn
    rw [if_pos h]

/-- Witness for C2 at concrete states: an out-of-range selection, a
wrong-phase click on the currently selected territory, an attack in the
wrong phase, and an EndTurn after game over are all rejected without
touching the state. -/
theorem C2_witness :
    ((SelectTerritory twoState 5).1 = false ∧
      (SelectTerritory twoState 5).2 = twoState) ∧
    ((SelectTerritory goState goState.selectedTerritory).1 = false ∧
      (SelectTerritory goState goState.selectedTerritory).2 = goState) ∧
    ((Attack twoState (constRng 0) 1).1 = false ∧
      (Attack twoState (constRng 0) 1).2.1 = twoState) ∧
    (goState.phase = TurnPhase.GameOver ∧
      EndTurn goState (constRng 0) = goState) := by
  refine ⟨⟨by decide, ?_⟩, ⟨by decide, ?_⟩, ⟨by decide, ?_⟩, ⟨rfl, ?_⟩⟩
  · exact (C2_invalid_actions_safe twoState 5 1 (constRng 0)).1
      (by decide) (by decide)
  · exact (C2_invalid_actions_safe goState goState.selectedTerritory 1
      (constRng 0)).1 (by decide) (by decide)
  · exact (C2_invalid_actions_safe twoState 5 1 (constRng 0)).2.2.1 (by decide)
  · exact (C2_invalid_actions_safe goState 5 1 (constRng 0)).2.2.2 rfl

/-! ### Frame lemmas for Attack (claim C10) -/

/-- Setting an index to the element it already holds is the identity. -/
theorem list_set_self {α : Type} (l : List α) (i : Nat) (a : α)
    (h : l[i]? = some a) : l.set i a = l := by
  apply List.ext_getElem?
  intro n
  by_cases hn : i = n
  · subst hn
    rw [List.getElem?_set_self (by
      by_contra hbig
      rw [List.getElem?_eq_none (by omega)] at h
      exact Option.noConfusion h)]
    exact h.symm
  · rw [List.getElem?_set_ne hn]

/-- modifyTerritory keeps every projection of a territory its rewrite
preserves. -/
theorem modifyTerritory_map {β : Type} (s : GameState) (id : Nat)
    (f : TerritoryData → TerritoryData) (proj : TerritoryData → β)
    (hf : ∀ t, proj (f t) = proj t) :
    (s.modifyTerritory id f).territories.map proj = s.territories.map proj := by
  unfold GameState.modifyTerritory
  cases hq : s.territories[id]? with
  | none => rfl
  | some t =>
    dsimp only
    rw [List.map_set, hf]
    exact list_set_self _ _ _ (by rw [List.getElem?_map, hq]; rfl)

/-- modifyPlayer keeps every projection of a player its rewrite preserves. -/
theorem modifyPlayer_map {β : Type} (s : GameState) (p : Nat)
    (f : PlayerData → PlayerData) (proj : PlayerData → β)
    (hf : ∀ pd, proj (f pd) = proj pd) :
    (s.modifyPlayer p f).players.map proj = s.players.map proj := by
  unfold GameState.modifyPlayer
  cases hq : s.players[p]? with
  | none => rfl
  | some pd =>
    dsimp only
    rw [List.map_set, hf]
    exact list_set_self _ _ _ (by rw [List.getElem?_map, hq]; rfl)

/-- State projections untouched by a territories rewrite pass through
modifyTerritory. -/
theorem modifyTerritory_proj {β : Type} (proj : GameState → β)
    (hterr : ∀ (st : GameState) (ts : List TerritoryData),
      proj { st with territories := ts } = proj st)
    (s : GameState) (id : Nat) (f : TerritoryData → TerritoryData) :
    proj (s.modifyTerritory id f) = proj s := by
  unfold GameState.modifyTerritory
  cases s.territories[id]? with
  | none => rfl
  | some t => exact hterr s _

/-- State projections untouched by a players rewrite pass through
modifyPlayer. -/
theorem modifyPlayer_proj {β : Type} (proj : GameState → β)
    (hpl : ∀ (st : GameState) (pl : List PlayerData),
      proj { st with players := pl } = proj st)
    (s : GameState) (p : Nat) (f : PlayerData → PlayerData) :
    proj (s.modifyPlayer p f) = proj s := by
  unfold GameState.modifyPlayer
  cases s.players[p]? with
  | none => rfl
  | some pd => exact hpl s _

/-- Territory slots other than the written one are untouched. -/
theorem modifyTerritory_getElem_ne (s : GameState) (id : Nat)
    (f : TerritoryData → TerritoryData) (j : Nat) (hne : id ≠ j) :
    (s.modifyTerritory id f).territories[j]? = s.territories[j]? := by
  unfold GameState.modifyTerritory
  cases s.territories[id]? with
  | none => rfl
  | some t =>
    dsimp only
    rw [List.getElem?_set_ne hne]

/-- Projections invariant under territory and refresh writes pass through
ApplyCombatResult. -/
theorem ApplyCombatResult_proj {β : Type} (proj : GameState → β)
    (hterr : ∀ (st : GameState) (ts : List TerritoryData),
      proj { st with territories := ts } = proj st)
    (href : ∀ st : GameState, proj { st with mapNeedsRefresh := true } = proj st)
    (s : GameState) (res : CombatResult) :
    proj (ApplyCombatResult s res) = proj s := by
  unfold ApplyCombatResult
  cases s.GetTerritory res.attackerId with
  | none => cases s.GetTerritory res.defenderId <;> rfl
  | some a =>
    cases s.GetTerritory res.defenderId with
    | none => rfl
    | some d =>
      dsimp only
      split
      · refine (href _).trans ?_
        refine (modifyTerritory_proj proj hterr _ _ _).trans ?_
        exact modifyTerritory_proj proj hterr _ _ _
      · exact modifyTerritory_proj proj hterr _ _ _

/-- Territory projections preserved by both combat rewrites pass through
ApplyCombatResult. -/
theorem ApplyCombatResult_terr_map {β : Type} (tproj : TerritoryData → β)
    (hf : ∀ (t : TerritoryData) (o d : Nat),
      tproj { t with owner := o, diceCount := d } = tproj t)
    (s : GameState) (res : CombatResult) :
    (ApplyCombatResult s res).territories.map tproj =
      s.territories.map tproj := by
  unfold ApplyCombatResult
  cases s.GetTerritory res.attackerId with
  | none => cases s.GetTerritory res.defenderId <;> rfl
  | some a =>
    cases s.GetTerritory res.defenderId with
    | none => rfl
    | some d =>
      dsimp only
      split
      · show ((_ : GameState).modifyTerritory _ _).territories.map tproj = _
        refine (modifyTerritory_map _ _ _ tproj (fun t => hf t t.owner 1)).trans ?_
        exact modifyTerritory_map _ _ _ tproj (fun t => hf t _ _)
      · exact modifyTerritory_map _ _ _ tproj (fun t => hf t t.owner 1)

/-- Territory slots other than the two combatants are untouched by
ApplyCombatResult. -/
theorem ApplyCombatResult_getElem_ne (s : GameState) (res : CombatResult)
    (j : Nat) (hja : j ≠ res.attackerId) (hjd : j ≠ res.defenderId) :
    (ApplyCombatResult s res).territories[j]? = s.territories[j]? := by
  unfold ApplyCombatResult
  cases s.GetTerritory res.attackerId with
  | none => cases s.GetTerritory res.defenderId <;> rfl
  | some a =>
    cases s.GetTerritory res.defenderId with
    | none => rfl
    | some d =>
      dsimp only
      split
      · show ((_ : GameState).modifyTerritory _ _).territories[j]? = _
        refine (modifyTerritory_getElem_ne _ _ _ _ (Ne.symm hja)).trans ?_
        exact modifyTerritory_getElem_ne _ _ _ _ (Ne.symm hjd)
      · exact modifyTerritory_getElem_ne _ _ _ _ (Ne.symm hja)

/-- Projections invariant under winner and phase writes pass through
CheckVictory. -/
theorem CheckVictory_proj {β : Type} (proj : GameState → β)
    (hvict : ∀ (st : GameState) (w : Nat) (ph : TurnPhase),
      proj { st with winner := w, phase := ph } = proj st)
    (s : GameState) : proj (CheckVictory s) = proj s := by
  unfold CheckVictory
  cases victoryOwner s.territories PLAYER_NONE with
  | none => rfl
  | some fo =>
    dsimp only
    split
    · exact hvict s fo TurnPhase.GameOver
    · rfl

/-- Projections preserved by one elimination step pass through the fold. -/
theorem foldl_elimStep_proj {β : Type} (proj : GameState → β)
    (helim : ∀ (st : GameState) (p : Nat), proj (elimStep st p) = proj st) :
    ∀ (l : List Nat) (s : GameState), proj (l.foldl elimStep s) = proj s := by
  intro l
  induction l with
  | nil => intro s; rfl
  | cons p t ih =>
    intro s
    rw [List.foldl_cons]
    exact (ih _).trans (helim s p)

/-- Projections preserved by one elimination step pass through
CheckElimination. -/
theorem CheckElimination_proj {β : Type} (proj : GameState → β)
    (helim : ∀ (st : GameState) (p : Nat), proj (elimStep st p) = proj st)
    (s : GameState) : proj (CheckElimination s) = proj s := by
  unfold CheckElimination
  exact foldl_elimStep_proj proj helim _ s

/-- Projections invariant under players and counter writes pass through one
elimination step. -/
theorem elimStep_proj {β : Type} (proj : GameState → β)
    (hpl : ∀ (st : GameState) (pl : List PlayerData),
      proj { st with players := pl } = proj st)
    (hap : ∀ (st : GameState) (ap : Int),
      proj { st with activePlayerCount := ap } = proj st)
    (st : GameState) (p : Nat) : proj (elimStep st p) = proj st := by
  unfold elimStep
  split
  · rfl
  · split
    · dsimp only
      refine (hap _ _).trans ?_
      exact modifyPlayer_proj proj hpl st p _
    · rfl

/-- Player projections ignoring isEliminated pass through one elimination
step. -/
theorem elimStep_players_map {β : Type} (pproj : PlayerData → β)
    (hf : ∀ pd : PlayerData,
      pproj { pd with isEliminated := true } = pproj pd)
    (st : GameState) (p : Nat) :
    (elimStep st p).players.map pproj = st.players.map pproj := by
  unfold elimStep
  split
  · rfl
  · split
    · dsimp only
      show (st.modifyPlayer p _).players.map pproj = _
      exact modifyPlayer_map st p _ pproj hf
    · rfl

/-- Four scalar fields pass through the whole attack tail unchanged:
config. -/
theorem attackResolvedState_config (s : GameState) (result : CombatResult) :
    (attackResolvedState s result).config = s.config := by
  unfold attackResolvedState
  dsimp only
  have core : ∀ st : GameState,
      (CheckVictory (CheckElimination st)).config = st.config := by
    intro st
    refine (CheckVictory_proj (fun x => x.config) (fun _ _ _ => rfl) _).trans ?_
    exact CheckElimination_proj (fun x => x.config)
      (fun st2 p => elimStep_proj (fun x => x.config)
        (fun _ _ => rfl) (fun _ _ => rfl) st2 p) _
  have tail : ∀ res2 : CombatResult,
      (ApplyCombatResult s res2).config = s.config :=
    fun res2 => ApplyCombatResult_proj (fun x => x.config)
      (fun _ _ => rfl) (fun _ => rfl) s res2
  split
  · split
    · exact (core _).trans (tail _)
    · exact (core _).trans (tail _)
  · exact (core _).trans (tail _)

/-- The current player passes through the attack tail unchanged. -/
theorem attackResolvedState_currentPlayer (s : GameState)
    (result : CombatResult) :
    (attackResolvedState s result).currentPlayer = s.currentPlayer := by
  unfold attackResolvedState
  dsimp only
  have core : ∀ st : GameState,
      (CheckVictory (CheckElimination st)).currentPlayer = st.currentPlayer := by
    intro st
    refine (CheckVictory_proj (fun x => x.currentPlayer)
      (fun _ _ _ => rfl) _).trans ?_
    exact CheckElimination_proj (fun x => x.currentPlayer)
      (fun st2 p => elimStep_proj (fun x => x.currentPlayer)
        (fun _ _ => rfl) (fun _ _ => rfl) st2 p) _
  have tail : ∀ res2 : CombatResult,
      (ApplyCombatResult s res2).currentPlayer = s.currentPlayer :=
    fun res2 => ApplyCombatResult_proj (fun x => x.currentPlayer)
      (fun _ _ => rfl) (fun _ => rfl) s res2
  split
  · split
    · exact (core _).trans (tail _)
    · exact (core _).trans (tail _)
  · exact (core _).trans (tail _)

/-- The turn number passes through the attack tail unchanged. -/
theorem attackResolvedState_turnNumber (s : GameState)
    (result : CombatResult) :
    (attackResolvedState s result).turnNumber = s.turnNumber := by
  unfold attackResolvedState
  dsimp only
  have core : ∀ st : GameState,
      (CheckVictory (CheckElimination st)).turnNumber = st.turnNumber := by
    intro st
    refine (CheckVictory_proj (fun x => x.turnNumber)
      (fun _ _ _ => rfl) _).trans ?_
    exact CheckElimination_proj (fun x => x.turnNumber)
      (fun st2 p => elimStep_proj (fun x => x.turnNumber)
        (fun _ _ => rfl) (fun _ _ => rfl) st2 p) _
  have tail : ∀ res2 : CombatResult,
      (ApplyCombatResult s res2).turnNumber = s.turnNumber :=
    fun res2 => ApplyCombatResult_proj (fun x => x.turnNumber)
      (fun _ _ => rfl) (fun _ => rfl) s res2
  split
  · split
    · exact (core _).trans (tail _)
    · exact (core _).trans (tail _)
  · exact (core _).trans (tail _)

/-- The hex-to-territory reverse index passes through the attack tail
unchanged. -/
theorem attackResolvedState_hexToTerritory (s : GameState)
    (result : CombatResult) :
    (attackResolvedState s result).hexToTerritory = s.hexToTerritory := by
  unfold attackResolvedState
  dsimp only
  have core : ∀ st : GameState,
      (CheckVictory (CheckElimination st)).hexToTerritory =
        st.hexToTerritory := by
    intro st
    refine (CheckVictory_proj (fun x => x.hexToTerritory)
      (fun _ _ _ => rfl) _).trans ?_
    exact CheckElimination_proj (fun x => x.hexToTerritory)
      (fun st2 p => elimStep_proj (fun x => x.hexToTerritory)
        (fun _ _ => rfl) (fun _ _ => rfl) st2 p) _
  have tail : ∀ res2 : CombatResult,
      (ApplyCombatResult s res2).hexToTerritory = s.hexToTerritory :=
    fun res2 => ApplyCombatResult_proj (fun x => x.hexToTerritory)
      (fun _ _ => rfl) (fun _ => rfl) s res2
  split
  · split
    · exact (core _).trans (tail _)
    · exact (core _).trans (tail _)
  · exact (core _).trans (tail _)

/-- Player projections that ignore isEliminated pass through the attack
tail unchanged. -/
theorem attackResolvedState_players_map {β : Type} (pproj : PlayerData → β)
    (hf : ∀ pd : PlayerData,
      pproj { pd with isEliminated := true } = pproj pd)
    (s : GameState) (result : CombatResult) :
    (attackResolvedState s result).players.map pproj =
      s.players.map pproj := by
  unfold attackResolvedState
  dsimp only
  have core : ∀ st : GameState,
      (CheckVictory (CheckElimination st)).players.map pproj =
        st.players.map pproj := by
    intro st
    refine (CheckVictory_proj (fun x => x.players.map pproj)
      (fun _ _ _ => rfl) _).trans ?_
    exact CheckElimination_proj (fun x => x.players.map pproj)
      (fun st2 p => elimStep_players_map pproj hf st2 p) _
  have tail : ∀ res2 : CombatResult,
      (ApplyCombatResult s res2).players.map pproj =
        s.players.map pproj :=
    fun res2 => ApplyCombatResult_proj (fun x => x.players.map pproj)
      (fun _ _ => rfl) (fun _ => rfl) s res2
  split
  · split
    · exact (core _).trans (tail _)
    · exact (core _).trans (tail _)
  · exact (core _).trans (tail _)

/-- The attack tail only rewrites territories through ApplyCombatResult. -/
theorem attackResolvedState_territories (s : GameState) (result : CombatResult) :
    (attackResolvedState s result).territories =
      (ApplyCombatResult s result).territories := by
  have hterrproj : ∀ st : GameState,
      (CheckVictory (CheckElimination st)).territories = st.territories := by
    intro st
    refine (CheckVictory_proj (fun x => x.territories)
      (fun _ _ _ => rfl) _).trans ?_
    exact CheckElimination_proj (fun x => x.territories)
      (fun st2 p => elimStep_proj (fun x => x.territories)
        (fun _ _ => rfl) (fun _ _ => rfl) st2 p) _
  unfold attackResolvedState
  dsimp only
  split
  · split
    · exact hterrproj _
    · exact hterrproj _
  · exact hterrproj _

/-- The combat result records the two territories' id fields. -/
theorem ResolveCombat_ids (a d : TerritoryData) (r : Rng) :
    (ResolveCombat a d r).1.attackerId = a.id ∧
    (ResolveCombat a d r).1.defenderId = d.id := by
  unfold ResolveCombat
  cases RollDice a.diceCount r with
  | mk rollsA r1 =>
    cases RollDice d.diceCount r1 with
    | mk rollsD r2 => exact ⟨rfl, rfl⟩

/-- Dense territory ids follow from the decidable bounded check. -/
theorem denseIds_of_getD (ts : List TerritoryData)
    (h : ∀ i, i < ts.length → (ts.getD i (tinyTerritory 0 0 0)).id = i) :
    ∀ (i : Nat) (t : TerritoryData), ts[i]? = some t → t.id = i := by
  intro i t ht
  have hi : i < ts.length := by
    by_contra hbig
    rw [List.getElem?_eq_none (by omega)] at ht
    exact Option.noConfusion ht
  have h2 := h i hi
  rw [List.getD_eq_getElem?_getD, ht] at h2
  simpa using h2

/-! ### Claim C10: frame condition of a successful Attack -/

/-- Claim C10: when Attack succeeds on a state with dense territory ids,
everything outside the allowed write set is unchanged: config, current
player, turn number, the reverse hex index, every territory's id, hexes,
neighbors and centerHex, the full record of every territory other than the
two involved, and the players' id, isHuman, name and color fields. -/
theorem C10_attack_frame (s : GameState) (r : Rng) (target : Nat)
    (hid : ∀ (i : Nat) (t : TerritoryData),
      s.territories[i]? = some t → t.id = i)
    (h : (Attack s r target).1 = true) :
    (Attack s r target).2.1.config = s.config ∧
    (Attack s r target).2.1.currentPlayer = s.currentPlayer ∧
    (Attack s r target).2.1.turnNumber = s.turnNumber ∧
    (Attack s r target).2.1.hexToTerritory = s.hexToTerritory ∧
    (Attack s r target).2.1.territories.map TerritoryData.id =
      s.territories.map TerritoryData.id ∧
    (Attack s r target).2.1.territories.map TerritoryData.hexes =
      s.territories.map TerritoryData.hexes ∧
    (Attack s r target).2.1.territories.map TerritoryData.neighbors =
      s.territories.map TerritoryData.neighbors ∧
    (Attack s r target).2.1.territories.map TerritoryData.centerHex =
      s.territories.map TerritoryData.centerHex ∧
    (∀ i : Nat, i ≠ s.selectedTerritory → i ≠ target →
      (Attack s r target).2.1.territories[i]? = s.territories[i]?) ∧
    (Attack s r target).2.1.players.map PlayerData.id =
      s.players.map PlayerData.id ∧
    (Attack s r target).2.1.players.map PlayerData.isHuman =
      s.players.map PlayerData.isHuman ∧
    (Attack s r target).2.1.players.map PlayerData.name =
      s.players.map PlayerData.name ∧
    (Attack s r target).2.1.players.map PlayerData.colorR =
      s.players.map PlayerData.colorR ∧
    (Attack s r target).2.1.players.map PlayerData.colorG =
      s.players.map PlayerData.colorG ∧
    (Attack s r target).2.1.players.map PlayerData.colorB =
      s.players.map PlayerData.colorB := by
  unfold Attack at h ⊢
  by_cases h1 : s.phase ≠ TurnPhase.SelectTarget ∧ s.phase ≠ TurnPhase.AITurn
  · rw [if_pos h1] at h
    simp at h
  · rw [if_neg h1] at h ⊢
    dsimp only at h ⊢
    by_cases h2 : s.selectedTerritory = TERRITORY_NONE
    · rw [if_pos h2] at h
      simp at h
    · rw [if_neg h2] at h ⊢
      by_cases h3 : ¬ CanAttack s s.selectedTerritory target = true
      · rw [if_pos h3] at h
        simp at h
      · rw [if_neg h3] at h ⊢
        revert h
        cases hga : s.GetTerritory s.selectedTerritory with
        | none =>
          cases hgd : s.GetTerritory target <;> intro h <;> simp at h
        | some attacker =>
          cases hgd : s.GetTerritory target with
          | none =>
            intro h
            simp at h
          | some defender =>
            intro _
            dsimp only
            have hids := ResolveCombat_ids attacker defender r
            have hAid : attacker.id = s.selectedTerritory := hid _ _ hga
            have hDid : defender.id = target := hid _ _ hgd
            refine ⟨attackResolvedState_config _ _,
              attackResolvedState_currentPlayer _ _,
              attackResolvedState_turnNumber _ _,
              attackResolvedState_hexToTerritory _ _,
              ?_, ?_, ?_, ?_, ?_,
              attackResolvedState_players_map PlayerData.id (fun _ => rfl) _ _,
              attackResolvedState_players_map PlayerData.isHuman (fun _ => rfl) _ _,
              attackResolvedState_players_map PlayerData.name (fun _ => rfl) _ _,
              attackResolvedState_players_map PlayerData.colorR (fun _ => rfl) _ _,
              attackResolvedState_players_map PlayerData.colorG (fun _ => rfl) _ _,
              attackResolvedState_players_map PlayerData.colorB (fun _ => rfl) _ _⟩
            · rw [attackResolvedState_territories]
              exact ApplyCombatResult_terr_map TerritoryData.id
                (fun _ _ _ => rfl) _ _
            · rw [attackResolvedState_territories]
              exact ApplyCombatResult_terr_map TerritoryData.hexes
                (fun _ _ _ => rfl) _ _
            · rw [attackResolvedState_territories]
              exact ApplyCombatResult_terr_map TerritoryData.neighbors
                (fun _ _ _ => rfl) _ _
            · rw [attackResolvedState_territories]
              exact ApplyCombatResult_terr_map TerritoryData.centerHex
                (fun _ _ _ => rfl) _ _
            · intro i hne1 hne2
              rw [attackResolvedState_territories]
              apply ApplyCombatResult_getElem_ne
              · rw [hids.1, hAid]
                exact hne1
              · rw [hids.2, hDid]
                exact hne2

/-- Witness for C10: the concrete two-territory attack succeeds and the
frame condition holds there. -/
theorem C10_witness :
    (∀ i, i < attackableState.territories.length →
      (attackableState.territories.getD i (tinyTerritory 0 0 0)).id = i) ∧
    (Attack attackableState (constRng 0) 1).1 = true ∧
    (Attack attackableState (constRng 0) 1).2.1.config =
      attackableState.config := by
  refine ⟨by decide, by decide, ?_⟩
  exact (C10_attack_frame attackableState (constRng 0) 1
    (denseIds_of_getD _ (by decide)) (by decide)).1

/-! ### Claim C8: win probability is monotone in attacker dice -/

/-- Claim C8: for every fixed defender dice count d at least 1,
CalculateWinProbability is non-decreasing in the attacker dice count over
counts at least 1. -/
theorem C8_win_probability_monotone (a a2 d : Int)
    (hd : 1 ≤ d) (ha : 1 ≤ a) (haa : a ≤ a2) :
    CalculateWinProbability a d ≤ CalculateWinProbability a2 d := by
  unfold CalculateWinProbability
  rw [if_neg (by omega), if_neg (by omega)]
  dsimp only
  have hx : (1 : Real) ≤ (a : Real) := by exact_mod_cast ha
  have hy : ((a : Real) : Real) ≤ (a2 : Real) := by exact_mod_cast haa
  have hD : (1 : Real) ≤ (d : Real) := by exact_mod_cast hd
  set x := (a : Real) with hxdef
  set y := (a2 : Real) with hydef
  set D := (d : Real) with hDdef
  have hsx : (0 : Real) < x * 2.917 + D * 2.917 := by nlinarith
  have hsy : (0 : Real) < y * 2.917 + D * 2.917 := by nlinarith
  have hux : 0 < Real.sqrt (x * 2.917 + D * 2.917) := Real.sqrt_pos.mpr hsx
  have huy : 0 < Real.sqrt (y * 2.917 + D * 2.917) := Real.sqrt_pos.mpr hsy
  set u := Real.sqrt (x * 2.917 + D * 2.917) with hudef
  set v := Real.sqrt (y * 2.917 + D * 2.917) with hvdef
  have huv : u ≤ v := Real.sqrt_le_sqrt (by nlinarith)
  have husq : u ^ 2 = x * 2.917 + D * 2.917 := Real.sq_sqrt hsx.le
  have hvsq : v ^ 2 = y * 2.917 + D * 2.917 := Real.sq_sqrt hsy.le
  have hz : (x * 3.5 - D * 3.5) / u ≤ (y * 3.5 - D * 3.5) / v := by
    rw [div_le_div_iff₀ hux huy]
    nlinarith [mul_nonneg (sub_nonneg.mpr huv) (mul_pos hux huy).le,
      mul_nonneg (sub_nonneg.mpr huv) (by nlinarith : (0 : Real) ≤ D)]
  have hexp : Real.exp (-1.7 * ((y * 3.5 - D * 3.5) / v)) ≤
      Real.exp (-1.7 * ((x * 3.5 - D * 3.5) / u)) :=
    Real.exp_le_exp.mpr (by nlinarith)
  have hpos : (0 : Real) < 1 + Real.exp (-1.7 * ((y * 3.5 - D * 3.5) / v)) := by
    have := Real.exp_pos (-1.7 * ((y * 3.5 - D * 3.5) / v))
    linarith
  exact one_div_le_one_div_of_le hpos (by linarith)

/-- Witness for C8 at attacker counts 1 and 2 against one defender die. -/
theorem C8_witness :
    (1 : Int) ≤ 1 ∧ (1 : Int) ≤ 2 ∧
    CalculateWinProbability 1 1 ≤ CalculateWinProbability 2 1 := by
  refine ⟨le_refl 1, by omega, ?_⟩
  exact C8_win_probability_monotone 1 2 1 (le_refl 1) (le_refl 1) (by omega)

/-! ### Claim C4: reinforcements equal the largest contiguous region -/

/-- An owned-adjacency step stays within the territory list and within the
player's holdings. -/
theorem ownedAdj_bounds {ts : List TerritoryData} {p i j : Nat}
    (h : ownedAdj ts p i j) :
    i < ts.length ∧ j < ts.length ∧ ownedIdx ts p i ∧ ownedIdx ts p j := by
  obtain ⟨ti, tj, hti, htj, hoi, hoj, _⟩ := h
  refine ⟨?_, ?_, ⟨ti, hti, hoi⟩, ⟨tj, htj, hoj⟩⟩
  · by_contra hbig
    rw [List.getElem?_eq_none (by omega)] at hti
    exact Option.noConfusion hti
  · by_contra hbig
    rw [List.getElem?_eq_none (by omega)] at htj
    exact Option.noConfusion htj

/-- Neighbor-list symmetry makes the owned-adjacency step symmetric. -/
theorem ownedAdj_symm {ts : List TerritoryData} {p : Nat}
    (hsym : ∀ (i j : Nat) (ti tj : TerritoryData), ts[i]? = some ti →
      ts[j]? = some tj → (j ∈ ti.neighbors ↔ i ∈ tj.neighbors))
    {i j : Nat} (h : ownedAdj ts p i j) : ownedAdj ts p j i := by
  obtain ⟨ti, tj, hti, htj, hoi, hoj, hmem⟩ := h
  exact ⟨tj, ti, htj, hti, hoj, hoi, (hsym i j ti tj hti htj).mp hmem⟩

/-- A step-closed visited set is closed under reachability. -/
theorem ownedReach_closed {ts : List TerritoryData} {p : Nat}
    {vis : Finset Nat}
    (hcl : ∀ v ∈ vis, ∀ j, ownedAdj ts p v j → j ∈ vis)
    {i j : Nat} (hr : ownedReach ts p i j) (hi : i ∈ vis) : j ∈ vis := by
  induction hr with
  | refl => exact hi
  | tail _ hstep ih => exact hcl _ ih _ hstep

/-- Reachability from an owned index stays owned. -/
theorem ownedReach_owned {ts : List TerritoryData} {p i j : Nat}
    (h : ownedReach ts p i j) (hi : ownedIdx ts p i) : ownedIdx ts p j := by
  induction h with
  | refl => exact hi
  | tail _ hstep _ => exact (ownedAdj_bounds hstep).2.2.2

/-- Reachability from an in-range index stays in range. -/
theorem ownedReach_lt {ts : List TerritoryData} {p i j : Nat}
    (h : ownedReach ts p i j) (hi : i < ts.length) : j < ts.length := by
  induction h with
  | refl => exact hi
  | tail _ hstep _ => exact (ownedAdj_bounds hstep).2.1

/-- Reachability is symmetric under neighbor symmetry. -/
theorem ownedReach_symm {ts : List TerritoryData} {p : Nat}
    (hsym : ∀ (i j : Nat) (ti tj : TerritoryData), ts[i]? = some ti →
      ts[j]? = some tj → (j ∈ ti.neighbors ↔ i ∈ tj.neighbors))
    {i j : Nat} (h : ownedReach ts p i j) : ownedReach ts p j i := by
  induction h with
  | refl => exact Relation.ReflTransGen.refl
  | tail _ hstep ih =>
    exact Relation.ReflTransGen.trans
      (Relation.ReflTransGen.single (ownedAdj_symm hsym hstep)) ih

/-- Two mutually reachable indices have the same contiguous region. -/
theorem ownedComponent_eq_of_reach {ts : List TerritoryData} {p : Nat}
    (hsym : ∀ (i j : Nat) (ti tj : TerritoryData), ts[i]? = some ti →
      ts[j]? = some tj → (j ∈ ti.neighbors ↔ i ∈ tj.neighbors))
    {i k : Nat} (h : ownedReach ts p i k) :
    ownedComponent ts p k = ownedComponent ts p i := by
  ext j
  constructor
  · intro hj
    exact Relation.ReflTransGen.trans h hj
  · intro hj
    exact Relation.ReflTransGen.trans (ownedReach_symm hsym h) hj

/-- The contiguous region of an in-range index is finite. -/
theorem ownedComponent_finite {ts : List TerritoryData} {p i : Nat}
    (hi : i < ts.length) : (ownedComponent ts p i).Finite := by
  apply Set.Finite.subset (Finset.range ts.length).finite_toSet
  intro j hj
  simp only [Finset.coe_range, Set.mem_Iio]
  exact ownedReach_lt hj hi

/-- The contiguous region of an index contains it. -/
theorem ownedComponent_ncard_pos {ts : List TerritoryData} {p i : Nat}
    (hi : i < ts.length) : 0 < (ownedComponent ts p i).ncard := by
  rw [Set.ncard_pos (ownedComponent_finite hi)]
  exact ⟨i, Relation.ReflTransGen.refl⟩

/-- Behaviour of the BFS neighbor-push fold: the visited set grows by
exactly the freshly pushed owned neighbors, which are also appended to the
queue, and the two cardinal bookkeeping identities hold. -/
theorem bfsPush_foldl_spec (ts : List TerritoryData) (p : Nat)
    (nbs : List Nat) : ∀ (q : List Nat) (vis : Finset Nat),
    vis ⊆ (nbs.foldl (bfsPush ts p) (q, vis)).2 ∧
    (∀ x ∈ q, x ∈ (nbs.foldl (bfsPush ts p) (q, vis)).1) ∧
    (∀ x ∈ (nbs.foldl (bfsPush ts p) (q, vis)).1,
      x ∈ q ∨ x ∈ (nbs.foldl (bfsPush ts p) (q, vis)).2) ∧
    (∀ j ∈ (nbs.foldl (bfsPush ts p) (q, vis)).2,
      j ∈ vis ∨ (j ∈ nbs ∧ ownedIdx ts p j)) ∧
    (∀ j ∈ (nbs.foldl (bfsPush ts p) (q, vis)).2,
      j ∈ vis ∨ j ∈ (nbs.foldl (bfsPush ts p) (q, vis)).1) ∧
    (∀ nb ∈ nbs, ownedIdx ts p nb →
      nb ∈ (nbs.foldl (bfsPush ts p) (q, vis)).2) ∧
    (∀ x ∈ (nbs.foldl (bfsPush ts p) (q, vis)).1, x ∈ q ∨ x ∉ vis) ∧
    ((nbs.foldl (bfsPush ts p) (q, vis)).1.length + vis.card =
      q.length + (nbs.foldl (bfsPush ts p) (q, vis)).2.card) ∧
    ((nbs.foldl (bfsPush ts p) (q, vis)).1.length +
        ((Finset.range ts.length) \
          (nbs.foldl (bfsPush ts p) (q, vis)).2).card =
      q.length + ((Finset.range ts.length) \ vis).card) := by
  induction nbs with
  | nil =>
    intro q vis
    exact ⟨Finset.Subset.refl vis, fun x hx => hx, fun x hx => Or.inl hx,
      fun j hj => Or.inl hj, fun j hj => Or.inl hj, fun nb hnb => absurd hnb
        (List.not_mem_nil nb), fun x hx => Or.inl hx, rfl, rfl⟩
  | cons nb rest ih =>
    intro q vis
    rw [List.foldl_cons]
    cases hnb : ts[nb]? with
    | none =>
      have hpush : bfsPush ts p (q, vis) nb = (q, vis) := by
        unfold bfsPush
        rw [hnb]
      rw [hpush]
      obtain ⟨ih1, ih2, ih3, ih4, ih5, ih6, ih9, ih7, ih8⟩ := ih q vis
      clear hpush
      refine ⟨ih1, ih2, ih3, ?_, ih5, ?_, ih9, ih7, ih8⟩
      · intro j hj
        rcases ih4 j hj with hj2 | ⟨hj2, hj3⟩
        · exact Or.inl hj2
        · exact Or.inr ⟨List.mem_cons_of_mem nb hj2, hj3⟩
      · intro x hx hox
        rcases List.mem_cons.mp hx with hx2 | hx2
        · subst hx2
          obtain ⟨t, ht, _⟩ := hox
          rw [hnb] at ht
          exact Option.noConfusion ht
        · exact ih6 x hx2 hox
    | some nt =>
      by_cases hcond : nt.owner = p ∧ nb ∉ vis
      · have hpush : bfsPush ts p (q, vis) nb = (q ++ [nb], insert nb vis) := by
          unfold bfsPush
          rw [hnb]
          dsimp only
          rw [if_pos hcond]
        rw [hpush]
        obtain ⟨ih1, ih2, ih3, ih4, ih5, ih6, ih9, ih7, ih8⟩ :=
          ih (q ++ [nb]) (insert nb vis)
        have hnbN : nb < ts.length := by
          by_contra hbig
          rw [List.getElem?_eq_none (by omega)] at hnb
          exact Option.noConfusion hnb
        have hsub : vis ⊆ insert nb vis := Finset.subset_insert nb vis
        refine ⟨Finset.Subset.trans hsub ih1, ?_, ?_, ?_, ?_, ?_, ?_, ?_, ?_⟩
        · intro x hx
          exact ih2 x (List.mem_append_left _ hx)
        · intro x hx
          rcases ih3 x hx with hx2 | hx2
          · rcases List.mem_append.mp hx2 with hx3 | hx3
            · exact Or.inl hx3
            · rw [List.mem_singleton] at hx3
              subst hx3
              exact Or.inr (ih1 (Finset.mem_insert_self x vis))
          · exact Or.inr hx2
        · intro j hj
          rcases ih4 j hj with hj2 | ⟨hj2, hj3⟩
          · rcases Finset.mem_insert.mp hj2 with hj3 | hj3
            · rw [hj3]
              exact Or.inr ⟨List.mem_cons_self nb rest, ⟨nt, hnb, hcond.1⟩⟩
            · exact Or.inl hj3
          · exact Or.inr ⟨List.mem_cons_of_mem nb hj2, hj3⟩
        · intro j hj
          rcases ih5 j hj with hj2 | hj2
          · rcases Finset.mem_insert.mp hj2 with hj3 | hj3
            · subst hj3
              exact Or.inr (ih2 j (List.mem_append_right q (List.mem_singleton_self j)))
            · exact Or.inl hj3
          · exact Or.inr hj2
        · intro x hx hox
          rcases List.mem_cons.mp hx with hx2 | hx2
          · subst hx2
            exact ih1 (Finset.mem_insert_self x vis)
          · exact ih6 x hx2 hox
        · intro x hx
          rcases ih9 x hx with hx2 | hx2
          · rcases List.mem_append.mp hx2 with hx3 | hx3
            · exact Or.inl hx3
            · rw [List.mem_singleton] at hx3
              subst hx3
              exact Or.inr hcond.2
          · exact Or.inr (fun hxv => hx2 (Finset.mem_insert_of_mem hxv))
        · have hcard : (insert nb vis).card = vis.card + 1 :=
            Finset.card_insert_of_not_mem hcond.2
          have hlen : (q ++ [nb]).length = q.length + 1 := by simp
          omega
        · have hmemd : nb ∈ (Finset.range ts.length) \ vis := by
            rw [Finset.mem_sdiff, Finset.mem_range]
            exact ⟨hnbN, hcond.2⟩
          have hsd : (Finset.range ts.length) \ (insert nb vis) =
              ((Finset.range ts.length) \ vis).erase nb := by
            ext x
            simp only [Finset.mem_sdiff, Finset.mem_insert, Finset.mem_erase,
              Finset.mem_range, not_or]
            tauto
          have hcard : (((Finset.range ts.length) \ vis).erase nb).card + 1 =
              ((Finset.range ts.length) \ vis).card :=
            Finset.card_erase_add_one hmemd
          rw [hsd] at ih8
          have hlen : (q ++ [nb]).length = q.length + 1 := by simp
          omega
      · have hpush : bfsPush ts p (q, vis) nb = (q, vis) := by
          unfold bfsPush
          rw [hnb]
          dsimp only
          rw [if_neg hcond]
        rw [hpush]
        obtain ⟨ih1, ih2, ih3, ih4, ih5, ih6, ih9, ih7, ih8⟩ := ih q vis
        refine ⟨ih1, ih2, ih3, ?_, ih5, ?_, ih9, ih7, ih8⟩
        · intro j hj
          rcases ih4 j hj with hj2 | ⟨hj2, hj3⟩
          · exact Or.inl hj2
          · exact Or.inr ⟨List.mem_cons_of_mem nb hj2, hj3⟩
        · intro x hx hox
          rcases List.mem_cons.mp hx with hx2 | hx2
          · subst hx2
            obtain ⟨t, ht, hto⟩ := hox
            rw [hnb] at ht
            injection ht with ht2
            subst ht2
            have hxvis : x ∈ vis := by
              by_contra hxv
              exact hcond ⟨hto, hxv⟩
            exact ih1 hxvis
          · exact ih6 x hx2 hox

/-- Correctness of the BFS loop: started with enough fuel on a queue of
visited owned indices over a step-closed processed region, it returns the
visited set extended by everything reachable from the queue, closed under
owned adjacency, and the popped count balances the growth of the visited
set. -/
theorem bfsLoop_correct (ts : List TerritoryData) (p : Nat) :
    ∀ (fuel : Nat) (q : List Nat) (vis : Finset Nat) (size : Nat),
    q.length + ((Finset.range ts.length) \ vis).card < fuel →
    (∀ x ∈ q, x ∈ vis) →
    (∀ x ∈ q, ownedIdx ts p x) →
    (∀ v ∈ vis, ownedIdx ts p v) →
    (∀ v ∈ vis, v ∉ q → ∀ j, ownedAdj ts p v j → j ∈ vis) →
    vis ⊆ (bfsLoop ts p fuel q vis size).2 ∧
    (∀ j ∈ (bfsLoop ts p fuel q vis size).2,
      j ∈ vis ∨ ∃ x ∈ q, ownedReach ts p x j) ∧
    (∀ v ∈ (bfsLoop ts p fuel q vis size).2, ∀ j, ownedAdj ts p v j →
      j ∈ (bfsLoop ts p fuel q vis size).2) ∧
    ((bfsLoop ts p fuel q vis size).1 + vis.card =
      size + q.length + (bfsLoop ts p fuel q vis size).2.card) := by
  intro fuel
  induction fuel with
  | zero =>
    intro q vis size hfuel
    exact absurd hfuel (by omega)
  | succ fuel ih =>
    intro q vis size hfuel hqvis hqown hvisown hclosed
    cases q with
    | nil =>
      rw [show bfsLoop ts p (fuel + 1) [] vis size = (size, vis) from rfl]
      refine ⟨Finset.Subset.refl _, fun j hj => Or.inl hj, ?_, by simp⟩
      intro v hv j hadj
      exact hclosed v hv (List.not_mem_nil v) j hadj
    | cons current rest =>
      cases hcur : ts[current]? with
      | none =>
        have heq : bfsLoop ts p (fuel + 1) (current :: rest) vis size =
            bfsLoop ts p fuel rest vis (size + 1) := by
          rw [bfsLoop, hcur]
        rw [heq]
        have hfuel2 : rest.length + ((Finset.range ts.length) \ vis).card <
            fuel := by
          simp only [List.length_cons] at hfuel
          omega
        have hclosed2 : ∀ v ∈ vis, v ∉ rest → ∀ j, ownedAdj ts p v j →
            j ∈ vis := by
          intro v hv hvr j hadj
          by_cases hvc : v = current
          · subst hvc
            obtain ⟨ti, tj, hti, _, _, _, _⟩ := hadj
            rw [hcur] at hti
            exact Option.noConfusion hti
          · exact hclosed v hv (by
              intro hmem
              rcases List.mem_cons.mp hmem with h2 | h2
              · exact hvc h2
              · exact hvr h2) j hadj
        obtain ⟨A, B, C, D⟩ := ih rest vis (size + 1) hfuel2
          (fun x hx => hqvis x (List.mem_cons_of_mem current hx))
          (fun x hx => hqown x (List.mem_cons_of_mem current hx))
          hvisown hclosed2
        refine ⟨A, ?_, C, ?_⟩
        · intro j hj
          rcases B j hj with hj2 | ⟨x, hx, hx2⟩
          · exact Or.inl hj2
          · exact Or.inr ⟨x, List.mem_cons_of_mem current hx, hx2⟩
        · simp only [List.length_cons]
          omega
      | some t =>
        have heq : bfsLoop ts p (fuel + 1) (current :: rest) vis size =
            bfsLoop ts p fuel
              (t.neighbors.foldl (bfsPush ts p) (rest, vis)).1
              (t.neighbors.foldl (bfsPush ts p) (rest, vis)).2 (size + 1) := by
          rw [bfsLoop, hcur]
        rw [heq]
        obtain ⟨f1, f2, f3, f4, f5, f6, f9, f7, f8⟩ :=
          bfsPush_foldl_spec ts p t.neighbors rest vis
        obtain ⟨tcur, hcur2, hcuro⟩ :=
          hqown current (List.mem_cons_self current rest)
        have htcur : tcur = t := by
          rw [hcur] at hcur2
          injection hcur2 with hv
          exact hv.symm
        rw [htcur] at hcuro
        have hstep : ∀ j, j ∈ t.neighbors → ownedIdx ts p j →
            ownedAdj ts p current j := by
          rintro j hj ⟨tj, htj, htjo⟩
          exact ⟨t, tj, hcur, htj, hcuro, htjo, hj⟩
        have hfuel2 : (t.neighbors.foldl (bfsPush ts p) (rest, vis)).1.length +
            ((Finset.range ts.length) \
              (t.neighbors.foldl (bfsPush ts p) (rest, vis)).2).card < fuel := by
          simp only [List.length_cons] at hfuel
          omega
        have hqvis2 : ∀ x ∈ (t.neighbors.foldl (bfsPush ts p) (rest, vis)).1,
            x ∈ (t.neighbors.foldl (bfsPush ts p) (rest, vis)).2 := by
          intro x hx
          rcases f3 x hx with hx2 | hx2
          · exact f1 (hqvis x (List.mem_cons_of_mem current hx2))
          · exact hx2
        have hqown2 : ∀ x ∈ (t.neighbors.foldl (bfsPush ts p) (rest, vis)).1,
            ownedIdx ts p x := by
          intro x hx
          rcases f9 x hx with hx2 | hx2
          · exact hqown x (List.mem_cons_of_mem current hx2)
          · rcases f3 x hx with hx3 | hx3
            · exact hqown x (List.mem_cons_of_mem current hx3)
            · rcases f4 x hx3 with hx4 | ⟨_, hx5⟩
              · exact absurd hx4 hx2
              · exact hx5
        have hvisown2 : ∀ v ∈ (t.neighbors.foldl (bfsPush ts p) (rest, vis)).2,
            ownedIdx ts p v := by
          intro v hv
          rcases f4 v hv with hv2 | ⟨_, hv3⟩
          · exact hvisown v hv2
          · exact hv3
        have hclosed2 : ∀ v ∈ (t.neighbors.foldl (bfsPush ts p) (rest, vis)).2,
            v ∉ (t.neighbors.foldl (bfsPush ts p) (rest, vis)).1 →
            ∀ j, ownedAdj ts p v j →
            j ∈ (t.neighbors.foldl (bfsPush ts p) (rest, vis)).2 := by
          intro v hv hvq j hadj
          rcases f5 v hv with hv2 | hv2
          · by_cases hvc : v = current
            · subst hvc
              obtain ⟨ti, tj, hti, htj, _, htjo, hmem⟩ := hadj
              rw [hcur] at hti
              injection hti with hti2
              subst hti2
              exact f6 j hmem ⟨tj, htj, htjo⟩
            · have hvnotq : v ∉ current :: rest := by
                intro hmem
                rcases List.mem_cons.mp hmem with h2 | h2
                · exact hvc h2
                · exact hvq (f2 v h2)
              exact f1 (hclosed v hv2 hvnotq j hadj)
          · exact absurd hv2 hvq
        obtain ⟨A, B, C, D⟩ := ih _ _ (size + 1) hfuel2 hqvis2 hqown2
          hvisown2 hclosed2
        refine ⟨Finset.Subset.trans f1 A, ?_, C, ?_⟩
        · intro j hj
          rcases B j hj with hj2 | ⟨x, hx, hx2⟩
          · rcases f4 j hj2 with hj3 | ⟨hj4, hj5⟩
            · exact Or.inl hj3
            · exact Or.inr ⟨current, List.mem_cons_self current rest,
                Relation.ReflTransGen.single (hstep j hj4 hj5)⟩
          · rcases f9 x hx with hx3 | hx3
            · exact Or.inr ⟨x, List.mem_cons_of_mem current hx3, hx2⟩
            · have hxP : x ∈ (t.neighbors.foldl (bfsPush ts p) (rest, vis)).2 := by
                rcases f3 x hx with hx4 | hx4
                · exact f1 (hqvis x (List.mem_cons_of_mem current hx4))
                · exact hx4
              rcases f4 x hxP with hx4 | ⟨hx5, hx6⟩
              · exact absurd hx4 hx3
              · exact Or.inr ⟨current, List.mem_cons_self current rest,
                  Relation.ReflTransGen.trans
                    (Relation.ReflTransGen.single (hstep x hx5 hx6)) hx2⟩
        · simp only [List.length_cons] at hfuel ⊢
          omega

/-- One BFS round from a fresh owned start over a closed visited set visits
exactly the start's contiguous region, returns its size, and stays
step-closed. -/
theorem bfs_component (ts : List TerritoryData) (p : Nat)
    (vis : Finset Nat) (start : Nat)
    (hstartO : ownedIdx ts p start)
    (hstartnv : start ∉ vis)
    (hvisown : ∀ v ∈ vis, ownedIdx ts p v)
    (hsym : ∀ (i j : Nat) (ti tj : TerritoryData), ts[i]? = some ti →
      ts[j]? = some tj → (j ∈ ti.neighbors ↔ i ∈ tj.neighbors))
    (hvisclosed : ∀ v ∈ vis, ∀ j, ownedAdj ts p v j → j ∈ vis) :
    ((bfsLoop ts p (ts.length + 1) [start] (insert start vis) 0).2 : Set Nat) =
      (vis : Set Nat) ∪ ownedComponent ts p start ∧
    (bfsLoop ts p (ts.length + 1) [start] (insert start vis) 0).1 =
      (ownedComponent ts p start).ncard ∧
    (∀ v ∈ (bfsLoop ts p (ts.length + 1) [start] (insert start vis) 0).2,
      ∀ j, ownedAdj ts p v j →
        j ∈ (bfsLoop ts p (ts.length + 1) [start] (insert start vis) 0).2) := by
  have hstartN : start < ts.length := by
    obtain ⟨t, ht, _⟩ := hstartO
    by_contra hbig
    rw [List.getElem?_eq_none (by omega)] at ht
    exact Option.noConfusion ht
  have hfuel : [start].length +
      ((Finset.range ts.length) \ (insert start vis)).card < ts.length + 1 := by
    have hsub : (Finset.range ts.length) \ (insert start vis) ⊆
        (Finset.range ts.length).erase start := by
      intro x hx
      rw [Finset.mem_sdiff, Finset.mem_insert, not_or] at hx
      rw [Finset.mem_erase]
      exact ⟨hx.2.1, hx.1⟩
    have hcard := Finset.card_le_card hsub
    have herase : ((Finset.range ts.length).erase start).card =
        ts.length - 1 := by
      rw [Finset.card_erase_of_mem (Finset.mem_range.mpr hstartN),
        Finset.card_range]
    simp only [List.length_singleton]
    omega
  obtain ⟨A, B, C, D⟩ := bfsLoop_correct ts p (ts.length + 1) [start]
    (insert start vis) 0 hfuel
    (fun x hx => by
      rw [List.mem_singleton] at hx
      rw [hx]
      exact Finset.mem_insert_self start vis)
    (fun x hx => by
      rw [List.mem_singleton] at hx
      rw [hx]
      exact hstartO)
    (fun v hv => by
      rcases Finset.mem_insert.mp hv with hv2 | hv2
      · rw [hv2]
        exact hstartO
      · exact hvisown v hv2)
    (fun v hv hvq j hadj => by
      rcases Finset.mem_insert.mp hv with hv2 | hv2
      · exact absurd (by rw [hv2]; exact List.mem_singleton_self start) hvq
      · exact Finset.mem_insert_of_mem (hvisclosed v hv2 j hadj))
  have hstartmem : start ∈
      (bfsLoop ts p (ts.length + 1) [start] (insert start vis) 0).2 :=
    A (Finset.mem_insert_self start vis)
  have hseteq : ((bfsLoop ts p (ts.length + 1) [start]
      (insert start vis) 0).2 : Set Nat) =
      (vis : Set Nat) ∪ ownedComponent ts p start := by
    apply Set.eq_of_subset_of_subset
    · intro j hj
      rw [Finset.mem_coe] at hj
      rcases B j hj with hj2 | ⟨x, hx, hx2⟩
      · rcases Finset.mem_insert.mp hj2 with hj3 | hj3
        · rw [hj3]
          exact Or.inr Relation.ReflTransGen.refl
        · exact Or.inl hj3
      · rw [List.mem_singleton] at hx
        rw [hx] at hx2
        exact Or.inr hx2
    · intro j hj
      rw [Finset.mem_coe]
      rcases hj with hj | hj
      · exact A (Finset.mem_insert_of_mem hj)
      · exact ownedReach_closed (fun v hv k hadj => C v hv k hadj) hj hstartmem
  refine ⟨hseteq, ?_, C⟩
  have hdisj : Disjoint (vis : Set Nat) (ownedComponent ts p start) := by
    rw [Set.disjoint_left]
    intro j hjv hjc
    have hback : ownedReach ts p j start := ownedReach_symm hsym hjc
    have : start ∈ vis :=
      ownedReach_closed hvisclosed hback (Finset.mem_coe.mpr hjv)
    exact hstartnv this
  have hcardU : ((vis : Set Nat) ∪ ownedComponent ts p start).ncard =
      vis.card + (ownedComponent ts p start).ncard := by
    rw [Set.ncard_union_eq hdisj (vis.finite_toSet)
      (ownedComponent_finite hstartN), Set.ncard_coe_Finset]
  have hfin : ((bfsLoop ts p (ts.length + 1) [start]
      (insert start vis) 0).2 : Set Nat).ncard =
      (bfsLoop ts p (ts.length + 1) [start] (insert start vis) 0).2.card :=
    Set.ncard_coe_Finset _
  have hcards : (bfsLoop ts p (ts.length + 1) [start]
      (insert start vis) 0).2.card =
      vis.card + (ownedComponent ts p start).ncard := by
    rw [← hfin, hseteq, hcardU]
  have hinsert : (insert start vis).card = vis.card + 1 :=
    Finset.card_insert_of_not_mem hstartnv
  simp only [List.length_singleton] at D
  omega

/-- Correctness of the outer region loop: the accumulated maximum bounds
every processed component, is attained by one of them, and grows. -/
theorem flcrLoop_spec (ts : List TerritoryData) (p : Nat)
    (hsym : ∀ (i j : Nat) (ti tj : TerritoryData), ts[i]? = some ti →
      ts[j]? = some tj → (j ∈ ti.neighbors ↔ i ∈ tj.neighbors)) :
    ∀ (starts : List Nat) (vis : Finset Nat) (largest : Nat),
    (∀ x ∈ starts, ownedIdx ts p x) →
    (∀ v ∈ vis, ownedIdx ts p v) →
    (∀ v ∈ vis, ∀ j, ownedAdj ts p v j → j ∈ vis) →
    (∀ i ∈ vis, (ownedComponent ts p i).ncard ≤ largest) →
    (largest = 0 ∨ ∃ i, ownedIdx ts p i ∧
      largest = (ownedComponent ts p i).ncard) →
    largest ≤ flcrLoop ts p starts vis largest ∧
    (∀ x ∈ starts, (ownedComponent ts p x).ncard ≤
      flcrLoop ts p starts vis largest) ∧
    (flcrLoop ts p starts vis largest = 0 ∨
      ∃ i, ownedIdx ts p i ∧ flcrLoop ts p starts vis largest =
        (ownedComponent ts p i).ncard) := by
  intro starts
  induction starts with
  | nil =>
    intro vis largest _ _ _ _ hJ2
    exact ⟨le_refl largest, fun x hx => absurd hx (List.not_mem_nil x), hJ2⟩
  | cons start rest ih =>
    intro vis largest hso hvo hvc hJ1 hJ2
    by_cases hmem : start ∈ vis
    · have heq : flcrLoop ts p (start :: rest) vis largest =
          flcrLoop ts p rest vis largest := by
        rw [flcrLoop, if_pos hmem]
      rw [heq]
      obtain ⟨K0, K1, K3⟩ := ih vis largest
        (fun x hx => hso x (List.mem_cons_of_mem start hx)) hvo hvc hJ1 hJ2
      refine ⟨K0, ?_, K3⟩
      intro x hx
      rcases List.mem_cons.mp hx with hx2 | hx2
      · rw [hx2]
        exact le_trans (hJ1 start hmem) K0
      · exact K1 x hx2
    · have hstartO : ownedIdx ts p start :=
        hso start (List.mem_cons_self start rest)
      have heq : flcrLoop ts p (start :: rest) vis largest =
          flcrLoop ts p rest
            (bfsLoop ts p (ts.length + 1) [start] (insert start vis) 0).2
            (max largest
              (bfsLoop ts p (ts.length + 1) [start] (insert start vis) 0).1) := by
        rw [flcrLoop, if_neg hmem]
      rw [heq]
      obtain ⟨hset, hcount, hclosed2⟩ :=
        bfs_component ts p vis start hstartO hmem hvo hsym hvc
      have hvo2 : ∀ v ∈ (bfsLoop ts p (ts.length + 1) [start]
          (insert start vis) 0).2, ownedIdx ts p v := by
        intro v hv
        have : (v : Nat) ∈ ((bfsLoop ts p (ts.length + 1) [start]
            (insert start vis) 0).2 : Set Nat) := Finset.mem_coe.mpr hv
        rw [hset] at this
        rcases this with hv2 | hv2
        · exact hvo v hv2
        · exact ownedReach_owned hv2 hstartO
      have hJ1b : ∀ i ∈ (bfsLoop ts p (ts.length + 1) [start]
          (insert start vis) 0).2, (ownedComponent ts p i).ncard ≤
          max largest
            (bfsLoop ts p (ts.length + 1) [start] (insert start vis) 0).1 := by
        intro i hi
        have : (i : Nat) ∈ ((bfsLoop ts p (ts.length + 1) [start]
            (insert start vis) 0).2 : Set Nat) := Finset.mem_coe.mpr hi
        rw [hset] at this
        rcases this with hi2 | hi2
        · exact le_trans (hJ1 i hi2) (le_max_left _ _)
        · rw [ownedComponent_eq_of_reach hsym hi2, ← hcount]
          exact le_max_right _ _
      have hJ2b : max largest
          (bfsLoop ts p (ts.length + 1) [start] (insert start vis) 0).1 = 0 ∨
          ∃ i, ownedIdx ts p i ∧ max largest
            (bfsLoop ts p (ts.length + 1) [start] (insert start vis) 0).1 =
            (ownedComponent ts p i).ncard := by
        rcases le_total largest
            (bfsLoop ts p (ts.length + 1) [start] (insert start vis) 0).1 with
          hle | hle
        · refine Or.inr ⟨start, hstartO, ?_⟩
          rw [max_eq_right hle, hcount]
        · rcases hJ2 with h0 | ⟨i, hiO, hieq⟩
          · rw [h0] at hle ⊢
            rw [Nat.le_zero] at hle
            rw [hle]
            exact Or.inl (max_self 0)
          · refine Or.inr ⟨i, hiO, ?_⟩
            rw [max_eq_left hle, hieq]
      obtain ⟨K0, K1, K3⟩ := ih _ _
        (fun x hx => hso x (List.mem_cons_of_mem start hx)) hvo2 hclosed2
        hJ1b hJ2b
      refine ⟨le_trans (le_max_left _ _) K0, ?_, K3⟩
      intro x hx
      rcases List.mem_cons.mp hx with hx2 | hx2
      · rw [hx2]
        calc (ownedComponent ts p start).ncard
            = (bfsLoop ts p (ts.length + 1) [start]
                (insert start vis) 0).1 := hcount.symm
          _ ≤ max largest _ := le_max_right _ _
          _ ≤ _ := K0
      · exact K1 x hx2

/-- With dense territory ids, the filtered-and-mapped territory-id list of
FindLargestContiguousRegion enumerates exactly the player-owned indices. -/
theorem mem_ownedIds (ts : List TerritoryData) (p : Nat)
    (hid : ∀ (i : Nat) (t : TerritoryData), ts[i]? = some t → t.id = i)
    (i : Nat) :
    i ∈ (ts.filter (fun t => decide (t.owner = p))).map (fun t => t.id) ↔
      ownedIdx ts p i := by
  constructor
  · intro h
    rw [List.mem_map] at h
    obtain ⟨t, htmem, htid⟩ := h
    rw [List.mem_filter] at htmem
    obtain ⟨htl, hto⟩ := htmem
    rw [decide_eq_true_eq] at hto
    obtain ⟨j, hj⟩ := List.mem_iff_getElem?.mp htl
    have hji : j = i := by
      rw [← htid]
      exact (hid j t hj).symm
    exact ⟨t, hji ▸ hj, hto⟩
  · rintro ⟨t, hti, hto⟩
    rw [List.mem_map]
    refine ⟨t, ?_, hid i t hti⟩
    rw [List.mem_filter]
    exact ⟨List.getElem?_mem hti, by rw [decide_eq_true_eq]; exact hto⟩

/-- Symmetric neighbor lists follow from the decidable bounded check. -/
theorem neighborSym_of_getD (ts : List TerritoryData)
    (h : ∀ i, i < ts.length → ∀ j, j < ts.length →
      (j ∈ (ts.getD i (tinyTerritory 0 0 0)).neighbors ↔
        i ∈ (ts.getD j (tinyTerritory 0 0 0)).neighbors)) :
    ∀ (i j : Nat) (ti tj : TerritoryData), ts[i]? = some ti →
      ts[j]? = some tj → (j ∈ ti.neighbors ↔ i ∈ tj.neighbors) := by
  intro i j ti tj hti htj
  have hi : i < ts.length := by
    by_contra hbig
    rw [List.getElem?_eq_none (by omega)] at hti
    exact Option.noConfusion hti
  have hj : j < ts.length := by
    by_contra hbig
    rw [List.getElem?_eq_none (by omega)] at htj
    exact Option.noConfusion htj
  have h2 := h i hi j hj
  rw [List.getD_eq_getElem?_getD, hti, List.getD_eq_getElem?_getD, htj] at h2
  simpa using h2

/-- Claim C4. The reinforcement amount granted at the end of a turn
(EndTurn passes CalculateReinforcements, which returns
FindLargestContiguousRegion, to DistributeReinforcements) equals the size
of the player's largest contiguous region in the specification's sense: it
is an upper bound on the owned-adjacency component of every territory the
player owns, it is attained by one of those components whenever the player
owns anything, and it is 0 otherwise — so in particular it is not the
player's total territory count. The hypotheses are the game's data-model
invariants: territory ids equal list indices and neighbor lists are
symmetric. -/
theorem C4_reinforcements_equal_largest_region (s : GameState) (player : Nat)
    (hid : ∀ (i : Nat) (t : TerritoryData), s.territories[i]? = some t →
      t.id = i)
    (hsym : ∀ (i j : Nat) (ti tj : TerritoryData),
      s.territories[i]? = some ti → s.territories[j]? = some tj →
      (j ∈ ti.neighbors ↔ i ∈ tj.neighbors)) :
    (∀ i, ownedIdx s.territories player i →
      (ownedComponent s.territories player i).ncard ≤
        CalculateReinforcements s player) ∧
    ((∃ i, ownedIdx s.territories player i) →
      ∃ i, ownedIdx s.territories player i ∧
        CalculateReinforcements s player =
          (ownedComponent s.territories player i).ncard) ∧
    ((¬ ∃ i, ownedIdx s.territories player i) →
      CalculateReinforcements s player = 0) := by
  have hmem := mem_ownedIds s.territories player hid
  have hdef : CalculateReinforcements s player =
      (if (s.territories.filter
            (fun t => decide (t.owner = player))).map (fun t => t.id) = []
        then 0
        else flcrLoop s.territories player
          ((s.territories.filter
            (fun t => decide (t.owner = player))).map (fun t => t.id)) ∅ 0) :=
    rfl
  rw [hdef]
  by_cases hempty : (s.territories.filter
      (fun t => decide (t.owner = player))).map (fun t => t.id) = []
  · rw [if_pos hempty]
    refine ⟨?_, ?_, fun _ => rfl⟩
    · intro i hi
      have hin := (hmem i).mpr hi
      rw [hempty] at hin
      exact absurd hin (List.not_mem_nil i)
    · rintro ⟨i, hi⟩
      have hin := (hmem i).mpr hi
      rw [hempty] at hin
      exact absurd hin (List.not_mem_nil i)
  · rw [if_neg hempty]
    obtain ⟨K0, K1, K3⟩ := flcrLoop_spec s.territories player hsym
      ((s.territories.filter
        (fun t => decide (t.owner = player))).map (fun t => t.id)) ∅ 0
      (fun x hx => (hmem x).mp hx)
      (fun v hv => absurd hv (Finset.not_mem_empty v))
      (fun v hv => absurd hv (Finset.not_mem_empty v))
      (fun i hi => absurd hi (Finset.not_mem_empty i))
      (Or.inl rfl)
    refine ⟨?_, ?_, ?_⟩
    · intro i hi
      exact K1 i ((hmem i).mpr hi)
    · rintro ⟨i0, hi0⟩
      rcases K3 with h0 | ⟨i, hiO, hieq⟩
      · exfalso
        have hb := K1 i0 ((hmem i0).mpr hi0)
        rw [h0] at hb
        have hlen : i0 < s.territories.length := by
          obtain ⟨t, ht, _⟩ := hi0
          by_contra hbig
          rw [List.getElem?_eq_none (by omega)] at ht
          exact Option.noConfusion ht
        have hpos : 0 < (ownedComponent s.territories player i0).ncard :=
          ownedComponent_ncard_pos hlen
        omega
      · exact ⟨i, hiO, hieq⟩
    · intro hno
      exfalso
      obtain ⟨x, hx⟩ := List.exists_mem_of_ne_nil _ hempty
      exact hno ⟨x, (hmem x).mp hx⟩

/-- Concrete instance of claim C4: the example attack state has dense ids
and symmetric neighbors, and the reinforcement amount bounds every owned
component of player 0. -/
theorem C4_witness :
    (∀ i, i < attackableState.territories.length →
      (attackableState.territories.getD i (tinyTerritory 0 0 0)).id = i) ∧
    (∀ i, i < attackableState.territories.length →
      ∀ j, j < attackableState.territories.length →
        (j ∈ (attackableState.territories.getD i
            (tinyTerritory 0 0 0)).neighbors ↔
          i ∈ (attackableState.territories.getD j
            (tinyTerritory 0 0 0)).neighbors)) ∧
    (∀ i, ownedIdx attackableState.territories 0 i →
      (ownedComponent attackableState.territories 0 i).ncard ≤
        CalculateReinforcements attackableState 0) :=
  ⟨by decide, by decide,
    (C4_reinforcements_equal_largest_region attackableState 0
      (denseIds_of_getD _ (by decide)) (neighborSym_of_getD _ (by decide))).1⟩

/-! ### Island detection: DFS correctness -/

/-- Unfolding the zero-fuel case of DFSTerritory. -/
theorem DFSTerritory_zero (s : GameState) (current : Nat) (vis : Finset Nat)
    (isl : List Nat × Nat) : DFSTerritory s 0 current vis isl = (vis, isl) :=
  rfl

/-- Unfolding the successor-fuel case of DFSTerritory. -/
theorem DFSTerritory_succ (s : GameState) (fuel current : Nat)
    (vis : Finset Nat) (isl : List Nat × Nat) :
    DFSTerritory s (fuel + 1) current vis isl =
      match s.GetTerritory current with
      | none => (insert current vis, (isl.1 ++ [current], isl.2))
      | some t => dfsFold s fuel t.neighbors
          (insert current vis, (isl.1 ++ [current], isl.2 + t.hexes.length)) :=
  rfl

/-- Unfolding the empty case of the DFS neighbor fold. -/
theorem dfsFold_nil (s : GameState) (fuel : Nat)
    (acc : Finset Nat × (List Nat × Nat)) : dfsFold s fuel [] acc = acc :=
  rfl

/-- Unfolding the cons case of the DFS neighbor fold. -/
theorem dfsFold_cons (s : GameState) (fuel nb : Nat) (rest : List Nat)
    (acc : Finset Nat × (List Nat × Nat)) :
    dfsFold s fuel (nb :: rest) acc =
      dfsFold s fuel rest
        (if nb ∈ acc.1 then acc else DFSTerritory s fuel nb acc.1 acc.2) :=
  rfl

/-- Growing the avoided set shrinks DFS reachability. -/
theorem reachAvoid_mono {s : GameState} {A B : Finset Nat} (hAB : A ⊆ B)
    {x y : Nat} (h : reachAvoid s B x y) : reachAvoid s A x y :=
  Relation.ReflTransGen.mono
    (fun _ _ hv => ⟨fun hvA => hv.1 (hAB hvA), hv.2⟩) h

/-- With in-range neighbor lists, DFS reachability stays inside the
territory index range. -/
theorem reachAvoid_lt {s : GameState} {A : Finset Nat} {x y : Nat}
    (hvalid : ∀ (i : Nat) (t : TerritoryData), s.territories[i]? = some t →
      ∀ nb ∈ t.neighbors, nb < s.territories.length)
    (h : reachAvoid s A x y) (hx : x < s.territories.length) :
    y < s.territories.length := by
  induction h with
  | refl => exact hx
  | tail _ hbc _ =>
    obtain ⟨_, t, hget, hnb⟩ := hbc
    exact hvalid _ t hget _ hnb

/-- A step-closed superset of a start outside the avoided set contains its
whole DFS-reachable region. -/
theorem reach_sub_of_closed {s : GameState} {W vis : Finset Nat} {x : Nat}
    (hx : x ∈ W) (hxv : x ∉ vis)
    (hclosed : ∀ u ∈ W, u ∉ vis → ∀ t, s.GetTerritory u = some t →
      ∀ nb ∈ t.neighbors, nb ∈ W) :
    ∀ y, reachAvoid s vis x y → y ∈ W := by
  have hstrong : ∀ y, reachAvoid s vis x y → y ∈ W ∧ y ∉ vis := by
    intro y hy
    induction hy with
    | refl => exact ⟨hx, hxv⟩
    | tail _ hbc ih =>
      obtain ⟨hcv, t, hget, hnb⟩ := hbc
      exact ⟨hclosed _ ih.1 ih.2 t hget _ hnb, hcv⟩
  exact fun y hy => (hstrong y hy).1

/-- Invariants of the DFS neighbor fold: given the inductive hypothesis for
one fuel level less, the fold preserves the visited superset, pushes every
listed neighbor into the visited set, never grows the unvisited range,
keeps the everything-but-the-current-node closure, keeps soundness with
respect to reachability from the current node, and tracks the island
members as exactly the freshly visited nodes. -/
theorem dfsFold_spec (s : GameState)
    (hvalid : ∀ (i : Nat) (t : TerritoryData), s.territories[i]? = some t →
      ∀ nb ∈ t.neighbors, nb < s.territories.length)
    (f : Nat)
    (IH : ∀ (current : Nat) (vis : Finset Nat) (isl : List Nat × Nat),
      current < s.territories.length → current ∉ vis →
      ((Finset.range s.territories.length) \ vis).card < f →
      vis ⊆ (DFSTerritory s f current vis isl).1 ∧
      current ∈ (DFSTerritory s f current vis isl).1 ∧
      (∀ u ∈ (DFSTerritory s f current vis isl).1, u ∉ vis →
        ∀ t, s.GetTerritory u = some t →
        ∀ nb ∈ t.neighbors, nb ∈ (DFSTerritory s f current vis isl).1) ∧
      (∀ y ∈ (DFSTerritory s f current vis isl).1,
        y ∈ vis ∨ reachAvoid s vis current y) ∧
      (∀ y, y ∈ (DFSTerritory s f current vis isl).2.1 ↔
        y ∈ isl.1 ∨ (y ∈ (DFSTerritory s f current vis isl).1 ∧ y ∉ vis)))
    (vis : Finset Nat) (current : Nat) (isl0 : List Nat)
    (hcv : current ∉ vis) :
    ∀ (ns : List Nat),
    (∀ nb ∈ ns, nb < s.territories.length) →
    (∀ nb ∈ ns, ∃ t, s.GetTerritory current = some t ∧ nb ∈ t.neighbors) →
    ∀ (acc : Finset Nat × (List Nat × Nat)),
    insert current vis ⊆ acc.1 →
    ((Finset.range s.territories.length) \ acc.1).card < f →
    (∀ u ∈ acc.1, u ∉ insert current vis →
      ∀ t, s.GetTerritory u = some t →
      ∀ nb ∈ t.neighbors, nb ∈ acc.1) →
    (∀ y ∈ acc.1, y ∈ vis ∨ reachAvoid s vis current y) →
    (∀ y, y ∈ acc.2.1 ↔ y ∈ isl0 ∨ (y ∈ acc.1 ∧ y ∉ vis)) →
    acc.1 ⊆ (dfsFold s f ns acc).1 ∧
    (∀ nb ∈ ns, nb ∈ (dfsFold s f ns acc).1) ∧
    ((Finset.range s.territories.length) \ (dfsFold s f ns acc).1).card ≤
      ((Finset.range s.territories.length) \ acc.1).card ∧
    (∀ u ∈ (dfsFold s f ns acc).1, u ∉ insert current vis →
      ∀ t, s.GetTerritory u = some t →
      ∀ nb ∈ t.neighbors, nb ∈ (dfsFold s f ns acc).1) ∧
    (∀ y ∈ (dfsFold s f ns acc).1, y ∈ vis ∨ reachAvoid s vis current y) ∧
    (∀ y, y ∈ (dfsFold s f ns acc).2.1 ↔
      y ∈ isl0 ∨ (y ∈ (dfsFold s f ns acc).1 ∧ y ∉ vis)) := by
  intro ns
  induction ns with
  | nil =>
    intro _ _ acc hbase hcard hclosed hsound hisl
    rw [dfsFold_nil]
    exact ⟨Finset.Subset.refl _, fun nb h => absurd h (List.not_mem_nil nb),
      le_refl _, hclosed, hsound, hisl⟩
  | cons nb rest ihns =>
    intro hns hstep acc hbase hcard hclosed hsound hisl
    rw [dfsFold_cons]
    by_cases hnb : nb ∈ acc.1
    · rw [if_pos hnb]
      obtain ⟨c1, c2, c3, c4, c5, c6⟩ := ihns
        (fun x hx => hns x (List.mem_cons_of_mem nb hx))
        (fun x hx => hstep x (List.mem_cons_of_mem nb hx))
        acc hbase hcard hclosed hsound hisl
      refine ⟨c1, ?_, c3, c4, c5, c6⟩
      intro x hx
      rcases List.mem_cons.mp hx with hx2 | hx2
      · rw [hx2]
        exact c1 hnb
      · exact c2 x hx2
    · rw [if_neg hnb]
      have hnbN : nb < s.territories.length :=
        hns nb (List.mem_cons_self nb rest)
      obtain ⟨i1, i2, i3, i4, i5⟩ := IH nb acc.1 acc.2 hnbN hnb hcard
      have hnbv : nb ∉ vis := fun h =>
        hnb (hbase (Finset.mem_insert_of_mem h))
      have hvisacc : vis ⊆ acc.1 := fun x hx =>
        hbase (Finset.mem_insert_of_mem hx)
      have hreachnb : reachAvoid s vis current nb := by
        obtain ⟨t, hget, hmem⟩ := hstep nb (List.mem_cons_self nb rest)
        exact Relation.ReflTransGen.single ⟨hnbv, t, hget, hmem⟩
      have hcard2 : ((Finset.range s.territories.length) \
          (DFSTerritory s f nb acc.1 acc.2).1).card ≤
          ((Finset.range s.territories.length) \ acc.1).card - 1 := by
        have hsub : (Finset.range s.territories.length) \
            (DFSTerritory s f nb acc.1 acc.2).1 ⊆
            ((Finset.range s.territories.length) \ acc.1).erase nb := by
          intro x hx
          rw [Finset.mem_sdiff] at hx
          rw [Finset.mem_erase, Finset.mem_sdiff]
          refine ⟨?_, hx.1, fun hxa => hx.2 (i1 hxa)⟩
          intro hxnb
          rw [hxnb] at hx
          exact hx.2 i2
        have hm : nb ∈ (Finset.range s.territories.length) \ acc.1 := by
          rw [Finset.mem_sdiff]
          exact ⟨Finset.mem_range.mpr hnbN, hnb⟩
        calc ((Finset.range s.territories.length) \
              (DFSTerritory s f nb acc.1 acc.2).1).card
            ≤ (((Finset.range s.territories.length) \ acc.1).erase nb).card :=
              Finset.card_le_card hsub
          _ = ((Finset.range s.territories.length) \ acc.1).card - 1 :=
              Finset.card_erase_of_mem hm
      have hmpos : 0 < ((Finset.range s.territories.length) \ acc.1).card := by
        apply Finset.card_pos.mpr
        exact ⟨nb, by rw [Finset.mem_sdiff]; exact ⟨Finset.mem_range.mpr hnbN, hnb⟩⟩
      have hbase2 : insert current vis ⊆ (DFSTerritory s f nb acc.1 acc.2).1 :=
        fun x hx => i1 (hbase hx)
      have hclosed2 : ∀ u ∈ (DFSTerritory s f nb acc.1 acc.2).1,
          u ∉ insert current vis → ∀ t, s.GetTerritory u = some t →
          ∀ x ∈ t.neighbors, x ∈ (DFSTerritory s f nb acc.1 acc.2).1 := by
        intro u hu huv t hget x hx
        by_cases hua : u ∈ acc.1
        · exact i1 (hclosed u hua huv t hget x hx)
        · exact i3 u hu hua t hget x hx
      have hsound2 : ∀ y ∈ (DFSTerritory s f nb acc.1 acc.2).1,
          y ∈ vis ∨ reachAvoid s vis current y := by
        intro y hy
        rcases i4 y hy with hy2 | hy2
        · exact hsound y hy2
        · exact Or.inr (Relation.ReflTransGen.trans hreachnb
            (reachAvoid_mono hvisacc hy2))
      have hisl2 : ∀ y, y ∈ (DFSTerritory s f nb acc.1 acc.2).2.1 ↔
          y ∈ isl0 ∨ (y ∈ (DFSTerritory s f nb acc.1 acc.2).1 ∧ y ∉ vis) := by
        intro y
        rw [i5 y, hisl y]
        constructor
        · rintro ((hy | ⟨hy1, hy2⟩) | ⟨hy1, hy2⟩)
          · exact Or.inl hy
          · exact Or.inr ⟨i1 hy1, hy2⟩
          · exact Or.inr ⟨hy1, fun hv => hy2 (hvisacc hv)⟩
        · rintro (hy | ⟨hy1, hy2⟩)
          · exact Or.inl (Or.inl hy)
          · by_cases hya : y ∈ acc.1
            · exact Or.inl (Or.inr ⟨hya, hy2⟩)
            · exact Or.inr ⟨hy1, hya⟩
      obtain ⟨c1, c2, c3, c4, c5, c6⟩ := ihns
        (fun x hx => hns x (List.mem_cons_of_mem nb hx))
        (fun x hx => hstep x (List.mem_cons_of_mem nb hx))
        (DFSTerritory s f nb acc.1 acc.2) hbase2 (by omega) hclosed2
        hsound2 hisl2
      refine ⟨fun x hx => c1 (i1 hx), ?_, by omega, c4, c5, c6⟩
      intro x hx
      rcases List.mem_cons.mp hx with hx2 | hx2
      · rw [hx2]
        exact c1 i2
      · exact c2 x hx2

/-- Correctness of DFSTerritory with sufficient fuel: the visited set only
grows, the current node is visited, the result is closed under neighbor
steps from freshly visited nodes, every visited node was already visited or
is DFS-reachable from the current node avoiding the initial visited set,
and the island member list extends the accumulator by exactly the freshly
visited nodes. -/
theorem DFSTerritory_correct (s : GameState)
    (hvalid : ∀ (i : Nat) (t : TerritoryData), s.territories[i]? = some t →
      ∀ nb ∈ t.neighbors, nb < s.territories.length) :
    ∀ (fuel : Nat) (current : Nat) (vis : Finset Nat) (isl : List Nat × Nat),
    current < s.territories.length → current ∉ vis →
    ((Finset.range s.territories.length) \ vis).card < fuel →
    vis ⊆ (DFSTerritory s fuel current vis isl).1 ∧
    current ∈ (DFSTerritory s fuel current vis isl).1 ∧
    (∀ u ∈ (DFSTerritory s fuel current vis isl).1, u ∉ vis →
      ∀ t, s.GetTerritory u = some t →
      ∀ nb ∈ t.neighbors, nb ∈ (DFSTerritory s fuel current vis isl).1) ∧
    (∀ y ∈ (DFSTerritory s fuel current vis isl).1,
      y ∈ vis ∨ reachAvoid s vis current y) ∧
    (∀ y, y ∈ (DFSTerritory s fuel current vis isl).2.1 ↔
      y ∈ isl.1 ∨ (y ∈ (DFSTerritory s fuel current vis isl).1 ∧ y ∉ vis)) := by
  intro fuel
  induction fuel with
  | zero =>
    intro current vis isl _ _ hfuel
    exact absurd hfuel (Nat.not_lt_zero _)
  | succ f ih =>
    intro current vis isl hcN hcv hfuel
    rw [DFSTerritory_succ]
    cases hget : s.GetTerritory current with
    | none =>
      simp only
      refine ⟨Finset.subset_insert _ _, Finset.mem_insert_self _ _, ?_, ?_, ?_⟩
      · intro u hu huv t hget2 nb _
        rcases Finset.mem_insert.mp hu with hu2 | hu2
        · rw [hu2] at hget2
          rw [hget] at hget2
          exact Option.noConfusion hget2
        · exact absurd hu2 huv
      · intro y hy
        rcases Finset.mem_insert.mp hy with hy2 | hy2
        · rw [hy2]
          exact Or.inr Relation.ReflTransGen.refl
        · exact Or.inl hy2
      · intro y
        simp only [List.mem_append, List.mem_singleton, Finset.mem_insert]
        constructor
        · rintro (hy | hy)
          · exact Or.inl hy
          · exact Or.inr ⟨Or.inl hy, by rw [hy]; exact hcv⟩
        · rintro (hy | ⟨hy1 | hy1, hy2⟩)
          · exact Or.inl hy
          · exact Or.inr hy1
          · exact absurd hy1 hy2
    | some t =>
      simp only
      have hcard0 : ((Finset.range s.territories.length) \
          (insert current vis)).card <
          ((Finset.range s.territories.length) \ vis).card := by
        have hsub : (Finset.range s.territories.length) \
            (insert current vis) ⊆
            ((Finset.range s.territories.length) \ vis).erase current := by
          intro x hx
          rw [Finset.mem_sdiff, Finset.mem_insert, not_or] at hx
          rw [Finset.mem_erase, Finset.mem_sdiff]
          exact ⟨hx.2.1, hx.1, hx.2.2⟩
        have hm : current ∈ (Finset.range s.territories.length) \ vis := by
          rw [Finset.mem_sdiff]
          exact ⟨Finset.mem_range.mpr hcN, hcv⟩
        have h1 := Finset.card_le_card hsub
        rw [Finset.card_erase_of_mem hm] at h1
        have h2 : 0 < ((Finset.range s.territories.length) \ vis).card :=
          Finset.card_pos.mpr ⟨current, hm⟩
        omega
      have hgetterr : s.territories[current]? = some t := hget
      have hcard1 : ((Finset.range s.territories.length) \
          (insert current vis)).card < f := by omega
      obtain ⟨c1, c2, c3, c4, c5, c6⟩ := dfsFold_spec s hvalid f (ih) vis
        current isl.1 hcv t.neighbors
        (fun nb hnb => hvalid current t hgetterr nb hnb)
        (fun nb hnb => ⟨t, hget, hnb⟩)
        (insert current vis, (isl.1 ++ [current], isl.2 + t.hexes.length))
        (Finset.Subset.refl _) hcard1
        (fun u hu huv _ _ _ _ => absurd hu huv)
        (fun y hy => by
          rcases Finset.mem_insert.mp hy with hy2 | hy2
          · rw [hy2]
            exact Or.inr Relation.ReflTransGen.refl
          · exact Or.inl hy2)
        (fun y => by
          simp only [List.mem_append, List.mem_singleton, Finset.mem_insert]
          constructor
          · rintro (hy | hy)
            · exact Or.inl hy
            · exact Or.inr ⟨Or.inl hy, by rw [hy]; exact hcv⟩
          · rintro (hy | ⟨hy1 | hy1, hy2⟩)
            · exact Or.inl hy
            · exact Or.inr hy1
            · exact absurd hy1 hy2)
      refine ⟨?_, ?_, ?_, c5, c6⟩
      · exact fun x hx => c1 (Finset.mem_insert_of_mem hx)
      · exact c1 (Finset.mem_insert_self _ _)
      · intro u hu huv t2 hget2 nb hnb
        by_cases hui : u ∈ insert current vis
        · rcases Finset.mem_insert.mp hui with hu2 | hu2
          · rw [hu2] at hget2
            rw [hget] at hget2
            injection hget2 with hv
            rw [← hv] at hnb
            exact c2 nb hnb
          · exact absurd hu2 huv
        · exact c4 u hu hui t2 hget2 nb hnb

/-- Unfolding the empty case of the FindIslands loop. -/
theorem fiLoop_nil (s : GameState) (vis : Finset Nat)
    (isls : List (List Nat × Nat)) : fiLoop s [] vis isls = (vis, isls) :=
  rfl

/-- Unfolding the cons case of the FindIslands loop. -/
theorem fiLoop_cons (s : GameState) (t : TerritoryData)
    (rest : List TerritoryData) (vis : Finset Nat)
    (isls : List (List Nat × Nat)) :
    fiLoop s (t :: rest) vis isls =
      if t.id ∈ vis then fiLoop s rest vis isls
      else fiLoop s rest
        (DFSTerritory s (s.territories.length + 1) t.id vis ([], 0)).1
        (isls ++ [(DFSTerritory s (s.territories.length + 1) t.id vis ([], 0)).2]) :=
  rfl

/-- Every island produced by the FindIslands loop has a root: a member that
is minimal, not previously visited, whose DFS-reachable region avoiding the
then-visited set is exactly the island, with all members in range. -/
theorem fiLoop_islands (s : GameState)
    (hid : ∀ (i : Nat) (t : TerritoryData), s.territories[i]? = some t →
      t.id = i)
    (hvalid : ∀ (i : Nat) (t : TerritoryData), s.territories[i]? = some t →
      ∀ nb ∈ t.neighbors, nb < s.territories.length) :
    ∀ (l : List TerritoryData) (m : Nat) (vis : Finset Nat)
      (isls : List (List Nat × Nat)),
    l = s.territories.drop m →
    (∀ j, j < m → j ∈ vis) →
    (∀ isl ∈ isls, ∃ (r : Nat) (vb : Finset Nat),
      r ∈ isl.1 ∧ r ∉ vb ∧ (∀ y ∈ isl.1, y ∉ vb) ∧ (∀ y ∈ isl.1, r ≤ y) ∧
      (∀ y ∈ isl.1, y < s.territories.length) ∧
      (∀ y ∈ isl.1, reachAvoid s vb r y) ∧
      (∀ z, reachAvoid s vb r z → z ∉ vb → z ∈ isl.1)) →
    ∀ isl ∈ (fiLoop s l vis isls).2, ∃ (r : Nat) (vb : Finset Nat),
      r ∈ isl.1 ∧ r ∉ vb ∧ (∀ y ∈ isl.1, y ∉ vb) ∧ (∀ y ∈ isl.1, r ≤ y) ∧
      (∀ y ∈ isl.1, y < s.territories.length) ∧
      (∀ y ∈ isl.1, reachAvoid s vb r y) ∧
      (∀ z, reachAvoid s vb r z → z ∉ vb → z ∈ isl.1) := by
  intro l
  induction l with
  | nil =>
    intro m vis isls _ _ hQ
    rw [fiLoop_nil]
    exact hQ
  | cons t rest ihl =>
    intro m vis isls hl hvism hQ
    have hmt : s.territories[m]? = some t := by
      have h0 : (s.territories.drop m)[0]? = some t := by
        rw [← hl]
        simp
      rwa [List.getElem?_drop, Nat.add_zero] at h0
    have hrest : rest = s.territories.drop (m + 1) := by
      calc rest = (t :: rest).drop 1 := rfl
        _ = (s.territories.drop m).drop 1 := by rw [hl]
        _ = s.territories.drop (m + 1) := List.drop_drop 1 m _
    have htid : t.id = m := hid m t hmt
    have hmN : m < s.territories.length := by
      by_contra hbig
      rw [List.getElem?_eq_none (by omega)] at hmt
      exact Option.noConfusion hmt
    rw [fiLoop_cons, htid]
    by_cases hm : m ∈ vis
    · rw [if_pos hm]
      refine ihl (m + 1) vis isls hrest ?_ hQ
      intro j hj
      rcases Nat.lt_succ_iff_lt_or_eq.mp hj with h | h
      · exact hvism j h
      · rw [h]
        exact hm
    · rw [if_neg hm]
      have hfuel : ((Finset.range s.territories.length) \ vis).card <
          s.territories.length + 1 := by
        have h1 := Finset.card_le_card
          (Finset.sdiff_subset (s := Finset.range s.territories.length)
            (t := vis))
        rw [Finset.card_range] at h1
        omega
      obtain ⟨m1, m2, m3, m4, m5⟩ := DFSTerritory_correct s hvalid
        (s.territories.length + 1) m vis ([], 0) hmN hm hfuel
      refine ihl (m + 1) _ _ hrest ?_ ?_
      · intro j hj
        rcases Nat.lt_succ_iff_lt_or_eq.mp hj with h | h
        · exact m1 (hvism j h)
        · rw [h]
          exact m2
      · intro isl hisl
        rcases List.mem_append.mp hisl with h | h
        · exact hQ isl h
        · rw [List.mem_singleton] at h
          subst h
          refine ⟨m, vis, (m5 m).mpr (Or.inr ⟨m2, hm⟩), hm, ?_, ?_, ?_, ?_, ?_⟩
          · intro y hy
            rcases (m5 y).mp hy with h2 | h2
            · exact absurd h2 (List.not_mem_nil y)
            · exact h2.2
          · intro y hy
            rcases (m5 y).mp hy with h2 | h2
            · exact absurd h2 (List.not_mem_nil y)
            · by_contra hlt
              exact h2.2 (hvism y (by omega))
          · intro y hy
            rcases (m5 y).mp hy with h2 | h2
            · exact absurd h2 (List.not_mem_nil y)
            · rcases m4 y h2.1 with h3 | h3
              · exact absurd h3 h2.2
              · exact reachAvoid_lt hvalid h3 hmN
          · intro y hy
            rcases (m5 y).mp hy with h2 | h2
            · exact absurd h2 (List.not_mem_nil y)
            · rcases m4 y h2.1 with h3 | h3
              · exact absurd h3 h2.2
              · exact h3
          · intro z hz hzv
            exact (m5 z).mpr (Or.inr ⟨reach_sub_of_closed m2 hm m3 z hz, hzv⟩)

/-- The FindIslands loop skips every territory whose id is already
visited. -/
theorem fiLoop_all_visited (s : GameState) :
    ∀ (l : List TerritoryData) (vis : Finset Nat)
      (isls : List (List Nat × Nat)),
    (∀ t ∈ l, t.id ∈ vis) → fiLoop s l vis isls = (vis, isls) := by
  intro l
  induction l with
  | nil => intro vis isls _; rfl
  | cons t rest ih =>
    intro vis isls hall
    rw [fiLoop_cons, if_pos (hall t (List.mem_cons_self t rest))]
    exact ih vis isls (fun u hu => hall u (List.mem_cons_of_mem t hu))

/-- Root property of every island of FindIslands (the loop started with
nothing visited and no islands). -/
theorem FindIslands_spec (s : GameState)
    (hid : ∀ (i : Nat) (t : TerritoryData), s.territories[i]? = some t →
      t.id = i)
    (hvalid : ∀ (i : Nat) (t : TerritoryData), s.territories[i]? = some t →
      ∀ nb ∈ t.neighbors, nb < s.territories.length) :
    ∀ isl ∈ FindIslands s, ∃ (r : Nat) (vb : Finset Nat),
      r ∈ isl.1 ∧ r ∉ vb ∧ (∀ y ∈ isl.1, y ∉ vb) ∧ (∀ y ∈ isl.1, r ≤ y) ∧
      (∀ y ∈ isl.1, y < s.territories.length) ∧
      (∀ y ∈ isl.1, reachAvoid s vb r y) ∧
      (∀ z, reachAvoid s vb r z → z ∉ vb → z ∈ isl.1) := by
  apply fiLoop_islands s hid hvalid s.territories 0 ∅ []
  · rw [List.drop_zero]
  · intro j hj
    exact absurd hj (Nat.not_lt_zero j)
  · intro isl hisl
    exact absurd hisl (List.not_mem_nil isl)

/-- When every territory index is DFS-reachable from index 0, FindIslands
finds exactly one island. -/
theorem FindIslands_single (s : GameState)
    (hne : s.territories ≠ [])
    (hid : ∀ (i : Nat) (t : TerritoryData), s.territories[i]? = some t →
      t.id = i)
    (hvalid : ∀ (i : Nat) (t : TerritoryData), s.territories[i]? = some t →
      ∀ nb ∈ t.neighbors, nb < s.territories.length)
    (hreach : ∀ j, j < s.territories.length → reachAvoid s ∅ 0 j) :
    (FindIslands s).length = 1 := by
  obtain ⟨t0, rest, hcons⟩ := List.exists_cons_of_ne_nil hne
  have ht0 : s.territories[0]? = some t0 := by
    rw [hcons]
    simp
  have h0N : 0 < s.territories.length := by
    rw [hcons]
    simp
  have ht0id : t0.id = 0 := hid 0 t0 ht0
  have hfuel : ((Finset.range s.territories.length) \ (∅ : Finset Nat)).card <
      s.territories.length + 1 := by
    rw [Finset.sdiff_empty, Finset.card_range]
    omega
  obtain ⟨m1, m2, m3, m4, m5⟩ := DFSTerritory_correct s hvalid
    (s.territories.length + 1) 0 ∅ ([], 0) h0N (Finset.not_mem_empty 0) hfuel
  have hall : ∀ j, j < s.territories.length →
      j ∈ (DFSTerritory s (s.territories.length + 1) 0 ∅ ([], 0)).1 := by
    intro j hj
    exact reach_sub_of_closed m2 (Finset.not_mem_empty 0) m3 j (hreach j hj)
  have hFI : FindIslands s =
      (fiLoop s s.territories ∅ []).2 := rfl
  rw [hFI, hcons, fiLoop_cons, ht0id, if_neg (Finset.not_mem_empty 0)]
  rw [fiLoop_all_visited]
  · rfl
  · intro u hu
    obtain ⟨k, hk⟩ := List.mem_iff_getElem?.mp hu
    have hk2 : s.territories[k + 1]? = some u := by
      rw [hcons]
      simpa using hk
    have hkN : k + 1 < s.territories.length := by
      by_contra hbig
      rw [List.getElem?_eq_none (by omega)] at hk2
      exact Option.noConfusion hk2
    have := hid (k + 1) u hk2
    rw [this]
    exact hall (k + 1) hkN

/-- Unfolding the empty case of the rebuild pass. -/
theorem rebuildLoop_nil (keep : List Nat) (n : Nat) :
    rebuildLoop keep [] n = ([], []) :=
  rfl

/-- Unfolding the cons case of the rebuild pass. -/
theorem rebuildLoop_cons (keep : List Nat) (t : TerritoryData)
    (rest : List TerritoryData) (n : Nat) :
    rebuildLoop keep (t :: rest) n =
      if t.id ∈ keep then
        ({ t with id := n } :: (rebuildLoop keep rest (n + 1)).1,
          (t.id, n) :: (rebuildLoop keep rest (n + 1)).2)
      else rebuildLoop keep rest n :=
  rfl

/-- The rebuilt territory list is the filtered list with ids renumbered
from the counter. -/
theorem rebuildLoop_fst_getElem (keep : List Nat) :
    ∀ (ts : List TerritoryData) (n j : Nat),
    ((rebuildLoop keep ts n).1)[j]? =
      ((ts.filter (fun t => decide (t.id ∈ keep)))[j]?).map
        (fun t => { t with id := n + j }) := by
  intro ts
  induction ts with
  | nil =>
    intro n j
    simp [rebuildLoop_nil]
  | cons t rest ih =>
    intro n j
    rw [rebuildLoop_cons]
    by_cases h : t.id ∈ keep
    · rw [if_pos h]
      have hfil : (t :: rest).filter (fun t => decide (t.id ∈ keep)) =
          t :: rest.filter (fun t => decide (t.id ∈ keep)) := by
        simp [List.filter_cons, h]
      rw [hfil]
      cases j with
      | zero => simp
      | succ k =>
        simp only [List.getElem?_cons_succ]
        rw [ih (n + 1) k]
        have harith : n + 1 + k = n + (k + 1) := by omega
        rw [harith]
    · rw [if_neg h]
      have hfil : (t :: rest).filter (fun t => decide (t.id ∈ keep)) =
          rest.filter (fun t => decide (t.id ∈ keep)) := by
        simp [List.filter_cons, h]
      rw [hfil, ih n j]

/-- Length of the rebuilt territory list. -/
theorem rebuildLoop_fst_length (keep : List Nat) :
    ∀ (ts : List TerritoryData) (n : Nat),
    (rebuildLoop keep ts n).1.length =
      (ts.filter (fun t => decide (t.id ∈ keep))).length := by
  intro ts
  induction ts with
  | nil => intro n; rfl
  | cons t rest ih =>
    intro n
    rw [rebuildLoop_cons]
    by_cases h : t.id ∈ keep
    · rw [if_pos h]
      have hfil : (t :: rest).filter (fun t => decide (t.id ∈ keep)) =
          t :: rest.filter (fun t => decide (t.id ∈ keep)) := by
        simp [List.filter_cons, h]
      rw [hfil]
      simp [ih (n + 1)]
    · rw [if_neg h]
      have hfil : (t :: rest).filter (fun t => decide (t.id ∈ keep)) =
          rest.filter (fun t => decide (t.id ∈ keep)) := by
        simp [List.filter_cons, h]
      rw [hfil, ih n]

/-- Membership in the idRemap pairs produced by the rebuild pass. -/
theorem rebuildLoop_snd_mem (keep : List Nat) :
    ∀ (ts : List TerritoryData) (n a b : Nat),
    ((a, b) ∈ (rebuildLoop keep ts n).2) ↔
      ∃ j t, (ts.filter (fun t => decide (t.id ∈ keep)))[j]? = some t ∧
        t.id = a ∧ b = n + j := by
  intro ts
  induction ts with
  | nil =>
    intro n a b
    simp [rebuildLoop_nil]
  | cons t rest ih =>
    intro n a b
    rw [rebuildLoop_cons]
    by_cases h : t.id ∈ keep
    · rw [if_pos h]
      have hfil : (t :: rest).filter (fun t => decide (t.id ∈ keep)) =
          t :: rest.filter (fun t => decide (t.id ∈ keep)) := by
        simp [List.filter_cons, h]
      rw [hfil]
      constructor
      · intro hmem
        rcases List.mem_cons.mp hmem with heq | hmem2
        · rw [Prod.mk.injEq] at heq
          exact ⟨0, t, by simp, heq.1.symm, by omega⟩
        · rw [ih (n + 1) a b] at hmem2
          obtain ⟨j, u, hu, hua, hb⟩ := hmem2
          exact ⟨j + 1, u, by simpa using hu, hua, by omega⟩
      · rintro ⟨j, u, hu, hua, hb⟩
        cases j with
        | zero =>
          rw [List.getElem?_cons_zero] at hu
          injection hu with hv
          apply List.mem_cons.mpr
          left
          rw [Prod.mk.injEq]
          constructor
          · rw [← hua, hv]
          · omega
        | succ k =>
          apply List.mem_cons_of_mem
          rw [ih (n + 1) a b]
          exact ⟨k, u, by simpa using hu, hua, by omega⟩
    · rw [if_neg h]
      have hfil : (t :: rest).filter (fun t => decide (t.id ∈ keep)) =
          rest.filter (fun t => decide (t.id ∈ keep)) := by
        simp [List.filter_cons, h]
      rw [hfil, ih n a b]

/-- The idRemap keys are the kept territories' old ids in order. -/
theorem rebuildLoop_keys (keep : List Nat) :
    ∀ (ts : List TerritoryData) (n : Nat),
    ((rebuildLoop keep ts n).2).map Prod.fst =
      (ts.filter (fun t => decide (t.id ∈ keep))).map TerritoryData.id := by
  intro ts
  induction ts with
  | nil => intro n; rfl
  | cons t rest ih =>
    intro n
    rw [rebuildLoop_cons]
    by_cases h : t.id ∈ keep
    · rw [if_pos h]
      have hfil : (t :: rest).filter (fun t => decide (t.id ∈ keep)) =
          t :: rest.filter (fun t => decide (t.id ∈ keep)) := by
        simp [List.filter_cons, h]
      rw [hfil]
      simp [ih (n + 1)]
    · rw [if_neg h]
      have hfil : (t :: rest).filter (fun t => decide (t.id ∈ keep)) =
          rest.filter (fun t => decide (t.id ∈ keep)) := by
        simp [List.filter_cons, h]
      rw [hfil, ih n]

/-- Unfolding the cons case of the idRemap lookup. -/
theorem remapGet_cons (a b x : Nat) (rest : List (Nat × Nat)) :
    remapGet ((a, b) :: rest) x =
      if x = a then some b else remapGet rest x :=
  rfl

/-- A successful idRemap lookup is a member of the pair list. -/
theorem remapGet_mem :
    ∀ (rm : List (Nat × Nat)) (x y : Nat),
    remapGet rm x = some y → (x, y) ∈ rm := by
  intro rm
  induction rm with
  | nil => intro x y h; exact Option.noConfusion h
  | cons p rest ih =>
    intro x y h
    obtain ⟨a, b⟩ := p
    rw [remapGet_cons] at h
    by_cases hxa : x = a
    · rw [if_pos hxa] at h
      injection h with hv
      rw [hxa, hv]
      exact List.mem_cons_self _ _
    · rw [if_neg hxa] at h
      exact List.mem_cons_of_mem _ (ih x y h)

/-- With pairwise distinct keys, every pair of the list is found by the
idRemap lookup. -/
theorem remapGet_of_mem :
    ∀ (rm : List (Nat × Nat)), ((rm.map Prod.fst).Nodup) →
    ∀ x y, (x, y) ∈ rm → remapGet rm x = some y := by
  intro rm
  induction rm with
  | nil => intro _ x y h; exact absurd h (List.not_mem_nil _)
  | cons p rest ih =>
    intro hnd x y hmem
    obtain ⟨a, b⟩ := p
    rw [List.map_cons, List.nodup_cons] at hnd
    rw [remapGet_cons]
    rcases List.mem_cons.mp hmem with heq | hmem2
    · rw [Prod.mk.injEq] at heq
      rw [if_pos heq.1, heq.2]
    · by_cases hxa : x = a
      · exfalso
        apply hnd.1
        rw [List.mem_map]
        exact ⟨(x, y), hmem2, by simp [hxa]⟩
      · rw [if_neg hxa]
        exact ih hnd.2 x y hmem2

/-- The hex-map cleanup never touches the territory vector. -/
theorem removeOne_territories (s : GameState) (tid : Nat) :
    (removeOne s tid).territories = s.territories := by
  cases h : s.GetTerritory tid <;> simp [removeOne, h]

/-- The whole removal pass never touches the territory vector. -/
theorem removeLoop_territories (s : GameState)
    (islands : List (List Nat × Nat)) (li : Nat) :
    (removeLoop s islands li).1.territories = s.territories := by
  have hin : ∀ (l : List Nat) (acc : GameState × List Nat),
      ((l.foldl (fun acc2 tid => (removeOne acc2.1 tid, acc2.2 ++ [tid]))
        acc).1).territories = acc.1.territories := by
    intro l
    induction l with
    | nil => intro acc; rfl
    | cons x xs ih =>
      intro acc
      rw [List.foldl_cons, ih]
      exact removeOne_territories acc.1 x
  have hout : ∀ (li2 : List Nat) (acc : GameState × List Nat),
      ((li2.foldl (fun acc i =>
        (islands.getD i ([], 0)).1.foldl
          (fun acc2 tid => (removeOne acc2.1 tid, acc2.2 ++ [tid])) acc)
        acc).1).territories = acc.1.territories := by
    intro li2
    induction li2 with
    | nil => intro acc; rfl
    | cons x xs ih =>
      intro acc
      rw [List.foldl_cons, ih]
      exact hin _ acc
  exact hout _ (s, [])

/-- With dense ids the id projection of the territory vector is the index
range. -/
theorem map_id_of_dense (ts : List TerritoryData)
    (hid : ∀ (i : Nat) (t : TerritoryData), ts[i]? = some t → t.id = i) :
    ts.map TerritoryData.id = List.range ts.length := by
  apply List.ext_getElem?
  intro i
  rw [List.getElem?_map]
  by_cases hi : i < ts.length
  · obtain ⟨t, ht⟩ : ∃ t, ts[i]? = some t := by
      rw [List.getElem?_eq_getElem hi]
      exact ⟨_, rfl⟩
    rw [ht, List.getElem?_range hi]
    simp [hid i t ht]
  · rw [List.getElem?_eq_none (by omega), List.getElem?_eq_none
      (by rw [List.length_range]; omega)]
    rfl

/-- With dense ids the kept-territory filter has pairwise distinct ids. -/
theorem filter_ids_nodup (ts : List TerritoryData)
    (hid : ∀ (i : Nat) (t : TerritoryData), ts[i]? = some t → t.id = i)
    (keep : List Nat) :
    ((ts.filter (fun t => decide (t.id ∈ keep))).map TerritoryData.id).Nodup := by
  have hsub : List.Sublist
      ((ts.filter (fun t => decide (t.id ∈ keep))).map TerritoryData.id)
      (ts.map TerritoryData.id) :=
    (List.filter_sublist ts).map TerritoryData.id
  have hnd : (ts.map TerritoryData.id).Nodup := by
    rw [map_id_of_dense ts hid]
    exact List.nodup_range ts.length
  exact hnd.sublist hsub

/-- Positions in the kept-territory filter are determined by the id. -/
theorem filter_id_inj (ts : List TerritoryData)
    (hid : ∀ (i : Nat) (t : TerritoryData), ts[i]? = some t → t.id = i)
    (keep : List Nat) (j1 j2 : Nat) (t1 t2 : TerritoryData)
    (h1 : (ts.filter (fun t => decide (t.id ∈ keep)))[j1]? = some t1)
    (h2 : (ts.filter (fun t => decide (t.id ∈ keep)))[j2]? = some t2)
    (heq : t1.id = t2.id) : j1 = j2 := by
  have hm1 : ((ts.filter (fun t => decide (t.id ∈ keep))).map
      TerritoryData.id)[j1]? = some t1.id := by
    rw [List.getElem?_map, h1]
    rfl
  have hm2 : ((ts.filter (fun t => decide (t.id ∈ keep))).map
      TerritoryData.id)[j2]? = some t2.id := by
    rw [List.getElem?_map, h2]
    rfl
  have hlen : j1 < ((ts.filter (fun t => decide (t.id ∈ keep))).map
      TerritoryData.id).length := by
    by_contra hbig
    rw [List.getElem?_eq_none (by omega)] at hm1
    exact Option.noConfusion hm1
  apply List.getElem?_inj hlen (filter_ids_nodup ts hid keep)
  rw [hm1, hm2, heq]

/-- The first kept territory is the one at the minimal kept index. -/
theorem filter_head_of_min (ts : List TerritoryData)
    (hid : ∀ (i : Nat) (t : TerritoryData), ts[i]? = some t → t.id = i)
    (keep : List Nat) (r : Nat) (tr : TerritoryData)
    (hr : ts[r]? = some tr) (hrk : r ∈ keep)
    (hmin : ∀ y ∈ keep, r ≤ y) :
    (ts.filter (fun t => decide (t.id ∈ keep)))[0]? = some tr := by
  have hrlen : r < ts.length := by
    by_contra hbig
    rw [List.getElem?_eq_none (by omega)] at hr
    exact Option.noConfusion hr
  have h1 : ts.filter (fun t => decide (t.id ∈ keep)) =
      (ts.take r).filter (fun t => decide (t.id ∈ keep)) ++
      (ts.drop r).filter (fun t => decide (t.id ∈ keep)) := by
    rw [← List.filter_append, List.take_append_drop]
  have h2 : (ts.take r).filter (fun t => decide (t.id ∈ keep)) = [] := by
    rw [List.filter_eq_nil_iff]
    intro a ha
    obtain ⟨i, hi⟩ := List.mem_iff_getElem?.mp ha
    have hitake := hi
    rw [List.getElem?_take] at hitake
    by_cases hir : i < r
    · rw [if_pos hir] at hitake
      have hai : a.id = i := hid i a hitake
      rw [decide_eq_true_eq, hai]
      intro hik
      have := hmin i hik
      omega
    · rw [if_neg hir] at hitake
      exact Option.noConfusion hitake
  have htr : tr.id = r := hid r tr hr
  have h3 : ts.drop r = tr :: ts.drop (r + 1) := by
    have := List.drop_eq_getElem_cons hrlen
    rw [List.getElem?_eq_getElem hrlen] at hr
    injection hr with hv
    rw [this, hv]
  rw [h1, h2, List.nil_append, h3]
  have hpos : (tr :: ts.drop (r + 1)).filter
      (fun t => decide (t.id ∈ keep)) =
      tr :: (ts.drop (r + 1)).filter (fun t => decide (t.id ∈ keep)) := by
    simp [List.filter_cons, htr, hrk]
  rw [hpos]
  exact List.getElem?_cons_zero

/-- Indexing the rebuilt and neighbor-remapped territory vector. -/
theorem kept2_getElem (ts : List TerritoryData) (keep : List Nat) (j : Nat) :
    ((rebuildLoop keep ts 0).1.map (fun t =>
      { t with neighbors := t.neighbors.filterMap (remapGet (rebuildLoop keep ts 0).2) }))[j]? =
      ((ts.filter (fun t => decide (t.id ∈ keep)))[j]?).map
        (fun t => { t with
            id := j
            neighbors := t.neighbors.filterMap (remapGet (rebuildLoop keep ts 0).2) }) := by
  rw [List.getElem?_map, rebuildLoop_fst_getElem keep ts 0 j]
  cases h : (ts.filter (fun t => decide (t.id ∈ keep)))[j]? with
  | none => rfl
  | some t => simp

/-- Every endpoint of an avoiding path is the start or avoids the set. -/
theorem reachAvoid_endpoint {s : GameState} {vb : Finset Nat} {x y : Nat}
    (h : reachAvoid s vb x y) : y = x ∨ y ∉ vb := by
  induction h with
  | refl => exact Or.inl rfl
  | tail _ hbc _ => exact Or.inr hbc.1

/-- Reachability transfer: a DFS path from the root of the kept island maps
to a path from index 0 in the rebuilt state. -/
theorem transfer_reach (s s2 : GameState) (keep : List Nat) (r : Nat)
    (vb : Finset Nat) (tr : TerritoryData)
    (hid : ∀ (i : Nat) (t : TerritoryData), s.territories[i]? = some t →
      t.id = i)
    (hr : s.territories[r]? = some tr) (hrk : r ∈ keep)
    (hkeepvb : ∀ y ∈ keep, y ∉ vb)
    (hmin : ∀ y ∈ keep, r ≤ y)
    (hq7 : ∀ z, reachAvoid s vb r z → z ∉ vb → z ∈ keep)
    (hs2 : s2.territories = (rebuildLoop keep s.territories 0).1.map (fun t =>
      { t with neighbors := t.neighbors.filterMap (remapGet (rebuildLoop keep s.territories 0).2) })) :
    ∀ z, reachAvoid s vb r z → z ∉ vb →
    ∀ (j : Nat) (u : TerritoryData),
    (s.territories.filter (fun t => decide (t.id ∈ keep)))[j]? = some u →
    u.id = z → reachAvoid s2 ∅ 0 j := by
  intro z hz
  induction hz with
  | refl =>
    intro _ j u hu huid
    have h0 := filter_head_of_min s.territories hid keep r tr hr hrk hmin
    have hj0 : j = 0 := by
      apply filter_id_inj s.territories hid keep j 0 u tr hu h0
      rw [huid]
      exact (hid r tr hr).symm
    rw [hj0]
    exact Relation.ReflTransGen.refl
  | tail hrb hbc ih =>
    rename_i b c
    intro hcv j u hu huid
    obtain ⟨_, t, hget, hcnb⟩ := hbc
    have hbvb : b ∉ vb := by
      rcases reachAvoid_endpoint hrb with hbr | hbv
      · rw [hbr]
        exact hkeepvb r hrk
      · exact hbv
    have hgett : s.territories[b]? = some t := hget
    have htid : t.id = b := hid b t hgett
    have htmem : t ∈ s.territories.filter (fun t => decide (t.id ∈ keep)) := by
      rw [List.mem_filter]
      refine ⟨List.getElem?_mem hgett, ?_⟩
      rw [decide_eq_true_eq, htid]
      exact hq7 b hrb hbvb
    obtain ⟨jb, hjb⟩ := List.mem_iff_getElem?.mp htmem
    have hreachb := ih hbvb jb t hjb htid
    have hcm : (c, j) ∈ (rebuildLoop keep s.territories 0).2 :=
      (rebuildLoop_snd_mem keep s.territories 0 c j).mpr
        ⟨j, u, hu, huid, by omega⟩
    have hkeys : (((rebuildLoop keep s.territories 0).2).map Prod.fst).Nodup := by
      rw [rebuildLoop_keys]
      exact filter_ids_nodup s.territories hid keep
    have hlook : remapGet (rebuildLoop keep s.territories 0).2 c = some j :=
      remapGet_of_mem _ hkeys c j hcm
    have hs2jb : s2.territories[jb]? = some { t with
        id := jb
        neighbors := t.neighbors.filterMap (remapGet (rebuildLoop keep s.territories 0).2) } := by
      rw [hs2, kept2_getElem, hjb]
      rfl
    have hstep2 : reachStep s2 ∅ jb j := by
      refine ⟨Finset.not_mem_empty j, _, hs2jb, ?_⟩
      rw [List.mem_filterMap]
      exact ⟨c, hcnb, hlook⟩
    exact Relation.ReflTransGen.tail hreachb hstep2

/-- With at most one island, KeepLargestIslandOnly is a strict no-op. -/
theorem KLIO_noop (s : GameState) (h : (FindIslands s).length ≤ 1) :
    KeepLargestIslandOnly s = (s, []) := by
  unfold KeepLargestIslandOnly
  dsimp only
  rw [if_pos h]

/-- Bound of the best-island index scan. -/
theorem largestIslandIdx_lt (islands : List (List Nat × Nat))
    (h : 0 < islands.length) : largestIslandIdx islands < islands.length := by
  unfold largestIslandIdx
  have hgen : ∀ (l : List Nat) (b : Nat), (∀ x ∈ l, x < islands.length) →
      b < islands.length →
      (l.foldl (fun best i =>
        if (islands.getD best ([], 0)).2 < (islands.getD i ([], 0)).2 then i
        else best) b) < islands.length := by
    intro l
    induction l with
    | nil => intro b _ hb; exact hb
    | cons x xs ih =>
      intro b hl hb
      rw [List.foldl_cons]
      apply ih _ (fun y hy => hl y (List.mem_cons_of_mem x hy))
      by_cases hcmp : (islands.getD b ([], 0)).2 < (islands.getD x ([], 0)).2
      · rw [if_pos hcmp]
        exact hl x (List.mem_cons_self x xs)
      · rw [if_neg hcmp]
        exact hb
  apply hgen
  · intro x hx
    exact List.mem_range.mp (List.mem_of_mem_drop hx)
  · exact h

/-- Territory vector of the pruning result in the interesting case. -/
theorem KLIO_territories (s : GameState)
    (h : ¬ (FindIslands s).length ≤ 1) :
    (KeepLargestIslandOnly s).1.territories =
      (rebuildLoop ((FindIslands s).getD (largestIslandIdx (FindIslands s)) ([], 0)).1 s.territories 0).1.map
        (fun t => { t with neighbors := t.neighbors.filterMap (remapGet (rebuildLoop ((FindIslands s).getD (largestIslandIdx (FindIslands s)) ([], 0)).1 s.territories 0).2) }) := by
  unfold KeepLargestIslandOnly
  dsimp only
  rw [if_neg h]
  dsimp only
  rw [removeLoop_territories]

/-- Claim C6. IslandDetector::KeepLargestIslandOnly is idempotent and
densifies: under the data-model invariants of the incoming state (territory
ids equal list indices, neighbor references in range), the second of two
consecutive calls returns the first call's state unchanged together with an
empty removed list, and after the first call the territory ids are exactly
the indices 0..N-1 and every neighbor reference is below N, where N is the
number of kept territories. -/
theorem C6_keep_largest_island_idempotent (s : GameState)
    (hid : ∀ (i : Nat) (t : TerritoryData), s.territories[i]? = some t →
      t.id = i)
    (hvalid : ∀ (i : Nat) (t : TerritoryData), s.territories[i]? = some t →
      ∀ nb ∈ t.neighbors, nb < s.territories.length) :
    KeepLargestIslandOnly (KeepLargestIslandOnly s).1 =
      ((KeepLargestIslandOnly s).1, []) ∧
    (∀ (j : Nat) (t : TerritoryData),
      (KeepLargestIslandOnly s).1.territories[j]? = some t → t.id = j) ∧
    (∀ (j : Nat) (t : TerritoryData),
      (KeepLargestIslandOnly s).1.territories[j]? = some t →
      ∀ nb ∈ t.neighbors,
        nb < (KeepLargestIslandOnly s).1.territories.length) := by
  by_cases hlen : (FindIslands s).length ≤ 1
  · have h1 : KeepLargestIslandOnly s = (s, []) := KLIO_noop s hlen
    refine ⟨?_, ?_, ?_⟩
    · rw [h1]
      exact KLIO_noop s hlen
    · rw [h1]
      exact hid
    · rw [h1]
      exact hvalid
  · have hlen1 : 1 < (FindIslands s).length := Nat.not_le.mp hlen
    have hk : largestIslandIdx (FindIslands s) < (FindIslands s).length :=
      largestIslandIdx_lt (FindIslands s) (by omega)
    have hgetsome : (FindIslands s)[largestIslandIdx (FindIslands s)]? =
        some ((FindIslands s).getD (largestIslandIdx (FindIslands s)) ([], 0)) := by
      rw [List.getD_eq_getElem?_getD, List.getElem?_eq_getElem hk]
      rfl
    have hmem : (FindIslands s).getD (largestIslandIdx (FindIslands s)) ([], 0) ∈
        FindIslands s := List.getElem?_mem hgetsome
    obtain ⟨r, vb, q1, q2, q3, q4, q5, q6, q7⟩ :=
      FindIslands_spec s hid hvalid _ hmem
    have hrN : r < s.territories.length := q5 r q1
    obtain ⟨tr, htr⟩ : ∃ tr, s.territories[r]? = some tr := by
      rw [List.getElem?_eq_getElem hrN]
      exact ⟨_, rfl⟩
    have htrid : tr.id = r := hid r tr htr
    have htrmem : tr ∈ s.territories.filter (fun t => decide (t.id ∈ ((FindIslands s).getD (largestIslandIdx (FindIslands s)) ([], 0)).1)) := by
      rw [List.mem_filter]
      refine ⟨List.getElem?_mem htr, ?_⟩
      rw [decide_eq_true_eq, htrid]
      exact q1
    have hlen2 : (KeepLargestIslandOnly s).1.territories.length =
        (s.territories.filter (fun t => decide (t.id ∈ ((FindIslands s).getD (largestIslandIdx (FindIslands s)) ([], 0)).1))).length := by
      rw [KLIO_territories s hlen, List.length_map, rebuildLoop_fst_length]
    have hdense2 : ∀ (j : Nat) (t : TerritoryData),
        (KeepLargestIslandOnly s).1.territories[j]? = some t → t.id = j := by
      intro j t ht
      rw [KLIO_territories s hlen, kept2_getElem] at ht
      cases h2 : (s.territories.filter (fun t => decide (t.id ∈ ((FindIslands s).getD (largestIslandIdx (FindIslands s)) ([], 0)).1)))[j]? with
      | none =>
        rw [h2] at ht
        exact Option.noConfusion ht
      | some u =>
        rw [h2] at ht
        have ht2 : some ({ u with
            id := j
            neighbors := u.neighbors.filterMap (remapGet (rebuildLoop ((FindIslands s).getD (largestIslandIdx (FindIslands s)) ([], 0)).1 s.territories 0).2) }) = some t := ht
        injection ht2 with hv
        rw [← hv]
    have hvalid2 : ∀ (j : Nat) (t : TerritoryData),
        (KeepLargestIslandOnly s).1.territories[j]? = some t →
        ∀ nb ∈ t.neighbors,
        nb < (KeepLargestIslandOnly s).1.territories.length := by
      intro j t ht nb hnb
      rw [KLIO_territories s hlen, kept2_getElem] at ht
      cases h2 : (s.territories.filter (fun t => decide (t.id ∈ ((FindIslands s).getD (largestIslandIdx (FindIslands s)) ([], 0)).1)))[j]? with
      | none =>
        rw [h2] at ht
        exact Option.noConfusion ht
      | some u =>
        rw [h2] at ht
        have ht2 : some ({ u with
            id := j
            neighbors := u.neighbors.filterMap (remapGet (rebuildLoop ((FindIslands s).getD (largestIslandIdx (FindIslands s)) ([], 0)).1 s.territories 0).2) }) = some t := ht
        injection ht2 with hv
        rw [← hv] at hnb
        have hnb2 : nb ∈ u.neighbors.filterMap (remapGet (rebuildLoop ((FindIslands s).getD (largestIslandIdx (FindIslands s)) ([], 0)).1 s.territories 0).2) := hnb
        rw [List.mem_filterMap] at hnb2
        obtain ⟨a, _, hla⟩ := hnb2
        have hpm := remapGet_mem _ a nb hla
        rw [rebuildLoop_snd_mem] at hpm
        obtain ⟨j2, t2, hjt2, _, hnbj2⟩ := hpm
        have hj2len : j2 < (s.territories.filter (fun t => decide (t.id ∈ ((FindIslands s).getD (largestIslandIdx (FindIslands s)) ([], 0)).1))).length := by
          by_contra hbig
          rw [List.getElem?_eq_none (by omega)] at hjt2
          exact Option.noConfusion hjt2
        rw [hlen2]
        omega
    have hne2 : (KeepLargestIslandOnly s).1.territories ≠ [] := by
      intro h0
      rw [h0] at hlen2
      have hfpos : 0 < (s.territories.filter (fun t => decide (t.id ∈ ((FindIslands s).getD (largestIslandIdx (FindIslands s)) ([], 0)).1))).length :=
        List.length_pos.mpr (List.ne_nil_of_mem htrmem)
      rw [List.length_nil] at hlen2
      omega
    have hreach2 : ∀ j, j < (KeepLargestIslandOnly s).1.territories.length →
        reachAvoid (KeepLargestIslandOnly s).1 ∅ 0 j := by
      intro j hj
      rw [hlen2] at hj
      obtain ⟨u, hu⟩ : ∃ u, (s.territories.filter (fun t => decide (t.id ∈ ((FindIslands s).getD (largestIslandIdx (FindIslands s)) ([], 0)).1)))[j]? = some u := by
        rw [List.getElem?_eq_getElem hj]
        exact ⟨_, rfl⟩
      have humem := List.getElem?_mem hu
      have hukeep : u.id ∈ ((FindIslands s).getD (largestIslandIdx (FindIslands s)) ([], 0)).1 := by
        have h3 := (List.mem_filter.mp humem).2
        rwa [decide_eq_true_eq] at h3
      exact transfer_reach s (KeepLargestIslandOnly s).1
        ((FindIslands s).getD (largestIslandIdx (FindIslands s)) ([], 0)).1 r vb tr hid htr q1 q3 q4 q7
        (KLIO_territories s hlen) u.id (q6 u.id hukeep) (q3 u.id hukeep)
        j u hu rfl
    have hsingle := FindIslands_single (KeepLargestIslandOnly s).1 hne2
      hdense2 hvalid2 hreach2
    exact ⟨KLIO_noop (KeepLargestIslandOnly s).1 (by rw [hsingle]),
      hdense2, hvalid2⟩

/-- In-range neighbor references follow from the decidable bounded check. -/
theorem validNbrs_of_getD (ts : List TerritoryData)
    (h : ∀ i, i < ts.length →
      ∀ nb ∈ (ts.getD i (tinyTerritory 0 0 0)).neighbors, nb < ts.length) :
    ∀ (i : Nat) (t : TerritoryData), ts[i]? = some t →
      ∀ nb ∈ t.neighbors, nb < ts.length := by
  intro i t ht nb hnb
  have hi : i < ts.length := by
    by_contra hbig
    rw [List.getElem?_eq_none (by omega)] at ht
    exact Option.noConfusion ht
  have h2 := h i hi
  rw [List.getD_eq_getElem?_getD, ht] at h2
  exact h2 nb hnb

/-- Concrete instance of claim C6: the two-island example state has dense
ids and in-range neighbors, and pruning it twice changes nothing the second
time. -/
theorem C6_witness :
    (∀ i, i < islandState.territories.length →
      (islandState.territories.getD i (tinyTerritory 0 0 0)).id = i) ∧
    (∀ i, i < islandState.territories.length →
      ∀ nb ∈ (islandState.territories.getD i (tinyTerritory 0 0 0)).neighbors,
        nb < islandState.territories.length) ∧
    KeepLargestIslandOnly (KeepLargestIslandOnly islandState).1 =
      ((KeepLargestIslandOnly islandState).1, []) :=
  ⟨by decide, by decide,
    (C6_keep_largest_island_idempotent islandState
      (denseIds_of_getD _ (by decide)) (validNbrs_of_getD _ (by decide))).1⟩

/-! ### Territory generation: grid structure and connectivity -/

/-- Membership in the inclusive integer range. -/
theorem mem_intRange (a b x : Int) : x ∈ intRange a b ↔ a ≤ x ∧ x ≤ b := by
  simp only [intRange, List.mem_map, List.mem_range]
  constructor
  · rintro ⟨k, hk, rfl⟩
    omega
  · intro h
    exact ⟨(x - a).toNat, by omega, by omega⟩

/-- Coordinates of a hex sum. -/
theorem hexAdd_q (a b : HexCoord) : (a + b).q = a.q + b.q := rfl

/-- Row of a hex sum. -/
theorem hexAdd_r (a b : HexCoord) : (a + b).r = a.r + b.r := rfl

/-- The hexagonal grid is the radius-bounded axial disc. -/
theorem mem_hexGrid (radius : Int) (c : HexCoord) :
    c ∈ GenerateHexagonalGrid radius ↔
      -radius ≤ c.q ∧ c.q ≤ radius ∧ -radius ≤ c.r ∧ c.r ≤ radius ∧
      -radius ≤ c.q + c.r ∧ c.q + c.r ≤ radius := by
  unfold GenerateHexagonalGrid
  rw [List.mem_flatMap]
  constructor
  · rintro ⟨q, hq, hc⟩
    rw [mem_intRange] at hq
    rw [List.mem_map] at hc
    obtain ⟨r, hr, rfl⟩ := hc
    rw [mem_intRange, max_le_iff, le_min_iff] at hr
    dsimp only
    omega
  · rintro ⟨h1, h2, h3, h4, h5, h6⟩
    refine ⟨c.q, ?_, ?_⟩
    · rw [mem_intRange]
      omega
    · rw [List.mem_map]
      refine ⟨c.r, ?_, rfl⟩
      rw [mem_intRange, max_le_iff, le_min_iff]
      omega

/-- An in-grid neighbor is in the grid. -/
theorem mem_grid_of_mem_neighbors {grid : List HexCoord} {c nb : HexCoord}
    (h : nb ∈ GetNeighbors grid c) : nb ∈ grid := by
  unfold GetNeighbors at h
  rw [List.mem_filter, decide_eq_true_eq] at h
  exact h.2

/-- A hex has at most six in-grid neighbors. -/
theorem GetNeighbors_length_le (grid : List HexCoord) (c : HexCoord) :
    (GetNeighbors grid c).length ≤ 6 := by
  unfold GetNeighbors
  calc ((HEX_DIRECTIONS.map (fun d => c + d)).filter
        (fun n => decide (n ∈ grid))).length
      ≤ (HEX_DIRECTIONS.map (fun d => c + d)).length :=
        List.length_filter_le _ _
    _ = 6 := by rw [List.length_map]; rfl

/-- Direction-sum characterization of the in-grid neighbor list. -/
theorem mem_GetNeighbors {grid : List HexCoord} {c nb : HexCoord} :
    nb ∈ GetNeighbors grid c ↔
      (∃ d ∈ HEX_DIRECTIONS, nb = c + d) ∧ nb ∈ grid := by
  unfold GetNeighbors
  rw [List.mem_filter, decide_eq_true_eq, List.mem_map]
  constructor
  · rintro ⟨⟨d, hd, rfl⟩, hg⟩
    exact ⟨⟨d, hd, rfl⟩, hg⟩
  · rintro ⟨⟨d, hd, rfl⟩, hg⟩
    exact ⟨⟨d, hd, rfl⟩, hg⟩

/-- Toward-origin descent step: every nonzero hex of the disc has an
in-disc neighbor of strictly smaller cube norm. -/
theorem hex_descent (radius : Int) (c : HexCoord)
    (hc : c ∈ GenerateHexagonalGrid radius) (hne : ¬ (c.q = 0 ∧ c.r = 0)) :
    ∃ d ∈ HEX_DIRECTIONS, (c + d) ∈ GenerateHexagonalGrid radius ∧
      (c + d).q.natAbs + (c + d).r.natAbs + ((c + d).q + (c + d).r).natAbs <
        c.q.natAbs + c.r.natAbs + (c.q + c.r).natAbs := by
  rw [mem_hexGrid] at hc
  by_cases hq1 : 0 < c.q
  · by_cases hr1 : c.r < 0
    · refine ⟨⟨-1, 1⟩, by decide, ?_, ?_⟩
      · rw [mem_hexGrid]
        simp only [hexAdd_q, hexAdd_r]
        omega
      · simp only [hexAdd_q, hexAdd_r]
        omega
    · refine ⟨⟨-1, 0⟩, by decide, ?_, ?_⟩
      · rw [mem_hexGrid]
        simp only [hexAdd_q, hexAdd_r]
        omega
      · simp only [hexAdd_q, hexAdd_r]
        omega
  · by_cases hq2 : c.q < 0
    · by_cases hr2 : 0 < c.r
      · refine ⟨⟨1, -1⟩, by decide, ?_, ?_⟩
        · rw [mem_hexGrid]
          simp only [hexAdd_q, hexAdd_r]
          omega
        · simp only [hexAdd_q, hexAdd_r]
          omega
      · refine ⟨⟨1, 0⟩, by decide, ?_, ?_⟩
        · rw [mem_hexGrid]
          simp only [hexAdd_q, hexAdd_r]
          omega
        · simp only [hexAdd_q, hexAdd_r]
          omega
    · by_cases hr3 : 0 < c.r
      · refine ⟨⟨0, -1⟩, by decide, ?_, ?_⟩
        · rw [mem_hexGrid]
          simp only [hexAdd_q, hexAdd_r]
          omega
        · simp only [hexAdd_q, hexAdd_r]
          omega
      · refine ⟨⟨0, 1⟩, by decide, ?_, ?_⟩
        · rw [mem_hexGrid]
          simp only [hexAdd_q, hexAdd_r]
          omega
        · simp only [hexAdd_q, hexAdd_r]
          omega

/-- Every disc hex is grid-connected to the origin. -/
theorem gridReach_to_center (radius : Int) :
    ∀ (n : Nat) (c : HexCoord), c ∈ GenerateHexagonalGrid radius →
    c.q.natAbs + c.r.natAbs + (c.q + c.r).natAbs ≤ n →
    gridReach (GenerateHexagonalGrid radius) c ⟨0, 0⟩ := by
  intro n
  induction n with
  | zero =>
    intro c hc hn
    have hc0 : c = ⟨0, 0⟩ := by
      obtain ⟨cq, cr⟩ := c
      dsimp only at hn
      have h2 : cq = 0 ∧ cr = 0 := by omega
      rw [h2.1, h2.2]
    rw [hc0]
    exact Relation.ReflTransGen.refl
  | succ k ih =>
    intro c hc hn
    by_cases h0 : c.q = 0 ∧ c.r = 0
    · have hc0 : c = ⟨0, 0⟩ := by
        obtain ⟨cq, cr⟩ := c
        dsimp only at h0
        rw [h0.1, h0.2]
      rw [hc0]
      exact Relation.ReflTransGen.refl
    · obtain ⟨d, hd, hmem, hlt⟩ := hex_descent radius c hc h0
      have hadj : gridAdj (GenerateHexagonalGrid radius) c (c + d) :=
        ⟨hc, mem_GetNeighbors.mpr ⟨⟨d, hd, rfl⟩, hmem⟩⟩
      exact Relation.ReflTransGen.head hadj (ih (c + d) hmem (by omega))

/-- Extensionality for hex coordinates. -/
theorem hexCoord_ext {a b : HexCoord} (hq : a.q = b.q) (hr : a.r = b.r) :
    a = b := by
  obtain ⟨aq, ar⟩ := a
  obtain ⟨bq, br⟩ := b
  dsimp only at hq hr
  rw [hq, hr]

/-- Grid adjacency is symmetric. -/
theorem gridAdj_symm {grid : List HexCoord} {a b : HexCoord}
    (h : gridAdj grid a b) : gridAdj grid b a := by
  obtain ⟨hag, hnb⟩ := h
  rw [mem_GetNeighbors] at hnb
  obtain ⟨⟨d, hd, rfl⟩, hbg⟩ := hnb
  refine ⟨hbg, mem_GetNeighbors.mpr ⟨⟨⟨-d.q, -d.r⟩, ?_, ?_⟩, hag⟩⟩
  · fin_cases hd <;> decide
  · apply hexCoord_ext
    · simp only [hexAdd_q]
      omega
    · simp only [hexAdd_r]
      omega

/-- Grid connectivity is symmetric. -/
theorem gridReach_symm {grid : List HexCoord} {a b : HexCoord}
    (h : gridReach grid a b) : gridReach grid b a := by
  induction h with
  | refl => exact Relation.ReflTransGen.refl
  | tail _ hbc ih => exact Relation.ReflTransGen.head (gridAdj_symm hbc) ih

/-- Any two disc hexes are grid-connected. -/
theorem gridReach_between (radius : Int) (a c : HexCoord)
    (ha : a ∈ GenerateHexagonalGrid radius)
    (hc : c ∈ GenerateHexagonalGrid radius) :
    gridReach (GenerateHexagonalGrid radius) a c :=
  Relation.ReflTransGen.trans
    (gridReach_to_center radius
      (a.q.natAbs + a.r.natAbs + (a.q + a.r).natAbs) a ha (le_refl _))
    (gridReach_symm (gridReach_to_center radius
      (c.q.natAbs + c.r.natAbs + (c.q + c.r).natAbs) c hc (le_refl _)))

/-- A neighbor-closed set containing a hex contains its whole grid
component. -/
theorem gridReach_sub_closed {grid : List HexCoord} {W : Finset HexCoord}
    {x : HexCoord} (hx : x ∈ W)
    (hcl : ∀ c ∈ W, ∀ nb ∈ GetNeighbors grid c, nb ∈ W) :
    ∀ y, gridReach grid x y → y ∈ W := by
  intro y hy
  induction hy with
  | refl => exact hx
  | tail _ hbc ih => exact hcl _ ih _ hbc.2

/-- Lookup after assignment at the assigned key. -/
theorem hmGet_hmSet_self : ∀ (m : HexMap) (k : HexCoord) (v : Nat),
    hmGet (hmSet m k v) k = some v := by
  intro m
  induction m with
  | nil =>
    intro k v
    simp [hmSet, hmGet]
  | cons p rest ih =>
    intro k v
    obtain ⟨k0, v0⟩ := p
    rw [hmSet]
    by_cases h : k0 = k
    · rw [if_pos h, hmGet, if_pos rfl]
    · rw [if_neg h, hmGet, if_neg h]
      exact ih k v

/-- Lookup after assignment at a different key. -/
theorem hmGet_hmSet_ne : ∀ (m : HexMap) (k : HexCoord) (v : Nat)
    (k2 : HexCoord), k2 ≠ k → hmGet (hmSet m k v) k2 = hmGet m k2 := by
  intro m
  induction m with
  | nil =>
    intro k v k2 hne
    simp [hmSet, hmGet]
    intro h
    exact absurd h.symm hne
  | cons p rest ih =>
    intro k v k2 hne
    obtain ⟨k0, v0⟩ := p
    rw [hmSet]
    by_cases h : k0 = k
    · rw [if_pos h, hmGet, hmGet]
      have hne2 : ¬ (k0 = k2) := by
        rw [h]
        exact fun hh => hne hh.symm
      rw [if_neg (fun hh => hne hh.symm : ¬ (k = k2)), if_neg hne2]
    · rw [if_neg h, hmGet, hmGet]
      by_cases h2 : k0 = k2
      · rw [if_pos h2, if_pos h2]
      · rw [if_neg h2, if_neg h2]
        exact ih k v k2 hne

/-- Missing keys are exactly the keys absent from the association list. -/
theorem hmGet_eq_none_iff : ∀ (m : HexMap) (k : HexCoord),
    hmGet m k = none ↔ k ∉ m.map Prod.fst := by
  intro m
  induction m with
  | nil =>
    intro k
    simp [hmGet]
  | cons p rest ih =>
    intro k
    obtain ⟨k0, v0⟩ := p
    rw [hmGet, List.map_cons]
    by_cases h : k0 = k
    · rw [if_pos h]
      simp [h]
    · rw [if_neg h]
      rw [ih k, List.mem_cons]
      constructor
      · intro hk hor
        rcases hor with hor | hor
        · exact h hor.symm
        · exact hk hor
      · intro hk hor
        exact hk (Or.inr hor)

/-- Assigning a fresh key appends it to the key list. -/
theorem hmSet_keys_fresh : ∀ (m : HexMap) (k : HexCoord) (v : Nat),
    hmGet m k = none →
    (hmSet m k v).map Prod.fst = m.map Prod.fst ++ [k] := by
  intro m
  induction m with
  | nil =>
    intro k v _
    rfl
  | cons p rest ih =>
    intro k v hfresh
    obtain ⟨k0, v0⟩ := p
    rw [hmGet] at hfresh
    by_cases h : k0 = k
    · rw [if_pos h] at hfresh
      exact Option.noConfusion hfresh
    · rw [if_neg h] at hfresh
      rw [hmSet, if_neg h, List.map_cons, List.map_cons, ih k v hfresh,
        List.cons_append]

/-- An empty pop means an empty queue. -/
theorem popMin_none : ∀ (l : List (Int × HexCoord × Nat)),
    popMin l = none → l = [] := by
  intro l
  cases l with
  | nil => intro _; rfl
  | cons x rest =>
    intro h
    rw [popMin] at h
    cases hrec : popMin rest with
    | none =>
      rw [hrec] at h
      exact Option.noConfusion h
    | some p =>
      obtain ⟨m, rest2⟩ := p
      rw [hrec] at h
      dsimp only at h
      by_cases hq : qiLt m x
      · rw [if_pos hq] at h
        exact Option.noConfusion h
      · rw [if_neg hq] at h
        exact Option.noConfusion h

/-- Popping returns a permutation split of the queue. -/
theorem popMin_perm : ∀ (l : List (Int × HexCoord × Nat)) (x : Int × HexCoord × Nat)
    (rest : List (Int × HexCoord × Nat)),
    popMin l = some (x, rest) → l.Perm (x :: rest) := by
  intro l
  induction l with
  | nil =>
    intro x rest h
    exact Option.noConfusion h
  | cons a l0 ih =>
    intro x rest h
    rw [popMin] at h
    cases hrec : popMin l0 with
    | none =>
      rw [hrec] at h
      injection h with h2
      rw [Prod.mk.injEq] at h2
      rw [← h2.1, ← h2.2, popMin_none l0 hrec]
    | some p =>
      obtain ⟨m, rest2⟩ := p
      rw [hrec] at h
      dsimp only at h
      by_cases hq : qiLt m a
      · rw [if_pos hq] at h
        injection h with h2
        rw [Prod.mk.injEq] at h2
        rw [← h2.1, ← h2.2]
        exact (List.Perm.cons a (ih m rest2 hrec)).trans
          (List.Perm.swap m a rest2)
      · rw [if_neg hq] at h
        injection h with h2
        rw [Prod.mk.injEq] at h2
        rw [← h2.1, ← h2.2]

/-- Unfolding the zero-fuel flood loop. -/
theorem floodLoop_zero (grid : List HexCoord)
    (q : List (Int × HexCoord × Nat)) (r : Rng) (ts : List TerritoryData)
    (h2t : HexMap) (asg : Finset HexCoord) :
    floodLoop grid 0 q r ts h2t asg = (ts, h2t, asg, r) :=
  rfl

/-- Unfolding the successor-fuel flood loop. -/
theorem floodLoop_succ (grid : List HexCoord) (fuel : Nat)
    (q : List (Int × HexCoord × Nat)) (r : Rng) (ts : List TerritoryData)
    (h2t : HexMap) (asg : Finset HexCoord) :
    floodLoop grid (fuel + 1) q r ts h2t asg =
      match popMin q with
      | none => (ts, h2t, asg, r)
      | some ((dist, coord, tid), rest) =>
        if coord ∈ asg then floodLoop grid fuel rest r ts h2t asg
        else
          floodLoop grid fuel
            ((GetNeighbors grid coord).foldl
              (floodPush (insert coord asg) dist tid) (rest, r)).1
            ((GetNeighbors grid coord).foldl
              (floodPush (insert coord asg) dist tid) (rest, r)).2
            (match ts[tid]? with
             | some t => ts.set tid { t with hexes := t.hexes ++ [coord] }
             | none => ts)
            (hmSet h2t coord tid) (insert coord asg) :=
  rfl

/-- Bookkeeping of the neighbor-push fold: queue items only grow by pushes
of listed unassigned neighbors carrying the popped territory id, old items
persist, every listed unassigned neighbor gets an item, and the
length grows by at most the neighbor count. -/
theorem floodPush_foldl_spec (asg2 : Finset HexCoord) (dist : Int)
    (tid : Nat) :
    ∀ (ns : List HexCoord) (acc : List (Int × HexCoord × Nat) × Rng),
    (∀ it ∈ (ns.foldl (floodPush asg2 dist tid) acc).1,
      it ∈ acc.1 ∨ ∃ nb ∈ ns, nb ∉ asg2 ∧ it.2.1 = nb ∧ it.2.2 = tid) ∧
    (∀ it ∈ acc.1, it ∈ (ns.foldl (floodPush asg2 dist tid) acc).1) ∧
    (∀ nb ∈ ns, nb ∉ asg2 →
      ∃ it ∈ (ns.foldl (floodPush asg2 dist tid) acc).1, it.2.1 = nb) ∧
    ((ns.foldl (floodPush asg2 dist tid) acc).1.length ≤
      acc.1.length + ns.length) := by
  intro ns
  induction ns with
  | nil =>
    intro acc
    exact ⟨fun it hit => Or.inl hit, fun it hit => hit,
      fun nb hnb => absurd hnb (List.not_mem_nil nb), le_refl _⟩
  | cons nb rest ih =>
    intro acc
    rw [List.foldl_cons]
    by_cases hmem : nb ∈ asg2
    · have hstep : floodPush asg2 dist tid acc nb = acc := by
        rw [floodPush, if_pos hmem]
      rw [hstep]
      obtain ⟨c1, c2, c3, c4⟩ := ih acc
      refine ⟨?_, c2, ?_, by simpa using Nat.le_succ_of_le c4⟩
      · intro it hit
        rcases c1 it hit with h | ⟨nb2, hnb2, h2⟩
        · exact Or.inl h
        · exact Or.inr ⟨nb2, List.mem_cons_of_mem nb hnb2, h2⟩
      · intro nb2 hnb2 hnas
        rcases List.mem_cons.mp hnb2 with h | h
        · rw [h] at hnas
          exact absurd hmem hnas
        · exact c3 nb2 h hnas
    · have hstep : floodPush asg2 dist tid acc nb =
          (acc.1 ++ [(dist + 1 + ((uniformInt 0 2 acc.2).1 : Int), nb, tid)],
            (uniformInt 0 2 acc.2).2) := by
        rw [floodPush, if_neg hmem]
      rw [hstep]
      obtain ⟨c1, c2, c3, c4⟩ := ih
        (acc.1 ++ [(dist + 1 + ((uniformInt 0 2 acc.2).1 : Int), nb, tid)],
          (uniformInt 0 2 acc.2).2)
      refine ⟨?_, ?_, ?_, ?_⟩
      · intro it hit
        rcases c1 it hit with h | ⟨nb2, hnb2, h2⟩
        · rcases List.mem_append.mp h with h2 | h2
          · exact Or.inl h2
          · rw [List.mem_singleton] at h2
            refine Or.inr ⟨nb, List.mem_cons_self nb rest, hmem, ?_, ?_⟩
            · rw [h2]
            · rw [h2]
        · exact Or.inr ⟨nb2, List.mem_cons_of_mem nb hnb2, h2⟩
      · intro it hit
        exact c2 it (List.mem_append.mpr (Or.inl hit))
      · intro nb2 hnb2 hnas
        rcases List.mem_cons.mp hnb2 with h | h
        · refine ⟨(dist + 1 + ((uniformInt 0 2 acc.2).1 : Int), nb, tid), ?_, ?_⟩
          · exact c2 _ (List.mem_append.mpr (Or.inr (List.mem_singleton_self _)))
          · rw [h]
        · exact c3 nb2 h hnas
      · have : (acc.1 ++ [(dist + 1 + ((uniformInt 0 2 acc.2).1 : Int), nb, tid)]).length =
            acc.1.length + 1 := by
          rw [List.length_append, List.length_singleton]
        rw [this] at c4
        calc (rest.foldl (floodPush asg2 dist tid) _).1.length
            ≤ acc.1.length + 1 + rest.length := c4
          _ = acc.1.length + (nb :: rest).length := by
              rw [List.length_cons]
              omega

/-- Correctness of the flood-fill loop with sufficient fuel: the assigned
set absorbs the queue and is neighbor-closed at termination, stays inside
the grid, and the hexToTerritory map, the assigned set and the territories'
hex lists stay synchronized: assigned hexes are exactly the mapped keys,
keys are unique, a mapped hex lies in the hex list of its territory and
vice versa, and hex lists stay duplicate-free; the territory count is
unchanged. -/
theorem floodLoop_correct (grid : List HexCoord) :
    ∀ (fuel : Nat) (q : List (Int × HexCoord × Nat)) (r : Rng)
      (ts : List TerritoryData) (h2t : HexMap) (asg : Finset HexCoord),
    q.length + 7 * ((grid.toFinset) \ asg).card < fuel →
    (∀ it ∈ q, it.2.1 ∈ grid ∧ it.2.2 < ts.length) →
    (∀ c ∈ asg, c ∈ grid) →
    (∀ c : HexCoord, c ∈ asg ↔ ∃ tid, hmGet h2t c = some tid) →
    ((h2t.map Prod.fst).Nodup) →
    (∀ (c : HexCoord) (tid : Nat), hmGet h2t c = some tid →
      ∃ t, ts[tid]? = some t ∧ c ∈ t.hexes) →
    (∀ (i : Nat) (t : TerritoryData), ts[i]? = some t →
      ∀ c ∈ t.hexes, hmGet h2t c = some i) →
    (∀ (i : Nat) (t : TerritoryData), ts[i]? = some t → t.hexes.Nodup) →
    (∀ c ∈ asg, ∀ nb ∈ GetNeighbors grid c,
      nb ∈ asg ∨ ∃ it ∈ q, it.2.1 = nb) →
    asg ⊆ (floodLoop grid fuel q r ts h2t asg).2.2.1 ∧
    (∀ it ∈ q, it.2.1 ∈ (floodLoop grid fuel q r ts h2t asg).2.2.1) ∧
    (∀ c ∈ (floodLoop grid fuel q r ts h2t asg).2.2.1,
      ∀ nb ∈ GetNeighbors grid c,
        nb ∈ (floodLoop grid fuel q r ts h2t asg).2.2.1) ∧
    (∀ c ∈ (floodLoop grid fuel q r ts h2t asg).2.2.1, c ∈ grid) ∧
    (∀ c : HexCoord, c ∈ (floodLoop grid fuel q r ts h2t asg).2.2.1 ↔
      ∃ tid, hmGet (floodLoop grid fuel q r ts h2t asg).2.1 c = some tid) ∧
    (((floodLoop grid fuel q r ts h2t asg).2.1.map Prod.fst).Nodup) ∧
    (∀ (c : HexCoord) (tid : Nat),
      hmGet (floodLoop grid fuel q r ts h2t asg).2.1 c = some tid →
      ∃ t, (floodLoop grid fuel q r ts h2t asg).1[tid]? = some t ∧
        c ∈ t.hexes) ∧
    (∀ (i : Nat) (t : TerritoryData),
      (floodLoop grid fuel q r ts h2t asg).1[i]? = some t →
      ∀ c ∈ t.hexes,
        hmGet (floodLoop grid fuel q r ts h2t asg).2.1 c = some i) ∧
    (∀ (i : Nat) (t : TerritoryData),
      (floodLoop grid fuel q r ts h2t asg).1[i]? = some t →
      t.hexes.Nodup) ∧
    ((floodLoop grid fuel q r ts h2t asg).1.length = ts.length) := by
  intro fuel
  induction fuel with
  | zero =>
    intro q r ts h2t asg hfuel
    exact absurd hfuel (Nat.not_lt_zero _)
  | succ f ih =>
    intro q r ts h2t asg hfuel hQ hAG hIff hKeys hMap hBack hHexND hClos
    rw [floodLoop_succ]
    cases hpop : popMin q with
    | none =>
      dsimp only
      have hqnil : q = [] := popMin_none q hpop
      subst hqnil
      refine ⟨Finset.Subset.refl _,
        fun it hit => absurd hit (List.not_mem_nil it), ?_, hAG, hIff, hKeys,
        hMap, hBack, hHexND, rfl⟩
      intro c hc nb hnb
      rcases hClos c hc nb hnb with h | ⟨it, hit, _⟩
      · exact h
      · exact absurd hit (List.not_mem_nil it)
    | some pr =>
      obtain ⟨⟨dist, coord, tid⟩, rest⟩ := pr
      dsimp only
      have hperm := popMin_perm q _ _ hpop
      have hlen : q.length = rest.length + 1 := by
        have h2 := hperm.length_eq
        simpa using h2
      have hpopped : (dist, coord, tid) ∈ q :=
        hperm.mem_iff.mpr (List.mem_cons_self _ _)
      have hrestq : ∀ it ∈ rest, it ∈ q := fun it hit =>
        hperm.mem_iff.mpr (List.mem_cons_of_mem _ hit)
      have hcoordgrid : coord ∈ grid := (hQ _ hpopped).1
      have htidlen : tid < ts.length := (hQ _ hpopped).2
      by_cases hasg : coord ∈ asg
      · rw [if_pos hasg]
        have hClosR : ∀ c ∈ asg, ∀ nb ∈ GetNeighbors grid c,
            nb ∈ asg ∨ ∃ it ∈ rest, it.2.1 = nb := by
          intro c hc nb hnb
          rcases hClos c hc nb hnb with h | ⟨it, hit, heq⟩
          · exact Or.inl h
          · rcases List.mem_cons.mp (hperm.mem_iff.mp hit) with hhd | htl
            · rw [hhd] at heq
              dsimp only at heq
              rw [← heq]
              exact Or.inl hasg
            · exact Or.inr ⟨it, htl, heq⟩
        obtain ⟨K1, K2, K3, K4, K5, K6, K7, K8, K9, K10⟩ :=
          ih rest r ts h2t asg (by omega)
            (fun it hit => hQ it (hrestq it hit)) hAG hIff hKeys hMap hBack
            hHexND hClosR
        refine ⟨K1, ?_, K3, K4, K5, K6, K7, K8, K9, K10⟩
        intro it hit
        rcases List.mem_cons.mp (hperm.mem_iff.mp hit) with hhd | htl
        · rw [hhd]
          exact K1 hasg
        · exact K2 it htl
      · rw [if_neg hasg]
        obtain ⟨t0, ht0⟩ : ∃ t, ts[tid]? = some t := by
          rw [List.getElem?_eq_getElem htidlen]
          exact ⟨_, rfl⟩
        rw [ht0]
        dsimp only
        have hfreshget : hmGet h2t coord = none := by
          cases hg : hmGet h2t coord with
          | none => rfl
          | some v => exact absurd ((hIff coord).mpr ⟨v, hg⟩) hasg
        have hfreshkeys : coord ∉ h2t.map Prod.fst :=
          (hmGet_eq_none_iff h2t coord).mp hfreshget
        obtain ⟨P1, P2, P3, P4⟩ := floodPush_foldl_spec (insert coord asg)
          dist tid (GetNeighbors grid coord) (rest, r)
        have hQ2 : ∀ it ∈ ((GetNeighbors grid coord).foldl (floodPush (insert coord asg) dist tid) (rest, r)).1, it.2.1 ∈ grid ∧
            it.2.2 < (ts.set tid { t0 with hexes := t0.hexes ++ [coord] }).length := by
          intro it hit
          rcases P1 it hit with h | ⟨nb, hnb, _, heq1, heq2⟩
          · have h2 := hQ it (hrestq it h)
            rw [List.length_set]
            exact h2
          · constructor
            · rw [heq1]
              exact mem_grid_of_mem_neighbors hnb
            · rw [heq2, List.length_set]
              exact htidlen
        have hAG2 : ∀ c ∈ insert coord asg, c ∈ grid := by
          intro c hc
          rcases Finset.mem_insert.mp hc with h | h
          · rw [h]
            exact hcoordgrid
          · exact hAG c h
        have hIff2 : ∀ c : HexCoord, c ∈ insert coord asg ↔
            ∃ tid2, hmGet (hmSet h2t coord tid) c = some tid2 := by
          intro c
          by_cases hcc : c = coord
          · rw [hcc]
            constructor
            · intro _
              exact ⟨tid, hmGet_hmSet_self h2t coord tid⟩
            · intro _
              exact Finset.mem_insert_self coord asg
          · rw [hmGet_hmSet_ne h2t coord tid c hcc]
            constructor
            · intro hc
              rcases Finset.mem_insert.mp hc with h | h
              · exact absurd h hcc
              · exact (hIff c).mp h
            · intro hc
              exact Finset.mem_insert_of_mem ((hIff c).mpr hc)
        have hKeys2 : ((hmSet h2t coord tid).map Prod.fst).Nodup := by
          rw [hmSet_keys_fresh h2t coord tid hfreshget]
          simp [List.nodup_append, hKeys, hfreshkeys]
        have hMap2 : ∀ (c : HexCoord) (tid2 : Nat),
            hmGet (hmSet h2t coord tid) c = some tid2 →
            ∃ t, (ts.set tid { t0 with hexes := t0.hexes ++ [coord] })[tid2]? = some t ∧ c ∈ t.hexes := by
          intro c tid2 hc
          by_cases hcc : c = coord
          · rw [hcc, hmGet_hmSet_self] at hc
            injection hc with hv
            refine ⟨{ t0 with hexes := t0.hexes ++ [coord] }, ?_, ?_⟩
            · rw [← hv]
              exact List.getElem?_set_self htidlen
            · rw [hcc]
              exact List.mem_append.mpr (Or.inr (List.mem_singleton_self coord))
          · rw [hmGet_hmSet_ne h2t coord tid c hcc] at hc
            obtain ⟨t, ht, hct⟩ := hMap c tid2 hc
            by_cases htt : tid2 = tid
            · have ht2 : t0 = t := by
                rw [htt] at ht
                exact Option.some.inj (ht0.symm.trans ht)
              refine ⟨{ t0 with hexes := t0.hexes ++ [coord] }, ?_, ?_⟩
              · rw [htt]
                exact List.getElem?_set_self htidlen
              · rw [← ht2] at hct
                exact List.mem_append.mpr (Or.inl hct)
            · refine ⟨t, ?_, hct⟩
              rw [List.getElem?_set_ne (fun hh => htt hh.symm)]
              exact ht
        have hcne : ∀ (c : HexCoord) (i : Nat), hmGet h2t c = some i →
            c ≠ coord := by
          intro c i hc hcc
          rw [hcc, hfreshget] at hc
          exact Option.noConfusion hc
        have hBack2 : ∀ (i : Nat) (t : TerritoryData),
            (ts.set tid { t0 with hexes := t0.hexes ++ [coord] })[i]? = some t →
            ∀ c ∈ t.hexes, hmGet (hmSet h2t coord tid) c = some i := by
          intro i t hit c hc
          by_cases hii : i = tid
          · rw [hii, List.getElem?_set_self htidlen] at hit
            injection hit with hv
            rw [← hv] at hc
            rcases List.mem_append.mp hc with h | h
            · have h2 := hBack tid t0 ht0 c h
              rw [hmGet_hmSet_ne h2t coord tid c (hcne c tid h2), hii]
              exact h2
            · rw [List.mem_singleton] at h
              rw [h, hii, hmGet_hmSet_self]
          · rw [List.getElem?_set_ne (fun hh => hii hh.symm)] at hit
            have h2 := hBack i t hit c hc
            rw [hmGet_hmSet_ne h2t coord tid c (hcne c i h2)]
            exact h2
        have hHexND2 : ∀ (i : Nat) (t : TerritoryData),
            (ts.set tid { t0 with hexes := t0.hexes ++ [coord] })[i]? = some t → t.hexes.Nodup := by
          intro i t hit
          by_cases hii : i = tid
          · rw [hii, List.getElem?_set_self htidlen] at hit
            injection hit with hv
            rw [← hv]
            have hnd0 := hHexND tid t0 ht0
            have hnc : coord ∉ t0.hexes := by
              intro hmm
              exact (hcne coord tid (hBack tid t0 ht0 coord hmm)) rfl
            simp [List.nodup_append, hnd0, hnc]
          · rw [List.getElem?_set_ne (fun hh => hii hh.symm)] at hit
            exact hHexND i t hit
        have hClos2 : ∀ c ∈ insert coord asg, ∀ nb ∈ GetNeighbors grid c,
            nb ∈ insert coord asg ∨ ∃ it ∈ ((GetNeighbors grid coord).foldl (floodPush (insert coord asg) dist tid) (rest, r)).1, it.2.1 = nb := by
          intro c hc nb hnb
          rcases Finset.mem_insert.mp hc with hcc | hcc
          · by_cases hna : nb ∈ insert coord asg
            · exact Or.inl hna
            · rw [hcc] at hnb
              exact Or.inr (P3 nb hnb hna)
          · rcases hClos c hcc nb hnb with h | ⟨it, hit, heq⟩
            · exact Or.inl (Finset.mem_insert_of_mem h)
            · rcases List.mem_cons.mp (hperm.mem_iff.mp hit) with hhd | htl
              · rw [hhd] at heq
                dsimp only at heq
                rw [← heq]
                exact Or.inl (Finset.mem_insert_self coord asg)
              · exact Or.inr ⟨it, P2 it htl, heq⟩
        have hcard : ((grid.toFinset) \ insert coord asg).card + 1 ≤
            ((grid.toFinset) \ asg).card := by
          have hm : coord ∈ (grid.toFinset) \ asg := by
            rw [Finset.mem_sdiff]
            exact ⟨List.mem_toFinset.mpr hcoordgrid, hasg⟩
          have hsub : (grid.toFinset) \ insert coord asg ⊆
              ((grid.toFinset) \ asg).erase coord := by
            intro x hx
            rw [Finset.mem_sdiff, Finset.mem_insert, not_or] at hx
            rw [Finset.mem_erase, Finset.mem_sdiff]
            exact ⟨hx.2.1, hx.1, hx.2.2⟩
          have h2 := Finset.card_le_card hsub
          rw [Finset.card_erase_of_mem hm] at h2
          have h3 : 0 < ((grid.toFinset) \ asg).card :=
            Finset.card_pos.mpr ⟨coord, hm⟩
          omega
        have hPRlen : ((GetNeighbors grid coord).foldl (floodPush (insert coord asg) dist tid) (rest, r)).1.length ≤ rest.length + 6 := by
          have h6 := GetNeighbors_length_le grid coord
          have h7 := P4
          simp only [List.length_cons] at h7
          omega
        obtain ⟨K1, K2, K3, K4, K5, K6, K7, K8, K9, K10⟩ :=
          ih ((GetNeighbors grid coord).foldl (floodPush (insert coord asg) dist tid) (rest, r)).1 ((GetNeighbors grid coord).foldl (floodPush (insert coord asg) dist tid) (rest, r)).2 (ts.set tid { t0 with hexes := t0.hexes ++ [coord] }) (hmSet h2t coord tid) (insert coord asg)
            (by omega) hQ2 hAG2 hIff2 hKeys2 hMap2 hBack2 hHexND2 hClos2
        refine ⟨?_, ?_, K3, K4, K5, K6, K7, K8, K9, ?_⟩
        · exact fun x hx => K1 (Finset.mem_insert_of_mem hx)
        · intro it hit
          rcases List.mem_cons.mp (hperm.mem_iff.mp hit) with hhd | htl
          · rw [hhd]
            exact K1 (Finset.mem_insert_self coord asg)
          · exact K2 it (P2 it htl)
        · rw [K10, List.length_set]

/-- Unfolding the seed scan on an empty candidate list. -/
theorem seedPass1_nil (md tc : Nat) (seeds : List HexCoord) :
    seedPass1 md tc [] seeds = seeds :=
  rfl

/-- Unfolding one step of the seed scan. -/
theorem seedPass1_cons (md tc : Nat) (c : HexCoord)
    (rest seeds : List HexCoord) :
    seedPass1 md tc (c :: rest) seeds =
      if tc ≤ seeds.length then seeds
      else if seeds.any (fun sd => decide (hexDist c sd < md)) then
        seedPass1 md tc rest seeds
      else seedPass1 md tc rest (seeds ++ [c]) :=
  rfl

/-- The seed scan only adds candidates. -/
theorem seedPass1_mem (md tc : Nat) :
    ∀ (cands seeds : List HexCoord) (x : HexCoord),
    x ∈ seedPass1 md tc cands seeds → x ∈ cands ∨ x ∈ seeds := by
  intro cands
  induction cands with
  | nil =>
    intro seeds x hx
    rw [seedPass1_nil] at hx
    exact Or.inr hx
  | cons c rest ih =>
    intro seeds x hx
    rw [seedPass1_cons] at hx
    by_cases h1 : tc ≤ seeds.length
    · rw [if_pos h1] at hx
      exact Or.inr hx
    · rw [if_neg h1] at hx
      by_cases h2 : seeds.any (fun sd => decide (hexDist c sd < md))
      · rw [if_pos h2] at hx
        rcases ih seeds x hx with h | h
        · exact Or.inl (List.mem_cons_of_mem c h)
        · exact Or.inr h
      · rw [if_neg h2] at hx
        rcases ih (seeds ++ [c]) x hx with h | h
        · exact Or.inl (List.mem_cons_of_mem c h)
        · rcases List.mem_append.mp h with h3 | h3
          · exact Or.inr h3
          · rw [List.mem_singleton] at h3
            rw [h3]
            exact Or.inl (List.mem_cons_self c rest)

/-- The seed scan extends its accumulator. -/
theorem seedPass1_extend (md tc : Nat) :
    ∀ (cands seeds : List HexCoord),
    ∃ l, seedPass1 md tc cands seeds = seeds ++ l := by
  intro cands
  induction cands with
  | nil =>
    intro seeds
    exact ⟨[], (List.append_nil seeds).symm⟩
  | cons c rest ih =>
    intro seeds
    rw [seedPass1_cons]
    by_cases h1 : tc ≤ seeds.length
    · rw [if_pos h1]
      exact ⟨[], (List.append_nil seeds).symm⟩
    · rw [if_neg h1]
      by_cases h2 : seeds.any (fun sd => decide (hexDist c sd < md))
      · rw [if_pos h2]
        exact ih seeds
      · rw [if_neg h2]
        obtain ⟨l, hl⟩ := ih (seeds ++ [c])
        exact ⟨[c] ++ l, by rw [hl, List.append_assoc]⟩

/-- Unfolding the relaxed seed scan with no fuel. -/
theorem seedPass2_zero (candidates : List HexCoord) (step tc i : Nat)
    (seeds : List HexCoord) :
    seedPass2 candidates step tc 0 i seeds = seeds :=
  rfl

/-- Unfolding one step of the relaxed seed scan. -/
theorem seedPass2_succ (candidates : List HexCoord) (step tc fuel i : Nat)
    (seeds : List HexCoord) :
    seedPass2 candidates step tc (fuel + 1) i seeds =
      if i < candidates.length ∧ seeds.length < tc then
        seedPass2 candidates step tc fuel (i + step)
          (seeds ++ [candidates.getD i ⟨0, 0⟩])
      else seeds :=
  rfl

/-- An in-range default-get is a member. -/
theorem getD_mem_of_lt {cands : List HexCoord} {i : Nat}
    (h : i < cands.length) : cands.getD i ⟨0, 0⟩ ∈ cands := by
  rw [List.getD_eq_getElem?_getD, List.getElem?_eq_getElem h]
  exact List.getElem_mem h

/-- The relaxed seed scan only adds candidates. -/
theorem seedPass2_mem (candidates : List HexCoord) (step tc : Nat) :
    ∀ (fuel i : Nat) (seeds : List HexCoord) (x : HexCoord),
    x ∈ seedPass2 candidates step tc fuel i seeds →
    x ∈ candidates ∨ x ∈ seeds := by
  intro fuel
  induction fuel with
  | zero =>
    intro i seeds x hx
    rw [seedPass2_zero] at hx
    exact Or.inr hx
  | succ f ih =>
    intro i seeds x hx
    rw [seedPass2_succ] at hx
    by_cases h1 : i < candidates.length ∧ seeds.length < tc
    · rw [if_pos h1] at hx
      rcases ih (i + step) _ x hx with h | h
      · exact Or.inl h
      · rcases List.mem_append.mp h with h3 | h3
        · exact Or.inr h3
        · rw [List.mem_singleton] at h3
          rw [h3]
          exact Or.inl (getD_mem_of_lt h1.1)
    · rw [if_neg h1] at hx
      exact Or.inr hx

/-- The relaxed seed scan extends its accumulator. -/
theorem seedPass2_extend (candidates : List HexCoord) (step tc : Nat) :
    ∀ (fuel i : Nat) (seeds : List HexCoord),
    ∃ l, seedPass2 candidates step tc fuel i seeds = seeds ++ l := by
  intro fuel
  induction fuel with
  | zero =>
    intro i seeds
    exact ⟨[], (List.append_nil seeds).symm⟩
  | succ f ih =>
    intro i seeds
    rw [seedPass2_succ]
    by_cases h1 : i < candidates.length ∧ seeds.length < tc
    · rw [if_pos h1]
      obtain ⟨l, hl⟩ := ih (i + step) (seeds ++ [candidates.getD i ⟨0, 0⟩])
      exact ⟨[candidates.getD i ⟨0, 0⟩] ++ l, by rw [hl, List.append_assoc]⟩
    · rw [if_neg h1]
      exact ⟨[], (List.append_nil seeds).symm⟩

/-- The relaxed seed scan returns at least one seed. -/
theorem seedPass2_ne_nil (candidates : List HexCoord) (step tc fuel : Nat)
    (hf : 0 < fuel) (hc : 0 < candidates.length) (htc : 0 < tc) :
    seedPass2 candidates step tc fuel 0 [] ≠ [] := by
  obtain ⟨f2, rfl⟩ : ∃ f2, fuel = f2 + 1 := ⟨fuel - 1, by omega⟩
  rw [seedPass2_succ, if_pos ⟨hc, by simpa using htc⟩]
  obtain ⟨l, hl⟩ := seedPass2_extend candidates step tc f2 (0 + step)
    ([] ++ [candidates.getD 0 ⟨0, 0⟩])
  rw [hl]
  simp

/-- The selected seeds are grid hexes and at least one is selected. -/
theorem SelectSeedPoints_spec (allCoords : List HexCoord) (targetCount : Int)
    (shuffle : List HexCoord → List HexCoord)
    (hne : allCoords ≠ []) (hpos : 0 < targetCount)
    (hshuffle : ∀ l, (shuffle l).Perm l) :
    (∀ x ∈ SelectSeedPoints allCoords targetCount shuffle, x ∈ allCoords) ∧
    SelectSeedPoints allCoords targetCount shuffle ≠ [] := by
  have hguard : ¬ (allCoords = [] ∨ targetCount ≤ 0) := by
    rintro (h | h)
    · exact hne h
    · omega
  have hcperm : (shuffle allCoords).Perm allCoords := hshuffle allCoords
  have hclen : (shuffle allCoords).length = allCoords.length :=
    hcperm.length_eq
  have hcne : shuffle allCoords ≠ [] := by
    intro h0
    rw [h0] at hclen
    have := List.length_pos.mpr hne
    rw [List.length_nil] at hclen
    omega
  have hcmem : ∀ x, x ∈ shuffle allCoords → x ∈ allCoords := fun x hx =>
    hcperm.mem_iff.mp hx
  have htc1 : 1 ≤ targetCount.toNat := by omega
  unfold SelectSeedPoints
  rw [if_neg hguard]
  dsimp only
  obtain ⟨c0, ctail, hcons⟩ := List.exists_cons_of_ne_nil hcne
  have hp1ne : seedPass1
      (max 1 (Nat.sqrt (allCoords.length / targetCount.toNat) * 4 / 5))
      targetCount.toNat (shuffle allCoords) [] ≠ [] := by
    rw [hcons, seedPass1_cons]
    rw [if_neg (by simp; omega)]
    rw [if_neg (by simp)]
    obtain ⟨l, hl⟩ := seedPass1_extend
      (max 1 (Nat.sqrt (allCoords.length / targetCount.toNat) * 4 / 5))
      targetCount.toNat ctail ([] ++ [c0])
    rw [hl]
    simp
  by_cases hbr : (seedPass1
      (max 1 (Nat.sqrt (allCoords.length / targetCount.toNat) * 4 / 5))
      targetCount.toNat (shuffle allCoords) []).length <
      targetCount.toNat / 2
  · rw [if_pos hbr]
    constructor
    · intro x hx
      rcases seedPass2_mem (shuffle allCoords)
        (max 1 ((shuffle allCoords).length / targetCount.toNat))
        targetCount.toNat (shuffle allCoords).length 0 [] x hx with h | h
      · exact hcmem x h
      · exact absurd h (List.not_mem_nil x)
    · have hlenpos : 0 < (shuffle allCoords).length := by
        rw [hcons]
        simp
      exact seedPass2_ne_nil (shuffle allCoords)
        (max 1 ((shuffle allCoords).length / targetCount.toNat))
        targetCount.toNat (shuffle allCoords).length hlenpos hlenpos
        (by omega)
  · rw [if_neg hbr]
    constructor
    · intro x hx
      rcases seedPass1_mem
        (max 1 (Nat.sqrt (allCoords.length / targetCount.toNat) * 4 / 5))
        targetCount.toNat (shuffle allCoords) [] x hx with h | h
      · exact hcmem x h
      · exact absurd h (List.not_mem_nil x)
    · exact hp1ne

/-- Partition correctness of FloodFillTerritories on a cleared state over a
connected grid: every grid hex gets exactly one hexToTerritory entry, the
union of the hex lists is the grid, no hex lies in two territories, and the
hex lists are duplicate-free. -/
theorem FloodFill_correct (grid seeds : List HexCoord) (s : GameState)
    (r : Rng)
    (hst : s.territories = []) (hsh : s.hexToTerritory = [])
    (hseeds : ∀ x ∈ seeds, x ∈ grid) (hsne : seeds ≠ [])
    (hconn : ∀ a c, a ∈ grid → c ∈ grid → gridReach grid a c) :
    (∀ c ∈ grid, ∃ tid,
      hmGet (FloodFillTerritories grid seeds s r).1.hexToTerritory c =
        some tid) ∧
    (((FloodFillTerritories grid seeds s r).1.hexToTerritory.map
      Prod.fst).Nodup) ∧
    (∀ c : HexCoord,
      (∃ t ∈ (FloodFillTerritories grid seeds s r).1.territories,
        c ∈ t.hexes) ↔ c ∈ grid) ∧
    (∀ (i j : Nat) (ti tj : TerritoryData) (c : HexCoord),
      (FloodFillTerritories grid seeds s r).1.territories[i]? = some ti →
      (FloodFillTerritories grid seeds s r).1.territories[j]? = some tj →
      c ∈ ti.hexes → c ∈ tj.hexes → i = j) ∧
    (∀ t ∈ (FloodFillTerritories grid seeds s r).1.territories,
      t.hexes.Nodup) := by
  have hproj1 : (FloodFillTerritories grid seeds s r).1.hexToTerritory =
      (floodLoop grid (seeds.length + 7 * grid.length + 1) (seeds.enum.map (fun p => ((0 : Int), p.2, p.1))) r (s.territories ++ (List.range seeds.length).map (fun i => ({ id := i, owner := PLAYER_NONE, diceCount := 1, hexes := [], neighbors := [], centerHex := ⟨0, 0⟩ } : TerritoryData))) s.hexToTerritory ∅).2.1 := rfl
  have hproj2 : (FloodFillTerritories grid seeds s r).1.territories =
      (floodLoop grid (seeds.length + 7 * grid.length + 1) (seeds.enum.map (fun p => ((0 : Int), p.2, p.1))) r (s.territories ++ (List.range seeds.length).map (fun i => ({ id := i, owner := PLAYER_NONE, diceCount := 1, hexes := [], neighbors := [], centerHex := ⟨0, 0⟩ } : TerritoryData))) s.hexToTerritory ∅).1 := rfl
  have hts0len : (s.territories ++ (List.range seeds.length).map (fun i => ({ id := i, owner := PLAYER_NONE, diceCount := 1, hexes := [], neighbors := [], centerHex := ⟨0, 0⟩ } : TerritoryData))).length = seeds.length := by
    rw [List.length_append, hst, List.length_nil, List.length_map,
      List.length_range]
    omega
  obtain ⟨K1, K2, K3, K4, K5, K6, K7, K8, K9, K10⟩ :=
    floodLoop_correct grid (seeds.length + 7 * grid.length + 1)
      (seeds.enum.map (fun p => ((0 : Int), p.2, p.1))) r (s.territories ++ (List.range seeds.length).map (fun i => ({ id := i, owner := PLAYER_NONE, diceCount := 1, hexes := [], neighbors := [], centerHex := ⟨0, 0⟩ } : TerritoryData))) s.hexToTerritory ∅
      (by
        rw [Finset.sdiff_empty, List.length_map, List.enum_length]
        have h2 := List.toFinset_card_le grid
        omega)
      (by
        intro it hit
        rw [List.mem_map] at hit
        obtain ⟨p, hp, rfl⟩ := hit
        rw [List.mem_enum_iff_getElem?] at hp
        have hplen : p.1 < seeds.length := by
          by_contra hbig
          rw [List.getElem?_eq_none (by omega)] at hp
          exact Option.noConfusion hp
        refine ⟨hseeds p.2 (List.getElem?_mem hp), ?_⟩
        rw [hts0len]
        exact hplen)
      (fun c hc => absurd hc (Finset.not_mem_empty c))
      (by
        intro c
        rw [hsh]
        constructor
        · intro hc
          exact absurd hc (Finset.not_mem_empty c)
        · rintro ⟨tid, h⟩
          exact Option.noConfusion h)
      (by
        rw [hsh]
        simp)
      (by
        intro c tid h
        rw [hsh] at h
        exact Option.noConfusion h)
      (by
        intro i t hit c hc
        rw [hst, List.nil_append, List.getElem?_map] at hit
        cases hk : (List.range seeds.length)[i]? with
        | none =>
          rw [hk] at hit
          exact Option.noConfusion hit
        | some k =>
          rw [hk] at hit
          have ht2 := Option.some.inj hit
          rw [← ht2] at hc
          exact absurd hc (List.not_mem_nil c))
      (by
        intro i t hit
        rw [hst, List.nil_append, List.getElem?_map] at hit
        cases hk : (List.range seeds.length)[i]? with
        | none =>
          rw [hk] at hit
          exact Option.noConfusion hit
        | some k =>
          rw [hk] at hit
          have ht2 := Option.some.inj hit
          rw [← ht2]
          exact List.nodup_nil)
      (fun c hc => absurd hc (Finset.not_mem_empty c))
  have hcover : ∀ c ∈ grid, c ∈ (floodLoop grid (seeds.length + 7 * grid.length + 1) (seeds.enum.map (fun p => ((0 : Int), p.2, p.1))) r (s.territories ++ (List.range seeds.length).map (fun i => ({ id := i, owner := PLAYER_NONE, diceCount := 1, hexes := [], neighbors := [], centerHex := ⟨0, 0⟩ } : TerritoryData))) s.hexToTerritory ∅).2.2.1 := by
    intro c hc
    obtain ⟨s0, hs0⟩ := List.exists_mem_of_ne_nil seeds hsne
    obtain ⟨i0, hi0⟩ := List.mem_iff_getElem?.mp hs0
    have hq0 : ((0 : Int), s0, i0) ∈ seeds.enum.map (fun p => ((0 : Int), p.2, p.1)) := by
      rw [List.mem_map]
      exact ⟨(i0, s0), List.mem_enum_iff_getElem?.mpr hi0, rfl⟩
    have hs0a : s0 ∈ (floodLoop grid (seeds.length + 7 * grid.length + 1) (seeds.enum.map (fun p => ((0 : Int), p.2, p.1))) r (s.territories ++ (List.range seeds.length).map (fun i => ({ id := i, owner := PLAYER_NONE, diceCount := 1, hexes := [], neighbors := [], centerHex := ⟨0, 0⟩ } : TerritoryData))) s.hexToTerritory ∅).2.2.1 := K2 _ hq0
    exact gridReach_sub_closed hs0a K3 c (hconn s0 c (hseeds s0 hs0) hc)
  refine ⟨?_, ?_, ?_, ?_, ?_⟩
  · intro c hc
    rw [hproj1]
    exact (K5 c).mp (hcover c hc)
  · rw [hproj1]
    exact K6
  · intro c
    rw [hproj2]
    constructor
    · rintro ⟨t, htmem, hct⟩
      obtain ⟨i, hi⟩ := List.mem_iff_getElem?.mp htmem
      have h2 := K8 i t hi c hct
      exact K4 c ((K5 c).mpr ⟨i, h2⟩)
    · intro hc
      obtain ⟨tid, hg⟩ := (K5 c).mp (hcover c hc)
      obtain ⟨t, ht, hct⟩ := K7 c tid hg
      exact ⟨t, List.getElem?_mem ht, hct⟩
  · intro i j ti tj c hti htj hcti hctj
    rw [hproj2] at hti htj
    have h1 := K8 i ti hti c hcti
    have h2 := K8 j tj htj c hctj
    exact Option.some.inj (h1.symm.trans h2)
  · intro t htmem
    rw [hproj2] at htmem
    obtain ⟨i, hi⟩ := List.mem_iff_getElem?.mp htmem
    exact K9 i t hi

/-- Claim C5. After TerritoryGenerator::Generate on a non-empty hexagonal
grid (radius at least 0, so the origin hex exists) with a positive target
territory count, and with the std::shuffle oracle producing a permutation:
every grid hex is mapped by hexToTerritory to a territory id and the map's
keys are unique (each hex has exactly one entry), the union of the
territories' hex lists is exactly the grid coordinate set, no hex appears
in the lists of two territories, and every hex list is duplicate-free. -/
theorem C5_generate_partitions (radius : Int) (s : GameState)
    (shuffle : List HexCoord → List HexCoord) (r : Rng)
    (hrad : 0 ≤ radius) (htc : 1 ≤ s.config.targetTerritoryCount)
    (hshuffle : ∀ l, (shuffle l).Perm l) :
    (∀ c ∈ GenerateHexagonalGrid radius, ∃ tid,
      hmGet ((TerritoryGenerator.Generate (GenerateHexagonalGrid radius) s shuffle r).1).hexToTerritory
        c = some tid) ∧
    ((((TerritoryGenerator.Generate (GenerateHexagonalGrid radius) s shuffle r).1).hexToTerritory.map
      Prod.fst).Nodup) ∧
    (∀ c : HexCoord,
      (∃ t ∈ ((TerritoryGenerator.Generate (GenerateHexagonalGrid radius) s shuffle r).1).territories,
        c ∈ t.hexes) ↔ c ∈ GenerateHexagonalGrid radius) ∧
    (∀ (i j : Nat) (ti tj : TerritoryData) (c : HexCoord),
      ((TerritoryGenerator.Generate (GenerateHexagonalGrid radius) s shuffle r).1).territories[i]? =
        some ti →
      ((TerritoryGenerator.Generate (GenerateHexagonalGrid radius) s shuffle r).1).territories[j]? =
        some tj →
      c ∈ ti.hexes → c ∈ tj.hexes → i = j) ∧
    (∀ t ∈ ((TerritoryGenerator.Generate (GenerateHexagonalGrid radius) s shuffle r).1).territories,
      t.hexes.Nodup) := by
  have hctr : (⟨0, 0⟩ : HexCoord) ∈ GenerateHexagonalGrid radius := by
    rw [mem_hexGrid]
    dsimp only
    omega
  have hgne : GenerateHexagonalGrid radius ≠ [] := by
    intro h0
    rw [h0] at hctr
    exact absurd hctr (List.not_mem_nil _)
  obtain ⟨hseedsub, hseedne⟩ := SelectSeedPoints_spec (GenerateHexagonalGrid radius)
    s.config.targetTerritoryCount shuffle hgne (by omega) hshuffle
  obtain ⟨A1, A2, A3, A4, A5⟩ := FloodFill_correct (GenerateHexagonalGrid radius) (SelectSeedPoints (GenerateHexagonalGrid radius) s.config.targetTerritoryCount shuffle)
    ({ s with territories := ([] : List TerritoryData), hexToTerritory := ([] : HexMap) }) r rfl rfl hseedsub hseedne
    (fun a c ha hc => gridReach_between radius a c ha hc)
  have hH : ((TerritoryGenerator.Generate (GenerateHexagonalGrid radius) s shuffle r).1).hexToTerritory =
      (FloodFillTerritories (GenerateHexagonalGrid radius) (SelectSeedPoints (GenerateHexagonalGrid radius) s.config.targetTerritoryCount shuffle) ({ s with territories := ([] : List TerritoryData), hexToTerritory := ([] : HexMap) }) r).1.hexToTerritory := rfl
  have hT : ((TerritoryGenerator.Generate (GenerateHexagonalGrid radius) s shuffle r).1).territories =
      ((FloodFillTerritories (GenerateHexagonalGrid radius) (SelectSeedPoints (GenerateHexagonalGrid radius) s.config.targetTerritoryCount shuffle) ({ s with territories := ([] : List TerritoryData), hexToTerritory := ([] : HexMap) }) r).1.territories.map
        (fun t => { t with neighbors := territoryNbrs (GenerateHexagonalGrid radius) (FloodFillTerritories (GenerateHexagonalGrid radius) (SelectSeedPoints (GenerateHexagonalGrid radius) s.config.targetTerritoryCount shuffle) ({ s with territories := ([] : List TerritoryData), hexToTerritory := ([] : HexMap) }) r).1 t })).map
        (fun t => { t with centerHex := FindTerritoryCenter t }) := rfl
  refine ⟨?_, ?_, ?_, ?_, ?_⟩
  · intro c hc
    rw [hH]
    exact A1 c hc
  · rw [hH]
    exact A2
  · intro c
    rw [hT]
    constructor
    · rintro ⟨t2, ht2, hct2⟩
      rw [List.mem_map] at ht2
      obtain ⟨u, hu, hu2⟩ := ht2
      rw [List.mem_map] at hu
      obtain ⟨t, ht, ht3⟩ := hu
      rw [← hu2, ← ht3] at hct2
      exact (A3 c).mp ⟨t, ht, hct2⟩
    · intro hc
      obtain ⟨t, ht, hct⟩ := (A3 c).mpr hc
      refine ⟨{ { t with neighbors := territoryNbrs (GenerateHexagonalGrid radius) (FloodFillTerritories (GenerateHexagonalGrid radius) (SelectSeedPoints (GenerateHexagonalGrid radius) s.config.targetTerritoryCount shuffle) ({ s with territories := ([] : List TerritoryData), hexToTerritory := ([] : HexMap) }) r).1 t } with centerHex := FindTerritoryCenter { t with neighbors := territoryNbrs (GenerateHexagonalGrid radius) (FloodFillTerritories (GenerateHexagonalGrid radius) (SelectSeedPoints (GenerateHexagonalGrid radius) s.config.targetTerritoryCount shuffle) ({ s with territories := ([] : List TerritoryData), hexToTerritory := ([] : HexMap) }) r).1 t } }, ?_, hct⟩
      rw [List.mem_map]
      refine ⟨_, ?_, rfl⟩
      rw [List.mem_map]
      exact ⟨t, ht, rfl⟩
  · intro i j ti tj c hti htj hcti hctj
    rw [hT, List.getElem?_map, List.getElem?_map] at hti htj
    cases h1 : (FloodFillTerritories (GenerateHexagonalGrid radius) (SelectSeedPoints (GenerateHexagonalGrid radius) s.config.targetTerritoryCount shuffle) ({ s with territories := ([] : List TerritoryData), hexToTerritory := ([] : HexMap) }) r).1.territories[i]? with
    | none =>
      rw [h1] at hti
      exact Option.noConfusion hti
    | some t =>
      rw [h1] at hti
      cases h2 : (FloodFillTerritories (GenerateHexagonalGrid radius) (SelectSeedPoints (GenerateHexagonalGrid radius) s.config.targetTerritoryCount shuffle) ({ s with territories := ([] : List TerritoryData), hexToTerritory := ([] : HexMap) }) r).1.territories[j]? with
      | none =>
        rw [h2] at htj
        exact Option.noConfusion htj
      | some u =>
        rw [h2] at htj
        have hti2 := Option.some.inj hti
        have htj2 := Option.some.inj htj
        rw [← hti2] at hcti
        rw [← htj2] at hctj
        exact A4 i j t u c h1 h2 hcti hctj
  · intro t2 ht2
    rw [hT, List.mem_map] at ht2
    obtain ⟨u, hu, hu2⟩ := ht2
    rw [List.mem_map] at hu
    obtain ⟨t, ht, ht3⟩ := hu
    rw [← hu2, ← ht3]
    exact A5 t ht

/-- Concrete instance of claim C5: the radius-0 grid with the identity
shuffle oracle; every grid hex of the generated state has a
hexToTerritory entry. -/
theorem C5_witness :
    (0 : Int) ≤ 0 ∧
    (1 : Int) ≤ twoState.config.targetTerritoryCount ∧
    (∀ c ∈ GenerateHexagonalGrid 0, ∃ tid,
      hmGet ((TerritoryGenerator.Generate (GenerateHexagonalGrid 0) twoState
        (fun l => l) (constRng 0)).1).hexToTerritory c = some tid) :=
  ⟨le_refl 0, by decide,
    (C5_generate_partitions 0 twoState (fun l => l) (constRng 0) (le_refl 0)
      (by decide) (fun l => List.Perm.refl l)).1⟩

end Hexempire
